import Mathlib

/-!
# Multi-REMUXer: the BDMV playlist reader (`src/src/bdmv_parser.cpp`)

A shallow embedding of `BDMVParser` and of `PlayItem::GetDurationSeconds`.

Conventions of the embedding.

* A file is a list of bytes. The `std::ifstream` the parser reads from is the
  record `IfStream`: the bytes, the position of the file buffer, and the two
  state bits the code can reach (`eofbit`, `failbit`). The stream never throws
  (its exception mask is the default one), a failed operation only sets bits,
  and every later operation on a failed stream does nothing.
* A local variable that the C++ code declares without initialising it and then
  fills with `read` keeps its prior content where the read was short. That
  prior content is an explicit parameter (`PlayItemJunk`, `MPLSJunk`).
* `uint16_t` / `uint32_t` values are natural numbers below `2^16` / `2^32`;
  the one place where 32-bit arithmetic wraps (`outTime - inTime`) is written
  with an explicit `% 2^32`.
* `double` has two models. In `BDMVTitle`, `GetDurationSeconds` and the loop
  of `ParseMPLSFile` it is `ℚ`: the division by `45000.0` and the running sum
  are exact. `GetDurationSecondsDouble` and `ParseMPLSFile.durationDouble`
  give the same computation in IEEE 754 binary64, with the rounding of the
  division and of every addition; the claim on the value of the sum is settled
  on them. The two durations of a title differ by at most `n / 2^20`, `n`
  being the number of its play items (`durationDouble_error`).
-/

namespace MultiREMUXer

/-! ## Bytes and integers -/

/-- One byte of a file. -/
abbrev Byte := Fin 256

/-- Value of a little-endian byte sequence: what an integer variable holds
after `read` stored these bytes at its address (x86/x64/ARM Windows). -/
def fromLE : List Byte → Nat
  | [] => 0
  | b :: bs => b.val + 256 * fromLE bs

/-- The `n` bytes of an integer variable holding `x`, lowest byte first. -/
def toLE : Nat → Nat → List Byte
  | 0, _ => []
  | n + 1, x => Fin.ofNat x :: toLE n (x / 256)

/-- Value of a big-endian byte sequence (first byte most significant). -/
def fromBE (bs : List Byte) : Nat :=
  bs.foldl (fun acc b => acc * 256 + b.val) 0

/-- The intrinsic `_byteswap_ushort` on a 16-bit value. -/
def _byteswap_ushort (x : Nat) : Nat :=
  (x % 256) * 256 + (x / 256) % 256

/-- The intrinsic `_byteswap_ulong` on a 32-bit value. -/
def _byteswap_ulong (x : Nat) : Nat :=
  (x % 256) * 16777216 + ((x / 256) % 256) * 65536
    + ((x / 65536) % 256) * 256 + (x / 16777216) % 256

/-- `std::string(const char*)`: the bytes before the first NUL, as characters. -/
def cString (buf : List Byte) : String :=
  String.mk ((buf.takeWhile (fun b => b ≠ 0)).map (fun b => Char.ofNat b.val))

/-! ## The input stream -/

/-- State of a binary `std::ifstream` opened on a file with content `data`. -/
structure IfStream where
  data : List Byte
  pos : Nat
  eofbit : Bool
  failbit : Bool
deriving DecidableEq, Repr

namespace IfStream

/-- A freshly opened stream. -/
def opened (data : List Byte) : IfStream :=
  { data := data, pos := 0, eofbit := false, failbit := false }

/-- `good()`: no state bit is set. -/
def good (f : IfStream) : Bool := !f.eofbit && !f.failbit

/-- `read(buf, n)`. `buf` is the prior content of the `n`-byte destination.
On a stream that is not good the sentry sets `failbit` and nothing is stored.
Otherwise the available bytes are stored; fewer than `n` of them sets
`eofbit | failbit` and leaves the tail of the destination as it was. -/
def read (f : IfStream) (n : Nat) (buf : List Byte) : IfStream × List Byte :=
  if f.good then
    let got := (f.data.drop f.pos).take n
    if got.length = n then
      ({ f with pos := f.pos + n }, got)
    else
      ({ f with pos := f.pos + got.length, eofbit := true, failbit := true },
        got ++ buf.drop got.length)
  else
    ({ f with failbit := true }, buf)

/-- `tellg()`: the position, or `-1` when the stream has failed (the sentry
turns a stream that is not good into a failed one). -/
def tellg (f : IfStream) : IfStream × Int :=
  if f.good then (f, (f.pos : Int)) else ({ f with failbit := true }, -1)

/-- `seekg(pos)`: clears `eofbit`; on a failed stream nothing else happens;
a negative position fails; a position past the end of the file is accepted. -/
def seekg (f : IfStream) (p : Int) : IfStream :=
  let f1 := { f with eofbit := false }
  if f1.failbit then f1
  else if p < 0 then { f1 with failbit := true }
  else { f1 with pos := p.toNat }

/-- `seekg(off, std::ios::cur)` for the non-negative offsets the parser uses. -/
def seekgCur (f : IfStream) (off : Nat) : IfStream :=
  let f1 := { f with eofbit := false }
  if f1.failbit then f1 else { f1 with pos := f1.pos + off }

end IfStream

/-! ## Play items -/

/-- `struct PlayItem` of `bdmv_parser.h`. -/
structure PlayItem where
  clipName : String
  inTime : Nat
  outTime : Nat
deriving DecidableEq, Repr

/-- `PlayItem::GetDurationSeconds`: `static_cast<double>(outTime - inTime) / 45000.0`,
the subtraction being the one of `uint32_t`. -/
def PlayItem.GetDurationSeconds (item : PlayItem) : ℚ :=
  (((item.outTime % 2 ^ 32 + 2 ^ 32 - item.inTime % 2 ^ 32) % 2 ^ 32 : Nat) : ℚ) / 45000

/-- Prior contents of the uninitialised locals `length`, `inTime`, `outTime`
of `ParsePlayItem`. -/
structure PlayItemJunk where
  length : Nat
  inTime : Nat
  outTime : Nat
deriving DecidableEq, Repr

/-- `BDMVParser::ParsePlayItem`: the item and the stream after the call. -/
def ParsePlayItem (junk : PlayItemJunk) (file : IfStream) : PlayItem × IfStream :=
  -- uint16_t length; file.read(&length, 2); length = _byteswap_ushort(length);
  let r := file.read 2 (toLE 2 junk.length)
  let length := _byteswap_ushort (fromLE r.2)
  -- std::streampos startPos = file.tellg();
  let t := r.1.tellg
  let startPos := t.2
  -- char clipName[6] = {0}; file.read(clipName, 5); item.clipName = std::string(clipName);
  let c := t.1.read 5 (List.replicate 5 0)
  let clipName := cString (c.2 ++ [0])
  -- file.seekg(4, std::ios::cur);
  let f := c.1.seekgCur 4
  -- file.seekg(startPos); file.seekg(14, std::ios::cur);
  let f := (f.seekg startPos).seekgCur 14
  -- uint32_t inTime; file.read(&inTime, 4); item.inTime = _byteswap_ulong(inTime);
  let i := f.read 4 (toLE 4 junk.inTime)
  let inTime := _byteswap_ulong (fromLE i.2)
  -- uint32_t outTime; file.read(&outTime, 4); item.outTime = _byteswap_ulong(outTime);
  let o := i.1.read 4 (toLE 4 junk.outTime)
  let outTime := _byteswap_ulong (fromLE o.2)
  -- file.seekg(startPos); file.seekg(length, std::ios::cur);
  let f := (o.1.seekg startPos).seekgCur length
  ({ clipName := clipName, inTime := inTime, outTime := outTime }, f)

/-! ## The host: file system, `size_t`, the `ffprobe` tool -/

/-- A path, as its sequence of components. -/
abbrev Path := List String

/-- `path::filename()`: the last component. -/
def filename (p : Path) : String := p.getLast?.getD ""

/-- The suffix of a name that starts at its last period, if it has one. -/
def lastDotSuffix : List Char → Option (List Char)
  | [] => none
  | c :: cs =>
    match lastDotSuffix cs with
    | some e => some e
    | none => if c = '.' then some (c :: cs) else none

/-- `path::extension()` of a file name: from the last period on; empty for
`.` and `..`, and a period that starts the name does not open an extension. -/
def extension (name : String) : String :=
  if name = "." ∨ name = ".." then ""
  else
    match name.data with
    | [] => ""
    | _ :: rest => String.mk ((lastDotSuffix rest).getD [])

/-- What the program observes of the machine it runs on. Calls of
`std::filesystem` are taken not to throw. -/
structure Host where
  /-- `fs::exists(p)`. -/
  pathExists : Path → Bool
  /-- `fs::file_size(p)` of an existing file. -/
  fileSize : Path → Nat
  /-- Names yielded by `fs::directory_iterator(p)`, in the order it yields them. -/
  entries : Path → List String
  /-- Bytes an `std::ifstream` opened on `p` reads; `none` when `is_open()` is false. -/
  content : Path → Option (List Byte)
  /-- Text read from the pipe of `ffprobe ... "p"`; `none` when `_popen` fails. -/
  ffprobe : Path → Option String
  /-- Width of `size_t` in bits. -/
  sizeBits : Nat

/-! ## Languages -/

/-- `BDMVParser::languageMap`. -/
def languageMap : List (String × String) :=
  [("eng", "English"), ("spa", "Spanish"), ("fre", "French"), ("ger", "German"),
   ("ita", "Italian"), ("por", "Portuguese"), ("rus", "Russian"), ("jpn", "Japanese"),
   ("kor", "Korean"), ("chi", "Chinese"), ("hin", "Hindi"), ("ara", "Arabic"),
   ("dut", "Dutch"), ("swe", "Swedish"), ("nor", "Norwegian"), ("dan", "Danish"),
   ("fin", "Finnish"), ("pol", "Polish"), ("cze", "Czech"), ("hun", "Hungarian"),
   ("tha", "Thai"), ("vie", "Vietnamese"), ("und", "Unknown")]

/-- `std::set<std::string>::insert` on a set kept as its sorted list of elements. -/
def setInsert (x : String) : List String → List String
  | [] => [x]
  | y :: ys =>
    if x < y then x :: y :: ys
    else if x = y then y :: ys
    else y :: setInsert x ys

/-- Whitespace of the regex class `\s` in the "C" locale. -/
def isSpace (c : Char) : Bool :=
  c = ' ' || c = '\t' || c = '\n' || c = '\x0b' || c = '\x0c' || c = '\r'

/-- Removes a literal prefix. -/
def dropLiteral : List Char → List Char → Option (List Char)
  | [], s => some s
  | _ :: _, [] => none
  | p :: ps, c :: cs => if p = c then dropLiteral ps cs else none

/-- A match of `"language"\s*:\s*"([^"]+)"` that starts at the head of `s`:
the captured group and the text after the match. Both starred classes and the
group are followed by a character outside the class, so the greedy match is
the only one. -/
def matchLanguageAt (s : List Char) : Option (List Char × List Char) :=
  match dropLiteral "\"language\"".data s with
  | none => none
  | some r1 =>
    match r1.dropWhile isSpace with
    | ':' :: r2 =>
      match r2.dropWhile isSpace with
      | '"' :: r3 =>
        let cap := r3.takeWhile (fun c => c ≠ '"')
        match cap, r3.dropWhile (fun c => c ≠ '"') with
        | _ :: _, '"' :: r4 => some (cap, r4)
        | _, _ => none
      | _ => none
    | _ => none

/-- The captures of all successive matches of the language pattern
(`std::sregex_iterator`): `skip` is the number of characters still covered by
the match found last. -/
def languageCaptures : Nat → List Char → List (List Char)
  | _, [] => []
  | skip + 1, _ :: cs => languageCaptures skip cs
  | 0, c :: cs =>
    match matchLanguageAt (c :: cs) with
    | some (cap, rest) => cap :: languageCaptures ((c :: cs).length - rest.length - 1) cs
    | none => languageCaptures 0 cs

/-- `BDMVParser::AnalyzeStreamLanguages`. The pattern built from `streamType`
(`typePattern`, `typeIter`) is constructed by the code and not consulted. -/
def AnalyzeStreamLanguages (host : Host) (m2tsPath : Path) (streamType : String) :
    List String :=
  let _typePattern := "\"codec_type\"\\s*:\\s*\"(" ++ streamType ++ ")\""
  match host.ffprobe m2tsPath with
  | none => []
  | some result =>
    (languageCaptures 0 result.data).foldl
      (fun languages cap =>
        match languageMap.lookup (String.mk cap) with
        | some name => setInsert name languages
        | none => languages)
      []

/-- `BDMVParser::GetLanguageName`. -/
def GetLanguageName (code : String) : String :=
  (languageMap.lookup code).getD code

/-- The table `languageNameToCode` of `ffmpeg_wrapper.cpp`. -/
def languageNameToCode : List (String × String) :=
  [("English", "eng"), ("Spanish", "spa"), ("French", "fre"), ("German", "ger"),
   ("Italian", "ita"), ("Portuguese", "por"), ("Russian", "rus"), ("Japanese", "jpn"),
   ("Korean", "kor"), ("Chinese", "chi"), ("Hindi", "hin"), ("Arabic", "ara"),
   ("Dutch", "dut"), ("Swedish", "swe"), ("Norwegian", "nor"), ("Danish", "dan"),
   ("Finnish", "fin"), ("Polish", "pol"), ("Czech", "cze"), ("Hungarian", "hun"),
   ("Thai", "tha"), ("Vietnamese", "vie"), ("Unknown", "und")]

/-- `FFmpegWrapper::LanguageNameToCode`. -/
def LanguageNameToCode (languageName : String) : String :=
  (languageNameToCode.lookup languageName).getD "und"

/-- Body shared by `GetAudioLanguages` and `GetSubtitleLanguages`. -/
def firstClipLanguages (host : Host) (streamDir : Path) (playItems : List PlayItem)
    (streamType : String) (fallback : List String) : List String :=
  let languages :=
    match playItems with
    | [] => []
    | first :: _ =>
      let m2tsPath := streamDir ++ [first.clipName ++ ".m2ts"]
      if host.pathExists m2tsPath then AnalyzeStreamLanguages host m2tsPath streamType
      else []
  if languages = [] then fallback else languages

/-- `BDMVParser::GetAudioLanguages`. -/
def GetAudioLanguages (host : Host) (streamDir : Path) (playItems : List PlayItem) :
    List String :=
  firstClipLanguages host streamDir playItems "audio"
    (setInsert "French" (setInsert "Spanish" (setInsert "English" [])))

/-- `BDMVParser::GetSubtitleLanguages`. -/
def GetSubtitleLanguages (host : Host) (streamDir : Path) (playItems : List PlayItem) :
    List String :=
  firstClipLanguages host streamDir playItems "subtitle"
    (setInsert "Spanish" (setInsert "English" []))

/-! ## Playlist files -/

/-- `struct BDMVTitle` of `bdmv_parser.h`. -/
structure BDMVTitle where
  id : Int
  filename : String
  duration : ℚ
  size : Nat
  audioLanguages : List String
  subtitleLanguages : List String
deriving DecidableEq

/-- Prior contents of the uninitialised locals of `ParseMPLSFile` (`title.id`,
`magic`, `playlistStart`, `playlistLength`, `playItemCount`) and, for the
`i`-th call of `ParsePlayItem`, of that call's locals. -/
structure MPLSJunk where
  id : Int
  magic : Nat
  playlistStart : Nat
  playlistLength : Nat
  playItemCount : Nat
  item : Nat → PlayItemJunk

/-- The variables the play-item loop of `ParseMPLSFile` updates. -/
structure LoopState where
  file : IfStream
  playItems : List PlayItem
  duration : ℚ
  size : Nat

/-- One pass through the body of the play-item loop. -/
def loopBody (host : Host) (streamDir : Path) (junk : PlayItemJunk) (st : LoopState) :
    LoopState :=
  -- PlayItem item = ParsePlayItem(file);
  let r := ParsePlayItem junk st.file
  let item := r.1
  -- if (!item.clipName.empty()) {
  if item.clipName ≠ "" then
    let m2tsPath := streamDir ++ [item.clipName ++ ".m2ts"]
    { file := r.2
      -- playItems.push_back(item);
      playItems := st.playItems ++ [item]
      -- title.duration += item.GetDurationSeconds();
      duration := st.duration + item.GetDurationSeconds
      -- if (fs::exists(m2tsPath)) title.size += fs::file_size(m2tsPath);
      size :=
        if host.pathExists m2tsPath then
          (st.size + host.fileSize m2tsPath) % 2 ^ host.sizeBits
        else st.size }
  else
    { st with file := r.2 }

/-- The loop `for (int i = 0; i < playItemCount; i++)`: `n` passes are left and
the next one is pass number `i`. -/
def playItemLoop (host : Host) (streamDir : Path) (junk : Nat → PlayItemJunk) :
    Nat → Nat → LoopState → LoopState
  | _, 0, st => st
  | i, n + 1, st => playItemLoop host streamDir junk (i + 1) n (loopBody host streamDir (junk i) st)

/-- The bytes of the magic `"MPLS"`. -/
def mplsMagic : List Byte := [77, 80, 76, 83]

/-- What `ParseMPLSFile` holds when it returns: the title it returns and its
local vector `playItems`. -/
structure MPLSLocals where
  title : BDMVTitle
  playItems : List PlayItem
deriving DecidableEq

/-- The part of `ParseMPLSFile` between the opening of the file and the loop:
`none` when the magic check returns, else the stream at the loop's start and
`playItemCount`. -/
def readHeader (junk : MPLSJunk) (data : List Byte) : Option (IfStream × Nat) :=
  -- char magic[4]; file.read(magic, 4); if (std::string(magic, 4) != "MPLS") return title;
  let m := (IfStream.opened data).read 4 (toLE 4 junk.magic)
  if m.2 ≠ mplsMagic then none
  else
    -- file.seekg(8); file.read(&playlistStart, 4); playlistStart = _byteswap_ulong(playlistStart);
    let s := (m.1.seekg 8).read 4 (toLE 4 junk.playlistStart)
    let playlistStart := _byteswap_ulong (fromLE s.2)
    -- file.seekg(playlistStart); file.read(&playlistLength, 4);
    let l := (s.1.seekg (playlistStart : Int)).read 4 (toLE 4 junk.playlistLength)
    -- file.seekg(2, std::ios::cur); file.read(&playItemCount, 2);
    let c := (l.1.seekgCur 2).read 2 (toLE 2 junk.playItemCount)
    let playItemCount := _byteswap_ushort (fromLE c.2)
    -- file.seekg(2, std::ios::cur);
    some (c.1.seekgCur 2, playItemCount)

/-- Body of `BDMVParser::ParseMPLSFile`. -/
def ParseMPLSFile.locals (host : Host) (junk : MPLSJunk) (mplsPath streamDir : Path) :
    MPLSLocals :=
  -- title.filename = mplsPath.filename().string(); title.duration = 0; title.size = 0;
  let title : BDMVTitle :=
    { id := junk.id, filename := filename mplsPath, duration := 0, size := 0,
      audioLanguages := [], subtitleLanguages := [] }
  -- std::ifstream file(mplsPath, std::ios::binary); if (!file.is_open()) return title;
  match host.content mplsPath with
  | none => { title := title, playItems := [] }
  | some data =>
    match readHeader junk data with
    | none => { title := title, playItems := [] }
    | some (file, playItemCount) =>
      let st := playItemLoop host streamDir junk.item 0 playItemCount
        { file := file, playItems := [], duration := 0, size := 0 }
      { title :=
          { title with
            duration := st.duration
            size := st.size
            audioLanguages := GetAudioLanguages host streamDir st.playItems
            subtitleLanguages := GetSubtitleLanguages host streamDir st.playItems }
        playItems := st.playItems }

/-- `BDMVParser::ParseMPLSFile`. -/
def ParseMPLSFile (host : Host) (junk : MPLSJunk) (mplsPath streamDir : Path) : BDMVTitle :=
  (ParseMPLSFile.locals host junk mplsPath streamDir).title

/-! ## Folders -/

/-- The comparator `[](const BDMVTitle& a, const BDMVTitle& b) { return a.duration > b.duration; }`. -/
def longerFirst (a b : BDMVTitle) : Bool := decide (a.duration > b.duration)

/-- What the C++ standard promises of `std::sort(first, last, comp)`: the
result is a rearrangement of the input in which no element is followed,
however far behind, by one that `comp` puts before it. -/
def StdSortContract (sort : (BDMVTitle → BDMVTitle → Bool) → List BDMVTitle → List BDMVTitle)
    (comp : BDMVTitle → BDMVTitle → Bool) : Prop :=
  ∀ l, (sort comp l).Perm l ∧ (sort comp l).Pairwise (fun a b => comp b a = false)

/-- The loop `for (i = 0; i < titles.size(); i++) titles[i].id = static_cast<int>(i);`
from index `i` on. -/
def assignIds : Nat → List BDMVTitle → List BDMVTitle
  | _, [] => []
  | i, t :: ts => { t with id := (i : Int) } :: assignIds (i + 1) ts

/-- One pass through the body of the loop over
`fs::directory_iterator(playlistDir)`, for the entry called `name`. -/
def scanEntry (host : Host) (junk : Path → MPLSJunk) (playlistDir streamDir : Path)
    (titles : List BDMVTitle) (name : String) : List BDMVTitle :=
  -- if (entry.path().extension() == ".mpls") {
  if extension name = ".mpls" then
    -- auto title = ParseMPLSFile(entry.path(), streamDir);
    let title :=
      ParseMPLSFile host (junk (playlistDir ++ [name])) (playlistDir ++ [name]) streamDir
    -- if (title.duration > 120) titles.push_back(title);
    if title.duration > 120 then titles ++ [title] else titles
  else titles

/-- The vector `titles` after the loop over `fs::directory_iterator(playlistDir)`. -/
def scanPlaylists (host : Host) (junk : Path → MPLSJunk) (playlistDir streamDir : Path) :
    List BDMVTitle :=
  (host.entries playlistDir).foldl (scanEntry host junk playlistDir streamDir) []

/-- `BDMVParser::ParseBDMVFolder`. `sort` is `std::sort`. -/
def ParseBDMVFolder (host : Host)
    (sort : (BDMVTitle → BDMVTitle → Bool) → List BDMVTitle → List BDMVTitle)
    (junk : Path → MPLSJunk) (path : Path) : List BDMVTitle :=
  -- if (bdmvPath.filename() != "BDMV") bdmvPath = bdmvPath / "BDMV";
  let bdmvPath := if filename path ≠ "BDMV" then path ++ ["BDMV"] else path
  -- if (!fs::exists(bdmvPath)) return titles;
  if !host.pathExists bdmvPath then []
  else
    let playlistDir := bdmvPath ++ ["PLAYLIST"]
    let streamDir := bdmvPath ++ ["STREAM"]
    -- if (!fs::exists(playlistDir) || !fs::exists(streamDir)) return titles;
    if !host.pathExists playlistDir || !host.pathExists streamDir then []
    else
      assignIds 0 (sort longerFirst (scanPlaylists host junk playlistDir streamDir))

/-! ## The record layout, as offsets into the file

These definitions do not come from the code: they say where the format puts
the fields, and the theorems below compare the parser with them. -/

/-- The bytes `p .. p+n-1` of a file. -/
def bytesAt (data : List Byte) (p n : Nat) : List Byte := (data.drop p).take n

/-- The play item whose length field is at offset `q`: the clip identifier is
at `q+2 .. q+6`, the IN time at `q+16 .. q+19`, the OUT time at `q+20 .. q+23`. -/
def itemAt (data : List Byte) (q : Nat) : PlayItem :=
  { clipName := cString (bytesAt data (q + 2) 5)
    inTime := fromBE (bytesAt data (q + 16) 4)
    outTime := fromBE (bytesAt data (q + 20) 4) }

/-- Offset of the length field of the item that follows the one at `q`:
`start + L` with `start = q + 2` and `L` the big-endian value at `q`. -/
def nextItem (data : List Byte) (q : Nat) : Nat := q + 2 + fromBE (bytesAt data q 2)

/-- Offset of the length field of item `i`, item `0` being at `p`. -/
def itemOffset (data : List Byte) (p : Nat) : Nat → Nat
  | 0 => p
  | i + 1 => itemOffset data (nextItem data p) i

/-- The first `n` items of the chain that starts at `p`, in file order. -/
def declaredItems (data : List Byte) (p : Nat) : Nat → List PlayItem
  | 0 => []
  | n + 1 => itemAt data p :: declaredItems data (nextItem data p) n

/-- The playlist start address `S` of the header: big-endian, at offset 8. -/
def playlistStartOf (data : List Byte) : Nat := fromBE (bytesAt data 8 4)

/-- The play item count `N` of the header: big-endian, at offset `S + 6`. -/
def playItemCountOf (data : List Byte) : Nat :=
  fromBE (bytesAt data (playlistStartOf data + 6) 2)

/-- The loop state `ParseMPLSFile` starts its loop from when the header was
read without a fault. -/
def loopStart (data : List Byte) : LoopState :=
  { file := { data := data, pos := playlistStartOf data + 10, eofbit := false, failbit := false }
    playItems := [], duration := 0, size := 0 }

/-- What `ParseMPLSFile` holds when it returns before its loop. -/
def emptyLocals (junk : MPLSJunk) (mplsPath : Path) : MPLSLocals :=
  { title :=
      { id := junk.id, filename := filename mplsPath, duration := 0, size := 0,
        audioLanguages := [], subtitleLanguages := [] }
    playItems := [] }

/-- A playlist file that can be opened and does not start with the magic. -/
def badMagic (host : Host) (p : Path) : Bool :=
  match host.content p with
  | some data => decide (bytesAt data 0 4 ≠ mplsMagic)
  | none => false

/-- The host with the files of bad magic taken out of its directory listings. -/
def withoutBadMagic (host : Host) : Host :=
  { host with
    entries := fun p => (host.entries p).filter (fun name => !badMagic host (p ++ [name])) }

/-- The items `ParsePlayItem` returns in `n` successive calls on `f`, the
first of them being call number `i` of the loop. -/
def decodedItems (junk : Nat → PlayItemJunk) : Nat → Nat → IfStream → List PlayItem
  | _, 0, _ => []
  | i, n + 1, f =>
    (ParsePlayItem (junk i) f).1 :: decodedItems junk (i + 1) n (ParsePlayItem (junk i) f).2

/-- The stream after those `n` calls. -/
def streamAfter (junk : Nat → PlayItemJunk) : Nat → Nat → IfStream → IfStream
  | _, 0, f => f
  | i, n + 1, f => streamAfter junk (i + 1) n (ParsePlayItem (junk i) f).2

/-- An item with a non-empty clip name: the test `!item.clipName.empty()`. -/
def retained (item : PlayItem) : Bool := decide (item.clipName ≠ "")

/-- The update of `title.size` for one retained item. -/
def addClipSize (host : Host) (streamDir : Path) (size : Nat) (item : PlayItem) : Nat :=
  if host.pathExists (streamDir ++ [item.clipName ++ ".m2ts"]) then
    (size + host.fileSize (streamDir ++ [item.clipName ++ ".m2ts"])) % 2 ^ host.sizeBits
  else size

/-- Seconds of an interval of `ticks` ticks of the 45 kHz clock. -/
def ticksToSeconds (ticks : Nat) : ℚ := (ticks : ℚ) / 45000

/-- Insertion of a title into a list that is in descending order of duration,
behind the titles that are at least as long. -/
def insertByDuration (t : BDMVTitle) : List BDMVTitle → List BDMVTitle
  | [] => [t]
  | u :: us => if u.duration ≥ t.duration then u :: insertByDuration t us else t :: u :: us

/-- A sorting function that meets the contract of `std::sort` for
`longerFirst`: insertion sort. It stands for `std::sort` in examples. -/
def insertionSortTitles (_comp : BDMVTitle → BDMVTitle → Bool) :
    List BDMVTitle → List BDMVTitle
  | [] => []
  | t :: ts => insertByDuration t (insertionSortTitles _comp ts)

/-! ## Example inputs -/

/-- A playlist file with `S = 12`, `N = 2` and the two 24-byte items
`("00001", in 0, out 450000)` and `("00002", in 450000, out 900000)`. -/
def twoItemPlaylist : List Byte :=
  [77, 80, 76, 83, 48, 50, 48, 48, 0, 0, 0, 12,
   0, 0, 0, 54, 0, 0, 0, 2, 0, 0,
   0, 22, 48, 48, 48, 48, 49, 77, 50, 84, 83, 0, 1, 0, 0, 0, 0, 0, 0, 0, 0, 6, 221, 208,
   0, 22, 48, 48, 48, 48, 50, 77, 50, 84, 83, 0, 1, 0, 0, 0, 0, 6, 221, 208, 0, 13, 187, 160]

/-- A playlist file with `S = 12`, `N = 1` and the one 24-byte item
`("00001", in a, out b)`, each time being given by its four bytes. -/
def oneItemPlaylist (a b : List Byte) : List Byte :=
  [77, 80, 76, 83, 48, 50, 48, 48, 0, 0, 0, 12,
   0, 0, 0, 30, 0, 0, 0, 1, 0, 0,
   0, 22, 48, 48, 48, 48, 49, 77, 50, 84, 83, 0, 1, 0, 0, 0] ++ a ++ b

/-- The one-item playlist of 20 s twice over: scenario 1 is `twoItemPlaylist`.
The one-item playlists of 7200 s, 5400 s, 90 s and 120 s (324 000 000,
243 000 000, 4 050 000 and 5 400 000 ticks). -/
def playlist7200 : List Byte := oneItemPlaylist [0, 0, 0, 0] [19, 79, 217, 0]

/-- See `playlist7200`. -/
def playlist5400 : List Byte := oneItemPlaylist [0, 0, 0, 0] [14, 123, 226, 192]

/-- See `playlist7200`. -/
def playlist90 : List Byte := oneItemPlaylist [0, 0, 0, 0] [0, 61, 204, 80]

/-- See `playlist7200`. -/
def playlist120 : List Byte := oneItemPlaylist [0, 0, 0, 0] [0, 82, 101, 192]

/-- The file `twoItemPlaylist` with the length field of its first item set to
200: `start + L = 224` is past the end of the 70-byte file. -/
def overlongPlaylist : List Byte :=
  [77, 80, 76, 83, 48, 50, 48, 48, 0, 0, 0, 12,
   0, 0, 0, 54, 0, 0, 0, 2, 0, 0,
   0, 200, 48, 48, 48, 48, 49, 77, 50, 84, 83, 0, 1, 0, 0, 0, 0, 0, 0, 0, 0, 6, 221, 208,
   0, 22, 48, 48, 48, 48, 50, 77, 50, 84, 83, 0, 1, 0, 0, 0, 0, 6, 221, 208, 0, 13, 187, 160]

/-- A file that does not start with the magic. -/
def notAPlaylist : List Byte := [77, 80, 76, 84, 48, 50, 48, 48, 0, 0, 0, 12]

/-- Uninitialised locals that happen to hold zeros. -/
def zeroItemJunk : PlayItemJunk := { length := 0, inTime := 0, outTime := 0 }

/-- Uninitialised locals that happen to hold zeros. -/
def zeroJunk : MPLSJunk :=
  { id := 0, magic := 0, playlistStart := 0, playlistLength := 0, playItemCount := 0,
    item := fun _ => zeroItemJunk }

/-- A host whose folder `disc/BDMV` has the subfolders `PLAYLIST`, holding the
given files in the given order, and `STREAM`, holding no file; `ffprobe` is
not available. -/
def discHost (files : List (String × List Byte)) : Host :=
  { pathExists := fun p =>
      p = ["disc", "BDMV"] || p = ["disc", "BDMV", "PLAYLIST"] || p = ["disc", "BDMV", "STREAM"]
    fileSize := fun _ => 0
    entries := fun p => if p = ["disc", "BDMV", "PLAYLIST"] then files.map Prod.fst else []
    content := fun p =>
      match p with
      | ["disc", "BDMV", "PLAYLIST", name] => files.lookup name
      | _ => none
    ffprobe := fun _ => none
    sizeBits := 64 }

/-- The disc of scenario 1: one playlist, of 20 s. -/
def disc20 : Host := discHost [("00001.mpls", twoItemPlaylist)]

/-- The disc of scenario 2: playlists of 5400 s, 90 s and 7200 s, enumerated
in this order. -/
def disc3 : Host :=
  discHost [("00001.mpls", playlist5400), ("00002.mpls", playlist90),
    ("00003.mpls", playlist7200)]

/-- A disc with one playlist, of exactly 120 s. -/
def disc120 : Host := discHost [("00001.mpls", playlist120)]

/-- A playlist file with `S = 12`, `N = 1` and one item of declared length 10
whose 10 bytes are the last bytes of the file. -/
def shortItemPlaylist : List Byte :=
  [77, 80, 76, 83, 48, 50, 48, 48, 0, 0, 0, 12,
   0, 0, 0, 16, 0, 0, 0, 1, 0, 0,
   0, 10, 48, 48, 48, 48, 49, 77, 50, 84, 83, 0]

/-- The stream of `shortItemPlaylist` as `ParseMPLSFile` hands it to
`ParsePlayItem`: good, at offset 22, where the item starts. -/
def shortItemStream : IfStream :=
  { data := shortItemPlaylist, pos := 22, eofbit := false, failbit := false }

/-- The stream of `twoItemPlaylist` positioned at its first play item. -/
def firstItemStream : IfStream :=
  { data := twoItemPlaylist, pos := 22, eofbit := false, failbit := false }

/-- The path of a playlist file of `discHost`. -/
def discPlaylist (name : String) : Path := ["disc", "BDMV", "PLAYLIST", name]

/-- The stream folder of `discHost`. -/
def discStream : Path := ["disc", "BDMV", "STREAM"]

/-- The file `oneItemPlaylist` cut after the first two bytes of the OUT time
of its item `("00001", in 0, out 6 221 208 ...)`: 44 bytes, the item ending at
offset 46. -/
def truncatedTimesPlaylist : List Byte :=
  [77, 80, 76, 83, 48, 50, 48, 48, 0, 0, 0, 12,
   0, 0, 0, 30, 0, 0, 0, 1, 0, 0,
   0, 22, 48, 48, 48, 48, 49, 77, 50, 84, 83, 0, 1, 0, 0, 0, 0, 0, 0, 0, 0, 6]

/-- The same file cut after the first two bytes of the clip identifier:
26 bytes. -/
def truncatedIdPlaylist : List Byte :=
  [77, 80, 76, 83, 48, 50, 48, 48, 0, 0, 0, 12,
   0, 0, 0, 30, 0, 0, 0, 1, 0, 0,
   0, 22, 48, 48]

/-- A host like `discHost` whose folder `STREAM` holds the clip files `clips`
(name and size), whose `ffprobe` prints `probe` for every file, and whose
`size_t` has `bits` bits. -/
def clipHost (files : List (String × List Byte)) (clips : List (String × Nat))
    (probe : Option String) (bits : Nat) : Host :=
  { pathExists := fun p =>
      p = ["disc", "BDMV"] || p = ["disc", "BDMV", "PLAYLIST"] || p = ["disc", "BDMV", "STREAM"]
        || (match p with
            | ["disc", "BDMV", "STREAM", name] => (clips.lookup name).isSome
            | _ => false)
    fileSize := fun p =>
      match p with
      | ["disc", "BDMV", "STREAM", name] => (clips.lookup name).getD 0
      | _ => 0
    entries := fun p => if p = ["disc", "BDMV", "PLAYLIST"] then files.map Prod.fst else []
    content := fun p =>
      match p with
      | ["disc", "BDMV", "PLAYLIST", name] => files.lookup name
      | _ => none
    ffprobe := fun _ => probe
    sizeBits := bits }

/-- A disc whose one playlist is cut inside the OUT time; the clip `00001.m2ts`
has 1000 bytes. -/
def discTruncatedTimes : Host :=
  clipHost [("00001.mpls", truncatedTimesPlaylist)] [("00001.m2ts", 1000)] none 64

/-- A disc whose one playlist is cut inside the clip identifier; the clip
`00.m2ts` has 7 bytes. -/
def discTruncatedId : Host :=
  clipHost [("00001.mpls", truncatedIdPlaylist)] [("00.m2ts", 7)] none 64

/-- Size of the clip file of a play item in the stream folder: the size of
`<clipName>.m2ts` when that file exists, 0 when it does not. -/
def clipSize (host : Host) (streamDir : Path) (item : PlayItem) : Nat :=
  if host.pathExists (streamDir ++ [item.clipName ++ ".m2ts"]) then
    host.fileSize (streamDir ++ [item.clipName ++ ".m2ts"])
  else 0

/-- A disc with the playlist `twoItemPlaylist`; of its two clips only
`00001.m2ts` exists, with 1000 bytes. -/
def discOneClip : Host :=
  clipHost [("00001.mpls", twoItemPlaylist)] [("00001.m2ts", 1000)] none 64

/-- A disc with the playlist of 7200 s whose clip has 5 000 000 000 bytes, on
a host with a 32-bit `size_t`. -/
def discBigClip32 : Host :=
  clipHost [("00001.mpls", playlist7200)] [("00001.m2ts", 5000000000)] none 32

/-- A disc with the playlist `twoItemPlaylist` whose two clips have `2^63`
bytes each, on a host with a 64-bit `size_t`. -/
def discHugeClips64 : Host :=
  clipHost [("00001.mpls", twoItemPlaylist)]
    [("00001.m2ts", 9223372036854775808), ("00002.m2ts", 9223372036854775808)] none 64

/-- The body of the loop of `AnalyzeStreamLanguages` over the matches: the
name of a captured code that is a key of `languageMap` is inserted into the
set, another capture leaves the set as it is. -/
def insertMapped (languages : List String) (cap : List Char) : List String :=
  match languageMap.lookup (String.mk cap) with
  | some name => setInsert name languages
  | none => languages

/-- The path of the clip file of a play item. -/
def clipPath (streamDir : Path) (item : PlayItem) : Path :=
  streamDir ++ [item.clipName ++ ".m2ts"]

/-- Output of `ffprobe` for a file with an audio stream in English and a
subtitle stream in French. -/
def probeAudioEngSubtitleFre : String :=
  "\x7b\n \"streams\": [\n  \x7b \"index\": 0, \"codec_type\": \"audio\", \"tags\": \x7b \"language\": \"eng\" \x7d \x7d,\n  \x7b \"index\": 1, \"codec_type\": \"subtitle\", \"tags\": \x7b \"language\": \"fre\" \x7d \x7d\n ]\n\x7d\n"

/-- Output of `ffprobe` for a file with four audio streams whose language tags
are `eng`, `xyz`, `eng` and `und`. -/
def probeRepeatedCodes : String :=
  "\x7b \"streams\": [ \x7b \"codec_type\": \"audio\", \"tags\": \x7b \"language\": \"eng\" \x7d \x7d, \x7b \"codec_type\": \"audio\", \"tags\": \x7b \"language\": \"xyz\" \x7d \x7d, \x7b \"codec_type\": \"audio\", \"tags\": \x7b \"language\" : \"eng\" \x7d \x7d, \x7b \"codec_type\": \"audio\", \"tags\": \x7b \"language\":\"und\" \x7d \x7d ] \x7d"

/-- A disc with the playlist `twoItemPlaylist` and the clip `00001.m2ts`, for
which `ffprobe` prints `probeAudioEngSubtitleFre`. -/
def discProbed : Host :=
  clipHost [("00001.mpls", twoItemPlaylist)] [("00001.m2ts", 1000)]
    (some probeAudioEngSubtitleFre) 64

/-- The same disc, `ffprobe` printing `probeRepeatedCodes`. -/
def discRepeatedCodes : Host :=
  clipHost [("00001.mpls", twoItemPlaylist)] [("00001.m2ts", 1000)]
    (some probeRepeatedCodes) 64

/-- The folder `ParseBDMVFolder` looks into: the given path when its last
component is `BDMV`, else its subfolder `BDMV`. -/
def bdmvDir (path : Path) : Path :=
  if filename path = "BDMV" then path else path ++ ["BDMV"]

/-- A disc with two playlists of 7200 s, `a.mpls` and `b.mpls` of the same
content, enumerated in the order of `names`. -/
def discTie (names : List String) : Host :=
  { discHost [("a.mpls", playlist7200), ("b.mpls", playlist7200)] with
    entries := fun p => if p = ["disc", "BDMV", "PLAYLIST"] then names else [] }

/-- A title with its id blanked. -/
def eraseId (t : BDMVTitle) : BDMVTitle := { t with id := 0 }

/-- The bytes of a buffer before its first zero byte. -/
def nulPrefix (buf : List Byte) : List Byte := buf.takeWhile (fun b => b ≠ 0)

/-- The one-item playlist whose clip identifier is `0`, `0`, NUL, `0`, `1`. -/
def nulIdPlaylist : List Byte :=
  [77, 80, 76, 83, 48, 50, 48, 48, 0, 0, 0, 12,
   0, 0, 0, 30, 0, 0, 0, 1, 0, 0,
   0, 22, 48, 48, 0, 48, 49, 77, 50, 84, 83, 0, 1, 0, 0, 0, 0, 0, 0, 0, 19, 79, 217, 0]

/-- The stream of `nulIdPlaylist` positioned at its play item. -/
def nulIdStream : IfStream :=
  { data := nulIdPlaylist, pos := 22, eofbit := false, failbit := false }

/-- A host without the folder `disc/BDMV/STREAM`. -/
def discNoStream : Host :=
  { discHost [("00001.mpls", playlist7200)] with
    pathExists := fun p => p = ["disc", "BDMV"] || p = ["disc", "BDMV", "PLAYLIST"] }

/-! ## The selection of the main title (`main.cpp`) -/

/-- The comparator `[](const BDMVTitle& a, const BDMVTitle& b) { return a.duration < b.duration; }`
of `ProcessFiles`. -/
def shorterThan (a b : BDMVTitle) : Bool := decide (a.duration < b.duration)

/-- The loop of `std::max_element(first, last, comp)`:
`for (; first != last; ++first) if (comp(*largest, *first)) largest = first;`.
`largest` is the element kept so far and `k` its index; the elements still to
be visited start at index `i`. -/
def maxElementFrom (comp : BDMVTitle → BDMVTitle → Bool) (k : Nat) (largest : BDMVTitle) :
    Nat → List BDMVTitle → Nat × BDMVTitle
  | _, [] => (k, largest)
  | i, t :: ts =>
    if comp largest t then maxElementFrom comp i t (i + 1) ts
    else maxElementFrom comp k largest (i + 1) ts

/-- `std::max_element(first, last, comp)`: the index and the element the
returned iterator points to, `none` for the empty range (where it returns
`last`). -/
def max_element (comp : BDMVTitle → BDMVTitle → Bool) : List BDMVTitle → Option (Nat × BDMVTitle)
  | [] => none
  | t :: ts => some (maxElementFrom comp 0 t 1 ts)

/-- The title `ProcessFiles` processes for a file: `none` when `file.titles`
is empty, else `*std::max_element(file.titles.begin(), file.titles.end(), ...)`. -/
def mainTitle (titles : List BDMVTitle) : Option BDMVTitle :=
  -- if (!file.titles.empty()) { auto mainTitle = *std::max_element(...);
  if titles = [] then none else (max_element shorterThan titles).map Prod.snd

/-! ## Binary64 arithmetic

`title.duration` and the value of `GetDurationSeconds` are `double`s. This
section gives the two operations the code performs on them, the division of a
`uint32_t` by `45000.0` and the addition, with the rounding of IEEE 754
binary64 (to nearest, ties to even). Only finite non-negative values occur: a
quotient is below `2^17` and a playlist adds up fewer than `2^16` of them, so
no operation overflows. -/

/-- A finite non-negative binary64 value, `m * 2^e`. -/
structure Dyadic where
  m : Nat
  e : Int
deriving DecidableEq, Repr

/-- The rational number a binary64 value stands for. -/
def Dyadic.toRat (d : Dyadic) : ℚ := (d.m : ℚ) * (2 : ℚ) ^ d.e

/-- The floor of the binary logarithm of `n`, for `0 < n ≤ fuel`. -/
def log2Floor : Nat → Nat → Nat
  | 0, _ => 0
  | fuel + 1, n => if n < 2 then 0 else log2Floor fuel (n / 2) + 1

/-- The integer nearest to `num / den`; the even one of the two nearest when
`num / den` lies halfway between them. -/
def roundHalfEven (num den : Nat) : Nat :=
  if 2 * (num % den) < den then num / den
  else if den < 2 * (num % den) then num / den + 1
  else num / den + (num / den) % 2

/-- The binary exponent of `p / q` for positive `p` and `q`: the `e` with
`2^e ≤ p / q < 2^(e+1)`. -/
def exponentOf (p q : Nat) : Int :=
  let e0 : Int := (log2Floor p p : Int) - (log2Floor q q : Int)
  if (if e0 < 0 then q ≤ p * 2 ^ (-e0).toNat else q * 2 ^ e0.toNat ≤ p) then e0 else e0 - 1

/-- The binary64 value nearest to `p / q` (`0 < q`), ties to even. A binary64
value has 53 significant bits, so the quotient is rounded to a multiple of
`2^s`, `s` being its exponent less 52, and `-1074` in the subnormal range. -/
def roundRatio (p q : Nat) : Dyadic :=
  if p = 0 then { m := 0, e := 0 }
  else
    let s : Int := max (exponentOf p q) (-1022) - 52
    if s < 0 then { m := roundHalfEven (p * 2 ^ (-s).toNat) q, e := s }
    else { m := roundHalfEven p (q * 2 ^ s.toNat), e := s }

/-- Binary64 addition: the exact sum of the two values, rounded. -/
def addDouble (a b : Dyadic) : Dyadic :=
  let emin : Int := min a.e b.e
  let sum : Nat := a.m * 2 ^ (a.e - emin).toNat + b.m * 2 ^ (b.e - emin).toNat
  if emin < 0 then roundRatio sum (2 ^ (-emin).toNat) else roundRatio (sum * 2 ^ emin.toNat) 1

/-- `PlayItem::GetDurationSeconds` in binary64:
`static_cast<double>(outTime - inTime) / 45000.0`. The subtraction is the one
of `uint32_t`, the conversion of its 32-bit result is exact, and the division
rounds. -/
def PlayItem.GetDurationSecondsDouble (item : PlayItem) : Dyadic :=
  roundRatio ((item.outTime % 2 ^ 32 + 2 ^ 32 - item.inTime % 2 ^ 32) % 2 ^ 32) 45000

/-- The variables the play-item loop of `ParseMPLSFile` updates, with
`title.duration` as the binary64 value it is. -/
structure LoopStateDouble where
  file : IfStream
  playItems : List PlayItem
  duration : Dyadic

/-- One pass through the body of the play-item loop, with `title.duration` in
binary64. -/
def loopBodyDouble (junk : PlayItemJunk) (st : LoopStateDouble) : LoopStateDouble :=
  -- PlayItem item = ParsePlayItem(file);
  let r := ParsePlayItem junk st.file
  let item := r.1
  -- if (!item.clipName.empty()) {
  if item.clipName ≠ "" then
    { file := r.2
      -- playItems.push_back(item);
      playItems := st.playItems ++ [item]
      -- title.duration += item.GetDurationSeconds();
      duration := addDouble st.duration item.GetDurationSecondsDouble }
  else
    { st with file := r.2 }

/-- The loop `for (int i = 0; i < playItemCount; i++)` with `title.duration`
in binary64: `n` passes are left and the next one is pass number `i`. -/
def playItemLoopDouble (junk : Nat → PlayItemJunk) :
    Nat → Nat → LoopStateDouble → LoopStateDouble
  | _, 0, st => st
  | i, n + 1, st => playItemLoopDouble junk (i + 1) n (loopBodyDouble (junk i) st)

/-- The field `duration` of the title `BDMVParser::ParseMPLSFile` returns, as
the binary64 value it is. -/
def ParseMPLSFile.durationDouble (host : Host) (junk : MPLSJunk) (mplsPath : Path) : Dyadic :=
  -- title.duration = 0;
  -- std::ifstream file(mplsPath, std::ios::binary); if (!file.is_open()) return title;
  match host.content mplsPath with
  | none => { m := 0, e := 0 }
  | some data =>
    -- if (std::string(magic, 4) != "MPLS") return title;
    match readHeader junk data with
    | none => { m := 0, e := 0 }
    | some (file, playItemCount) =>
      (playItemLoopDouble junk.item 0 playItemCount
        { file := file, playItems := [], duration := { m := 0, e := 0 } }).duration

/-- A playlist file with `S = 12`, `N = 3` and the three 24-byte items
`("00001", in 0, out 4841091)`, `("00002", in 0, out 415950)` and
`("00003", in 0, out 142959)`: 5 400 000 ticks in all. -/
def threeItemPlaylist : List Byte :=
  [77, 80, 76, 83, 48, 50, 48, 48, 0, 0, 0, 12,
   0, 0, 0, 78, 0, 0, 0, 3, 0, 0,
   0, 22, 48, 48, 48, 48, 49, 77, 50, 84, 83, 0, 1, 0, 0, 0, 0, 0, 0, 0, 0, 73, 222, 131,
   0, 22, 48, 48, 48, 48, 50, 77, 50, 84, 83, 0, 1, 0, 0, 0, 0, 0, 0, 0, 0, 6, 88, 206,
   0, 22, 48, 48, 48, 48, 51, 77, 50, 84, 83, 0, 1, 0, 0, 0, 0, 0, 0, 0, 0, 2, 46, 111]

/-- A disc whose one playlist is `threeItemPlaylist`. -/
def disc120Rounded : Host := discHost [("00001.mpls", threeItemPlaylist)]

/-! ## Playlist files that the end of the file does not cut

These definitions do not come from the code: they say of the bytes of a file
that no play item which the loop retains is cut by the end of the file. -/

/-- In the chain of `n` items that starts at offset `q`, every item is wholly
in the file (its length field and the 22 bytes after it), or the first one
that is not has an empty clip identifier, as far as its bytes are in the
file. -/
def uncutItems (data : List Byte) : Nat → Nat → Bool
  | _, 0 => true
  | q, n + 1 =>
    if q + 24 ≤ data.length then uncutItems data (nextItem data q) n
    else decide ((itemAt data q).clipName = "")

/-- A file in which no retained play item is cut: when the magic and the
header fields are in the file, the chain of the `N` items from `S + 10` is
uncut. -/
def uncutPlaylist (data : List Byte) : Bool :=
  if bytesAt data 0 4 = mplsMagic ∧ 12 ≤ data.length ∧ playlistStartOf data + 8 ≤ data.length then
    uncutItems data (playlistStartOf data + 10) (playItemCountOf data)
  else true

/-- The file at path `p` cannot be opened or is an uncut playlist. -/
def uncutFile (host : Host) (p : Path) : Bool :=
  match host.content p with
  | some data => uncutPlaylist data
  | none => true

/-- Uninitialised locals in which `outTime` holds the bytes `19, 79, 217, 0`,
the OUT time that a call of `ParsePlayItem` on the item of `playlist7200`
stores there; the other locals hold zeros. -/
def staleJunk : MPLSJunk :=
  { id := 0, magic := 0, playlistStart := 0, playlistLength := 0, playItemCount := 0,
    item := fun _ => { length := 0, inTime := 0, outTime := 14241555 } }

/-- A disc with the playlist `a.mpls` of 7200 s and the playlist `b.mpls` cut
inside its clip identifier, enumerated in the order of `names`. -/
def discCut (names : List String) : Host :=
  { discHost [("a.mpls", playlist7200), ("b.mpls", truncatedIdPlaylist)] with
    entries := fun p => if p = ["disc", "BDMV", "PLAYLIST"] then names else [] }

/-! ## Integers read from the file -/

theorem byteswap_ushort_fromLE (l : List Byte) (h : l.length = 2) :
    _byteswap_ushort (fromLE l) = fromBE l := by
  match l, h with
  | [a, b], _ =>
    simp only [fromLE, fromBE, _byteswap_ushort, List.foldl]
    omega

theorem byteswap_ulong_fromLE (l : List Byte) (h : l.length = 4) :
    _byteswap_ulong (fromLE l) = fromBE l := by
  match l, h with
  | [a, b, c, d], _ =>
    simp only [fromLE, fromBE, _byteswap_ulong, List.foldl]
    have h0 : (a.val + 256 * (b.val + 256 * (c.val + 256 * (d.val + 256 * 0)))) % 256 = a.val := by
      omega
    have h1 : (a.val + 256 * (b.val + 256 * (c.val + 256 * (d.val + 256 * 0)))) / 256
        = b.val + 256 * (c.val + 256 * d.val) := by omega
    have h2 : (a.val + 256 * (b.val + 256 * (c.val + 256 * (d.val + 256 * 0)))) / 65536
        = c.val + 256 * d.val := by omega
    have h3 : (a.val + 256 * (b.val + 256 * (c.val + 256 * (d.val + 256 * 0)))) / 16777216
        = d.val := by omega
    rw [h0, h1, h2, h3]
    clear h0 h1 h2 h3
    omega

theorem byteswap_ulong_lt (x : Nat) : _byteswap_ulong x < 2 ^ 32 := by
  unfold _byteswap_ulong
  omega

theorem cString_append_nul (l : List Byte) : cString (l ++ [0]) = cString l := by
  unfold cString
  congr 2
  induction l with
  | nil => simp
  | cons b bs ih =>
    rw [List.cons_append, List.takeWhile_cons, List.takeWhile_cons, ih]

/-! ## Reads and seeks on a good stream -/

theorem IfStream.read_of_good (f : IfStream) (n : Nat) (buf : List Byte)
    (hg : f.good = true) (hn : f.pos + n ≤ f.data.length) :
    f.read n buf = ({ f with pos := f.pos + n }, (f.data.drop f.pos).take n) := by
  have hl : ((f.data.drop f.pos).take n).length = n := by
    rw [List.length_take, List.length_drop]
    omega
  simp [IfStream.read, hg, hl]

theorem IfStream.good_iff (f : IfStream) :
    f.good = true ↔ f.eofbit = false ∧ f.failbit = false := by
  cases h1 : f.eofbit <;> cases h2 : f.failbit <;> simp [IfStream.good, h1, h2]

/-- On a good stream with 24 bytes left, `ParsePlayItem` reads the fields at
their fixed offsets and leaves the stream, still good, at `start + L`. -/
theorem ParsePlayItem_of_good (junk : PlayItemJunk) (f : IfStream)
    (hg : f.good = true) (hn : f.pos + 24 ≤ f.data.length) :
    ParsePlayItem junk f =
      ({ clipName := cString (bytesAt f.data (f.pos + 2) 5),
         inTime := fromBE (bytesAt f.data (f.pos + 16) 4),
         outTime := fromBE (bytesAt f.data (f.pos + 20) 4) },
       { f with pos := f.pos + 2 + fromBE (bytesAt f.data f.pos 2) }) := by
  obtain ⟨data, pos, eofbit, failbit⟩ := f
  obtain ⟨h1, h2⟩ := (IfStream.good_iff _).1 hg
  simp only at h1 h2 hn
  subst h1 h2
  have len : ∀ p n, p + n ≤ data.length → (bytesAt data p n).length = n := by
    intro p n h
    unfold bytesAt
    rw [List.length_take, List.length_drop]
    omega
  unfold ParsePlayItem
  simp only []
  rw [IfStream.read_of_good _ 2 _ (by rfl) (by simp only; omega)]
  simp only [IfStream.tellg, IfStream.good, Bool.not_false, Bool.and_self, ↓reduceIte]
  rw [IfStream.read_of_good _ 5 _ (by rfl) (by simp only; omega)]
  have hneg : ¬ (((pos + 2 : Nat) : Int) < 0) := by omega
  simp only [IfStream.seekgCur, IfStream.seekg, Bool.false_eq_true, ↓reduceIte, hneg,
    Int.toNat_ofNat]
  rw [IfStream.read_of_good _ 4 _ (by rfl) (by simp only; omega)]
  rw [IfStream.read_of_good _ 4 _ (by rfl) (by simp only; omega)]
  simp only [Bool.false_eq_true, ↓reduceIte, hneg, Int.toNat_ofNat]
  have e2 := byteswap_ushort_fromLE (bytesAt data pos 2) (len _ _ (by omega))
  have e4 := byteswap_ulong_fromLE (bytesAt data (pos + 2 + 14) 4) (len _ _ (by omega))
  have e5 := byteswap_ulong_fromLE (bytesAt data (pos + 2 + 14 + 4) 4) (len _ _ (by omega))
  simp only [bytesAt] at e2 e4 e5 ⊢
  rw [e2, e4, e5, cString_append_nul]

/-! ## Operations on a failed stream -/

theorem IfStream.read_failbit (f : IfStream) (n : Nat) (buf : List Byte)
    (h : f.good = false) : (f.read n buf).1.failbit = true ∧ (f.read n buf).2 = buf := by
  simp [IfStream.read, h]

theorem IfStream.read_keeps_failbit (f : IfStream) (n : Nat) (buf : List Byte)
    (h : f.failbit = true) : (f.read n buf).1.failbit = true :=
  (IfStream.read_failbit f n buf (by simp [IfStream.good, h])).1

theorem IfStream.seekg_keeps_failbit (f : IfStream) (p : Int) (h : f.failbit = true) :
    (f.seekg p).failbit = true := by
  simp [IfStream.seekg, h]

theorem IfStream.seekgCur_keeps_failbit (f : IfStream) (off : Nat) (h : f.failbit = true) :
    (f.seekgCur off).failbit = true := by
  simp [IfStream.seekgCur, h]

theorem IfStream.tellg_keeps_failbit (f : IfStream) (h : f.good = false) :
    f.tellg.1.failbit = true := by
  simp [IfStream.tellg, h]

/-- A read of `n > 0` bytes that starts with fewer than `n` bytes left fails. -/
theorem IfStream.read_short (f : IfStream) (n : Nat) (buf : List Byte)
    (hpos : 0 < n) (hn : f.data.length < f.pos + n) : (f.read n buf).1.failbit = true := by
  by_cases hg : f.good = true
  · have hl : ((f.data.drop f.pos).take n).length ≠ n := by
      rw [List.length_take, List.length_drop]
      omega
    unfold IfStream.read
    simp only [hg, if_true]
    rw [if_neg hl]
  · exact (IfStream.read_failbit f n buf (by simpa using hg)).1

theorem cString_zeros : cString (List.replicate 5 0 ++ [0]) = "" := by
  decide

/-- On a stream that is not good, `ParsePlayItem` stores nothing into
`clipName`, so the item has an empty name, and the stream has failed. -/
theorem ParsePlayItem_of_not_good (junk : PlayItemJunk) (f : IfStream)
    (h : f.good = false) :
    (ParsePlayItem junk f).1.clipName = "" ∧ (ParsePlayItem junk f).2.failbit = true := by
  have h1 := (IfStream.read_failbit f 2 (toLE 2 junk.length) h).1
  have h2 := IfStream.tellg_keeps_failbit (f.read 2 (toLE 2 junk.length)).1
    (by simp [IfStream.good, h1])
  have h3 := IfStream.read_failbit (f.read 2 (toLE 2 junk.length)).1.tellg.1 5
    (List.replicate 5 0) (by simp [IfStream.good, h2])
  constructor
  · simp only [ParsePlayItem]
    rw [h3.2]
    exact cString_zeros
  · simp only [ParsePlayItem]
    apply IfStream.seekgCur_keeps_failbit
    apply IfStream.seekg_keeps_failbit
    apply IfStream.read_keeps_failbit
    apply IfStream.read_keeps_failbit
    apply IfStream.seekgCur_keeps_failbit
    apply IfStream.seekg_keeps_failbit
    apply IfStream.seekgCur_keeps_failbit
    exact h3.1

/-- When fewer than the two bytes of the length field are left, the item has
an empty name and the stream has failed. -/
theorem ParsePlayItem_of_short_length (junk : PlayItemJunk) (f : IfStream)
    (hn : f.data.length < f.pos + 2) :
    (ParsePlayItem junk f).1.clipName = "" ∧ (ParsePlayItem junk f).2.failbit = true := by
  have h1 := IfStream.read_short f 2 (toLE 2 junk.length) (by omega) hn
  have h2 := IfStream.tellg_keeps_failbit (f.read 2 (toLE 2 junk.length)).1
    (by simp [IfStream.good, h1])
  have h3 := IfStream.read_failbit (f.read 2 (toLE 2 junk.length)).1.tellg.1 5
    (List.replicate 5 0) (by simp [IfStream.good, h2])
  constructor
  · simp only [ParsePlayItem]
    rw [h3.2]
    exact cString_zeros
  · simp only [ParsePlayItem]
    apply IfStream.seekgCur_keeps_failbit
    apply IfStream.seekg_keeps_failbit
    apply IfStream.read_keeps_failbit
    apply IfStream.read_keeps_failbit
    apply IfStream.seekgCur_keeps_failbit
    apply IfStream.seekg_keeps_failbit
    apply IfStream.seekgCur_keeps_failbit
    exact h3.1

theorem ParsePlayItem_fields_lt (junk : PlayItemJunk) (f : IfStream) :
    (ParsePlayItem junk f).1.inTime < 2 ^ 32 ∧ (ParsePlayItem junk f).1.outTime < 2 ^ 32 :=
  ⟨byteswap_ulong_lt _, byteswap_ulong_lt _⟩

/-! ## The play-item loop -/

theorem loopBody_file (host : Host) (streamDir : Path) (junk : PlayItemJunk) (st : LoopState) :
    (loopBody host streamDir junk st).file = (ParsePlayItem junk st.file).2 := by
  unfold loopBody
  simp only []
  split <;> rfl

theorem loopBody_of_retained (host : Host) (streamDir : Path) (junk : PlayItemJunk)
    (st : LoopState) (h : retained (ParsePlayItem junk st.file).1 = true) :
    (loopBody host streamDir junk st).playItems = st.playItems ++ [(ParsePlayItem junk st.file).1]
    ∧ (loopBody host streamDir junk st).duration
        = st.duration + (ParsePlayItem junk st.file).1.GetDurationSeconds
    ∧ (loopBody host streamDir junk st).size
        = addClipSize host streamDir st.size (ParsePlayItem junk st.file).1 := by
  have h1 : (ParsePlayItem junk st.file).1.clipName ≠ "" := by simpa [retained] using h
  unfold loopBody
  simp only [h1, ne_eq, not_false_eq_true, if_true, addClipSize, and_self]

theorem loopBody_of_discarded (host : Host) (streamDir : Path) (junk : PlayItemJunk)
    (st : LoopState) (h : retained (ParsePlayItem junk st.file).1 = false) :
    (loopBody host streamDir junk st).playItems = st.playItems
    ∧ (loopBody host streamDir junk st).duration = st.duration
    ∧ (loopBody host streamDir junk st).size = st.size := by
  have h1 : (ParsePlayItem junk st.file).1.clipName = "" := by simpa [retained] using h
  unfold loopBody
  simp only [h1, ne_eq, not_true_eq_false, if_false, and_self]

/-- What the loop computes: it appends the retained ones among the decoded
items, adds their durations and accumulates their clip sizes. -/
theorem playItemLoop_spec (host : Host) (streamDir : Path) (junk : Nat → PlayItemJunk)
    (n : Nat) : ∀ (i : Nat) (st : LoopState),
    (playItemLoop host streamDir junk i n st).playItems
        = st.playItems ++ (decodedItems junk i n st.file).filter retained
    ∧ (playItemLoop host streamDir junk i n st).duration
        = st.duration
          + (((decodedItems junk i n st.file).filter retained).map
              PlayItem.GetDurationSeconds).sum
    ∧ (playItemLoop host streamDir junk i n st).size
        = ((decodedItems junk i n st.file).filter retained).foldl
            (addClipSize host streamDir) st.size
    ∧ (playItemLoop host streamDir junk i n st).file = streamAfter junk i n st.file := by
  induction n with
  | zero =>
    intro i st
    simp [playItemLoop, decodedItems, streamAfter]
  | succ n ih =>
    intro i st
    have hf := loopBody_file host streamDir (junk i) st
    obtain ⟨ih1, ih2, ih3, ih4⟩ := ih (i + 1) (loopBody host streamDir (junk i) st)
    simp only [playItemLoop, decodedItems, streamAfter]
    rw [ih1, ih2, ih3, ih4, hf]
    cases hr : retained (ParsePlayItem (junk i) st.file).1
    · obtain ⟨b1, b2, b3⟩ := loopBody_of_discarded host streamDir (junk i) st hr
      rw [b1, b2, b3]
      simp [List.filter, hr]
    · obtain ⟨b1, b2, b3⟩ := loopBody_of_retained host streamDir (junk i) st hr
      rw [b1, b2, b3]
      simp [List.filter, hr, add_assoc]

theorem itemAt_eq (data : List Byte) (q : Nat) :
    itemAt data q =
      { clipName := cString (bytesAt data (q + 2) 5),
        inTime := fromBE (bytesAt data (q + 16) 4),
        outTime := fromBE (bytesAt data (q + 20) 4) } := rfl

/-- While every item is wholly in the file, the decoder returns the items of
the chain and stops, good, at the offset of the next one. -/
theorem decodedItems_of_readable (junk : Nat → PlayItemJunk) (data : List Byte) (n : Nat) :
    ∀ (i p : Nat), (∀ k, k < n → itemOffset data p k + 24 ≤ data.length) →
    decodedItems junk i n { data := data, pos := p, eofbit := false, failbit := false }
        = declaredItems data p n
    ∧ streamAfter junk i n { data := data, pos := p, eofbit := false, failbit := false }
        = { data := data, pos := itemOffset data p n, eofbit := false, failbit := false } := by
  induction n with
  | zero =>
    intro i p _
    simp [decodedItems, declaredItems, streamAfter, itemOffset]
  | succ n ih =>
    intro i p h
    have h0 : p + 24 ≤ data.length := h 0 (Nat.succ_pos n)
    have hstep := ParsePlayItem_of_good (junk i)
      { data := data, pos := p, eofbit := false, failbit := false } (by rfl) h0
    have hrest : ∀ k, k < n → itemOffset data (nextItem data p) k + 24 ≤ data.length := by
      intro k hk
      exact h (k + 1) (Nat.succ_lt_succ hk)
    obtain ⟨ih1, ih2⟩ := ih (i + 1) (nextItem data p) hrest
    simp only [decodedItems, streamAfter, declaredItems, itemOffset]
    rw [hstep]
    simp only [nextItem] at ih1 ih2 ⊢
    rw [ih1, ih2]
    simp [itemAt_eq]

/-- On a failed stream every decoded item is discarded. -/
theorem decodedItems_of_failed (junk : Nat → PlayItemJunk) (n : Nat) :
    ∀ (i : Nat) (f : IfStream), f.failbit = true →
    (decodedItems junk i n f).filter retained = [] := by
  induction n with
  | zero =>
    intro i f _
    simp [decodedItems]
  | succ n ih =>
    intro i f h
    obtain ⟨h1, h2⟩ := ParsePlayItem_of_not_good (junk i) f (by simp [IfStream.good, h])
    simp only [decodedItems]
    rw [List.filter_cons_of_neg (by simp [retained, h1])]
    exact ih (i + 1) _ h2

/-- When the length field of the next item is not wholly in the file, every
further decoded item is discarded. -/
theorem decodedItems_of_short (junk : Nat → PlayItemJunk) (n i : Nat) (f : IfStream)
    (h : f.data.length < f.pos + 2) :
    (decodedItems junk i n f).filter retained = [] := by
  cases n with
  | zero => simp [decodedItems]
  | succ n =>
    obtain ⟨h1, h2⟩ := ParsePlayItem_of_short_length (junk i) f h
    simp only [decodedItems]
    rw [List.filter_cons_of_neg (by simp [retained, h1])]
    exact decodedItems_of_failed junk n (i + 1) _ h2

theorem decodedItems_add (junk : Nat → PlayItemJunk) (a b : Nat) :
    ∀ (i : Nat) (f : IfStream),
    decodedItems junk i (a + b) f
      = decodedItems junk i a f ++ decodedItems junk (i + a) b (streamAfter junk i a f) := by
  induction a with
  | zero =>
    intro i f
    simp [decodedItems, streamAfter]
  | succ a ih =>
    intro i f
    have e : a + 1 + b = (a + b) + 1 := by omega
    rw [e]
    simp only [decodedItems, streamAfter]
    rw [ih]
    have e2 : i + 1 + a = i + (a + 1) := by omega
    rw [e2]
    simp

theorem declaredItems_length (data : List Byte) (n : Nat) :
    ∀ p, (declaredItems data p n).length = n := by
  induction n with
  | zero => intro p; rfl
  | succ n ih => intro p; simp [declaredItems, ih]

/-! ## The header -/

theorem bytesAt_length (data : List Byte) (p n : Nat) (h : p + n ≤ data.length) :
    (bytesAt data p n).length = n := by
  unfold bytesAt
  rw [List.length_take, List.length_drop]
  omega

theorem IfStream.read_mk (data : List Byte) (p n : Nat) (buf : List Byte)
    (h : p + n ≤ data.length) :
    IfStream.read { data := data, pos := p, eofbit := false, failbit := false } n buf
      = ({ data := data, pos := p + n, eofbit := false, failbit := false }, bytesAt data p n) :=
  IfStream.read_of_good _ n buf (by rfl) h

theorem IfStream.seekg_mk (data : List Byte) (p q : Nat) :
    IfStream.seekg { data := data, pos := p, eofbit := false, failbit := false } (q : Int)
      = { data := data, pos := q, eofbit := false, failbit := false } := by
  have hq : ¬ ((q : Int) < 0) := by omega
  simp [IfStream.seekg, hq]

theorem IfStream.seekgCur_mk (data : List Byte) (p off : Nat) :
    IfStream.seekgCur { data := data, pos := p, eofbit := false, failbit := false } off
      = { data := data, pos := p + off, eofbit := false, failbit := false } := by
  simp [IfStream.seekgCur]

/-- With the magic in place and the header fields inside the file, the loop
starts, good, at offset `S + 10` and is to run `N` times. -/
theorem readHeader_of_present (junk : MPLSJunk) (data : List Byte)
    (hm : bytesAt data 0 4 = mplsMagic) (h12 : 12 ≤ data.length)
    (hS : playlistStartOf data + 8 ≤ data.length) :
    readHeader junk data = some ((loopStart data).file, playItemCountOf data) := by
  have hm4 : (bytesAt data 0 4).length = 4 := by rw [hm]; rfl
  unfold readHeader
  simp only [IfStream.opened]
  rw [IfStream.read_mk data 0 4 _ (by omega)]
  simp only [hm, ne_eq, not_true_eq_false, if_false]
  have s8 : IfStream.seekg { data := data, pos := 0 + 4, eofbit := false, failbit := false }
      (8 : Int) = { data := data, pos := 8, eofbit := false, failbit := false } :=
    IfStream.seekg_mk data (0 + 4) 8
  rw [s8]
  rw [IfStream.read_mk data 8 4 _ (by omega)]
  simp only []
  rw [byteswap_ulong_fromLE _ (bytesAt_length data 8 4 (by omega))]
  have hS' : fromBE (bytesAt data 8 4) + 8 ≤ data.length := hS
  rw [IfStream.seekg_mk data (8 + 4) (fromBE (bytesAt data 8 4))]
  rw [IfStream.read_mk data (fromBE (bytesAt data 8 4)) 4 _ (by omega)]
  simp only []
  rw [IfStream.seekgCur_mk data (fromBE (bytesAt data 8 4) + 4) 2]
  rw [IfStream.read_mk data (fromBE (bytesAt data 8 4) + 4 + 2) 2 _ (by omega)]
  simp only []
  rw [byteswap_ushort_fromLE _ (bytesAt_length data _ 2 (by omega))]
  rw [IfStream.seekgCur_mk data (fromBE (bytesAt data 8 4) + 4 + 2 + 2) 2]
  have e : fromBE (bytesAt data 8 4) + 4 + 2 + 2 + 2 = fromBE (bytesAt data 8 4) + 10 := by omega
  have e' : fromBE (bytesAt data 8 4) + 4 + 2 = fromBE (bytesAt data 8 4) + 6 := by omega
  rw [e, e']
  rfl

/-- When the length field is in the file and the file ends before
`start + 22`, one of the reads of `ParsePlayItem` is short and the stream it
leaves has failed. -/
theorem ParsePlayItem_of_truncated (junk : PlayItemJunk) (data : List Byte) (p : Nat)
    (h2 : p + 2 ≤ data.length) (h24 : data.length < p + 24) :
    (ParsePlayItem junk { data := data, pos := p, eofbit := false, failbit := false }).2.failbit
      = true := by
  have hp : ((p + 2 : Nat) : Int) = (p : Int) + 2 := by omega
  simp only [ParsePlayItem]
  rw [IfStream.read_mk data p 2 _ h2]
  simp only [IfStream.tellg, IfStream.good, Bool.not_false, Bool.and_self, ↓reduceIte]
  apply IfStream.seekgCur_keeps_failbit
  apply IfStream.seekg_keeps_failbit
  by_cases h7 : p + 2 + 5 ≤ data.length
  · rw [IfStream.read_mk data (p + 2) 5 _ h7]
    simp only []
    rw [IfStream.seekgCur_mk, IfStream.seekg_mk, IfStream.seekgCur_mk]
    by_cases h20 : p + 2 + 14 + 4 ≤ data.length
    · rw [IfStream.read_mk data (p + 2 + 14) 4 _ h20]
      exact IfStream.read_short _ 4 _ (by omega) (by simp only; omega)
    · apply IfStream.read_keeps_failbit
      exact IfStream.read_short _ 4 _ (by omega) (by simp only; omega)
  · apply IfStream.read_keeps_failbit
    apply IfStream.read_keeps_failbit
    apply IfStream.seekgCur_keeps_failbit
    apply IfStream.seekg_keeps_failbit
    apply IfStream.seekgCur_keeps_failbit
    exact IfStream.read_short _ 5 _ (by omega) (by simp only; omega)

/-! ## Claims on `ParsePlayItem` -/

theorem fromBE_four (a b c d : Byte) :
    fromBE [a, b, c, d] = a.val * 2 ^ 24 + b.val * 2 ^ 16 + c.val * 2 ^ 8 + d.val := by
  simp only [fromBE, List.foldl]
  omega

/-- C1. For a good stream positioned at a play item whose 2-byte length field
and the 22 bytes after it are in the file, `start` being the position after the
length field: the clip name of the returned item is the C string of the five
bytes at `start .. start+4`, its `inTime` is the big-endian value of the four
bytes at `start+14 .. start+17`, and its `outTime` the big-endian value of the
four bytes at `start+18 .. start+21`. -/
theorem C1_ParsePlayItem_field_layout (junk : PlayItemJunk) (file : IfStream)
    (hgood : file.good = true) (hpresent : file.pos + 2 + 22 ≤ file.data.length) :
    (ParsePlayItem junk file).1.clipName = cString (bytesAt file.data (file.pos + 2) 5)
    ∧ (ParsePlayItem junk file).1.inTime = fromBE (bytesAt file.data (file.pos + 2 + 14) 4)
    ∧ (ParsePlayItem junk file).1.outTime = fromBE (bytesAt file.data (file.pos + 2 + 18) 4) := by
  rw [ParsePlayItem_of_good junk file hgood (by omega)]
  exact ⟨rfl, rfl, rfl⟩

theorem C1_ParsePlayItem_field_layout_witness :
    firstItemStream.good = true
    ∧ firstItemStream.pos + 2 + 22 ≤ firstItemStream.data.length
    ∧ (ParsePlayItem zeroItemJunk firstItemStream).1.clipName
        = cString (bytesAt firstItemStream.data (firstItemStream.pos + 2) 5)
    ∧ (ParsePlayItem zeroItemJunk firstItemStream).1.inTime
        = fromBE (bytesAt firstItemStream.data (firstItemStream.pos + 2 + 14) 4)
    ∧ (ParsePlayItem zeroItemJunk firstItemStream).1.outTime
        = fromBE (bytesAt firstItemStream.data (firstItemStream.pos + 2 + 18) 4) :=
  ⟨by decide, by decide,
    C1_ParsePlayItem_field_layout zeroItemJunk firstItemStream (by decide) (by decide)⟩

/-- C2, as the code has it. For a good stream positioned at a play item whose
2-byte length field `L` and the 22 bytes after it are in the file, whatever
these bytes are and whatever `L` is (below 22 or past the end of the file
included): after `ParsePlayItem` the stream is the one it was given, still
good, moved to `start + L`, and `tellg` reports `start + L`. -/
theorem C2_position_is_start_plus_length (junk : PlayItemJunk) (file : IfStream)
    (hgood : file.good = true) (hpresent : file.pos + 2 + 22 ≤ file.data.length) :
    (ParsePlayItem junk file).2
        = { file with pos := file.pos + 2 + fromBE (bytesAt file.data file.pos 2) }
    ∧ (ParsePlayItem junk file).2.good = true
    ∧ (ParsePlayItem junk file).2.tellg.2
        = ((file.pos + 2 + fromBE (bytesAt file.data file.pos 2) : Nat) : Int) := by
  rw [ParsePlayItem_of_good junk file hgood (by omega)]
  obtain ⟨h1, h2⟩ := (IfStream.good_iff _).1 hgood
  refine ⟨rfl, ?_, ?_⟩
  · simp [IfStream.good, h1, h2]
  · simp [IfStream.tellg, IfStream.good, h1, h2]

theorem C2_position_is_start_plus_length_witness :
    firstItemStream.good = true
    ∧ firstItemStream.pos + 2 + 22 ≤ firstItemStream.data.length
    ∧ (ParsePlayItem zeroItemJunk firstItemStream).2
        = { firstItemStream with
            pos := firstItemStream.pos + 2
              + fromBE (bytesAt firstItemStream.data firstItemStream.pos 2) }
    ∧ (ParsePlayItem zeroItemJunk firstItemStream).2.good = true
    ∧ (ParsePlayItem zeroItemJunk firstItemStream).2.tellg.2
        = ((firstItemStream.pos + 2
              + fromBE (bytesAt firstItemStream.data firstItemStream.pos 2) : Nat) : Int) :=
  ⟨by decide, by decide,
    C2_position_is_start_plus_length zeroItemJunk firstItemStream (by decide) (by decide)⟩

/-- C2 as stated fails. `ParseMPLSFile` hands `ParsePlayItem` the stream of
`shortItemPlaylist`, good, at the play item at offset 22. The length field
reads `L = 10` and the 10 bytes of the item are all in the file, which ends
with them, so `start + L = 34`. `ParsePlayItem` looks for the times at
`start + 14 = 38`, past the end: the read fails, the last two seeks do
nothing, and the stream is left failed at offset 38 with `tellg() = -1`. -/
theorem C2_counterexample :
    readHeader zeroJunk shortItemPlaylist = some (shortItemStream, 1)
    ∧ shortItemStream.good = true
    ∧ fromBE (bytesAt shortItemStream.data shortItemStream.pos 2) = 10
    ∧ shortItemStream.pos + 2 + 10 = shortItemStream.data.length
    ∧ (ParsePlayItem zeroItemJunk shortItemStream).2.pos = 38
    ∧ (ParsePlayItem zeroItemJunk shortItemStream).2.failbit = true
    ∧ (ParsePlayItem zeroItemJunk shortItemStream).2.tellg.2 = -1
    ∧ (ParsePlayItem zeroItemJunk shortItemStream).2.tellg.2
        ≠ ((shortItemStream.pos + 2
              + fromBE (bytesAt shortItemStream.data shortItemStream.pos 2) : Nat) : Int) := by
  decide

/-! ## Claims on `ParseMPLSFile` -/

theorem decodedItems_fields_lt (junk : Nat → PlayItemJunk) (n : Nat) :
    ∀ (i : Nat) (f : IfStream) (it : PlayItem), it ∈ decodedItems junk i n f →
      it.inTime < 2 ^ 32 ∧ it.outTime < 2 ^ 32 := by
  induction n with
  | zero =>
    intro i f it h
    simp [decodedItems] at h
  | succ n ih =>
    intro i f it h
    simp only [decodedItems, List.mem_cons] at h
    rcases h with h | h
    · rw [h]
      exact ParsePlayItem_fields_lt (junk i) f
    · exact ih (i + 1) _ it h

theorem locals_of_unopened (host : Host) (junk : MPLSJunk) (mplsPath streamDir : Path)
    (hc : host.content mplsPath = none) :
    ParseMPLSFile.locals host junk mplsPath streamDir = emptyLocals junk mplsPath := by
  unfold ParseMPLSFile.locals
  simp only [hc, emptyLocals]

theorem locals_of_bad_magic (host : Host) (junk : MPLSJunk) (mplsPath streamDir : Path)
    (data : List Byte) (hc : host.content mplsPath = some data)
    (hh : readHeader junk data = none) :
    ParseMPLSFile.locals host junk mplsPath streamDir = emptyLocals junk mplsPath := by
  unfold ParseMPLSFile.locals
  simp only [hc, hh, emptyLocals]

theorem locals_of_loop (host : Host) (junk : MPLSJunk) (mplsPath streamDir : Path)
    (data : List Byte) (file : IfStream) (n : Nat) (hc : host.content mplsPath = some data)
    (hh : readHeader junk data = some (file, n)) :
    (ParseMPLSFile.locals host junk mplsPath streamDir).playItems
        = (playItemLoop host streamDir junk.item 0 n
            { file := file, playItems := [], duration := 0, size := 0 }).playItems
    ∧ (ParseMPLSFile host junk mplsPath streamDir).duration
        = (playItemLoop host streamDir junk.item 0 n
            { file := file, playItems := [], duration := 0, size := 0 }).duration
    ∧ (ParseMPLSFile host junk mplsPath streamDir).size
        = (playItemLoop host streamDir junk.item 0 n
            { file := file, playItems := [], duration := 0, size := 0 }).size := by
  unfold ParseMPLSFile ParseMPLSFile.locals
  simp only [hc, hh, and_self]

/-- In every case `ParseMPLSFile` ends with a list of retained decoded items,
their summed durations and their accumulated clip sizes. -/
theorem locals_shape (host : Host) (junk : MPLSJunk) (mplsPath streamDir : Path) :
    ∃ items : List PlayItem,
      (∀ it ∈ items, it.inTime < 2 ^ 32 ∧ it.outTime < 2 ^ 32)
      ∧ (ParseMPLSFile.locals host junk mplsPath streamDir).playItems = items.filter retained
      ∧ (ParseMPLSFile host junk mplsPath streamDir).duration
          = ((items.filter retained).map PlayItem.GetDurationSeconds).sum
      ∧ (ParseMPLSFile host junk mplsPath streamDir).size
          = (items.filter retained).foldl (addClipSize host streamDir) 0 := by
  cases hc : host.content mplsPath with
  | none =>
    refine ⟨[], by simp, ?_, ?_, ?_⟩ <;>
      simp [ParseMPLSFile, locals_of_unopened host junk mplsPath streamDir hc, emptyLocals]
  | some data =>
    cases hh : readHeader junk data with
    | none =>
      refine ⟨[], by simp, ?_, ?_, ?_⟩ <;>
        simp [ParseMPLSFile, locals_of_bad_magic host junk mplsPath streamDir data hc hh,
          emptyLocals]
    | some fn =>
      obtain ⟨file, n⟩ := fn
      have hl := locals_of_loop host junk mplsPath streamDir data file n hc hh
      obtain ⟨l1, l2, l3, _⟩ := playItemLoop_spec host streamDir junk.item n 0
        { file := file, playItems := [], duration := 0, size := 0 }
      refine ⟨decodedItems junk.item 0 n file, decodedItems_fields_lt _ _ _ _, ?_, ?_, ?_⟩
      · rw [hl.1, l1]
        simp
      · rw [hl.2.1, l2]
        simp
      · rw [hl.2.2, l3]

theorem getDurationSeconds_of_le (item : PlayItem) (hin : item.inTime < 2 ^ 32)
    (hout : item.outTime < 2 ^ 32) (h : item.inTime ≤ item.outTime) :
    item.GetDurationSeconds = ticksToSeconds (item.outTime - item.inTime) := by
  unfold PlayItem.GetDurationSeconds ticksToSeconds
  have e : (item.outTime % 2 ^ 32 + 2 ^ 32 - item.inTime % 2 ^ 32) % 2 ^ 32
      = item.outTime - item.inTime := by omega
  rw [e]

theorem retained_iff (item : PlayItem) : retained item = true ↔ item.clipName ≠ "" := by
  simp [retained]

/-- With the magic in place and the header and the first `n ≤ N` items in the
file, the first `n` calls of `ParsePlayItem` return the first `n` items of the
chain that starts at `S + 10` and leave the stream, good, at the offset of
item `n`. -/
theorem decodedItems_of_file (junk : Nat → PlayItemJunk) (data : List Byte) (n : Nat)
    (hitems : ∀ i, i < n → itemOffset data (playlistStartOf data + 10) i + 24 ≤ data.length) :
    decodedItems junk 0 n (loopStart data).file
        = declaredItems data (playlistStartOf data + 10) n
    ∧ streamAfter junk 0 n (loopStart data).file
        = { data := data, pos := itemOffset data (playlistStartOf data + 10) n,
            eofbit := false, failbit := false } :=
  decodedItems_of_readable junk data n 0 (playlistStartOf data + 10) hitems

/-- What `ParseMPLSFile` computes when the header is in the file: the retained
ones among the `N` decoded items, their durations and their clip sizes. -/
theorem locals_of_present_header (host : Host) (junk : MPLSJunk) (mplsPath streamDir : Path)
    (data : List Byte) (hc : host.content mplsPath = some data)
    (hm : bytesAt data 0 4 = mplsMagic) (h12 : 12 ≤ data.length)
    (hS : playlistStartOf data + 8 ≤ data.length) :
    (ParseMPLSFile.locals host junk mplsPath streamDir).playItems
        = (decodedItems junk.item 0 (playItemCountOf data) (loopStart data).file).filter retained
    ∧ (ParseMPLSFile host junk mplsPath streamDir).duration
        = (((decodedItems junk.item 0 (playItemCountOf data) (loopStart data).file).filter
            retained).map PlayItem.GetDurationSeconds).sum
    ∧ (ParseMPLSFile host junk mplsPath streamDir).size
        = ((decodedItems junk.item 0 (playItemCountOf data) (loopStart data).file).filter
            retained).foldl (addClipSize host streamDir) 0 := by
  obtain ⟨e1, e2, e3⟩ := locals_of_loop host junk mplsPath streamDir data _ _ hc
    (readHeader_of_present junk data hm h12 hS)
  obtain ⟨l1, l2, l3, _⟩ := playItemLoop_spec host streamDir junk.item (playItemCountOf data) 0
    { file := (loopStart data).file, playItems := [], duration := 0, size := 0 }
  rw [e1, e2, e3, l1, l2, l3]
  simp

/-- The duration of the returned title is the sum of the durations of the
retained play items. -/
theorem ParseMPLSFile_duration_eq (host : Host) (junk : MPLSJunk) (mplsPath streamDir : Path) :
    (ParseMPLSFile host junk mplsPath streamDir).duration
      = ((ParseMPLSFile.locals host junk mplsPath streamDir).playItems.map
          PlayItem.GetDurationSeconds).sum := by
  obtain ⟨items, _, hp, hd, _⟩ := locals_shape host junk mplsPath streamDir
  rw [hp, hd]

/-- C3. For a playlist file with the magic in place in which every read
succeeds (the header fields and the 24 bytes of each of the `N` items are in
the file), `S` being the big-endian value at offset 8 and `N` the one at
`S + 6`: the `N` calls of `ParsePlayItem` return the `N` items of the chain
that starts at `S + 10`, in file order; the retained play items are those
with a non-empty clip name, in the same order; and their number is `N` minus
the number of items with an empty clip name. -/
theorem C3_play_item_count (host : Host) (junk : MPLSJunk) (mplsPath streamDir : Path)
    (data : List Byte) (hc : host.content mplsPath = some data)
    (hm : bytesAt data 0 4 = mplsMagic) (h12 : 12 ≤ data.length)
    (hS : playlistStartOf data + 8 ≤ data.length)
    (hitems : ∀ i, i < playItemCountOf data →
      itemOffset data (playlistStartOf data + 10) i + 24 ≤ data.length) :
    decodedItems junk.item 0 (playItemCountOf data) (loopStart data).file
        = declaredItems data (playlistStartOf data + 10) (playItemCountOf data)
    ∧ (declaredItems data (playlistStartOf data + 10) (playItemCountOf data)).length
        = playItemCountOf data
    ∧ (ParseMPLSFile.locals host junk mplsPath streamDir).playItems
        = (declaredItems data (playlistStartOf data + 10) (playItemCountOf data)).filter
            (fun it => it.clipName ≠ "")
    ∧ (ParseMPLSFile.locals host junk mplsPath streamDir).playItems.length
        = playItemCountOf data
          - (declaredItems data (playlistStartOf data + 10) (playItemCountOf data)).countP
              (fun it => it.clipName = "") := by
  have hd := (decodedItems_of_file junk.item data (playItemCountOf data) hitems).1
  have hlen := declaredItems_length data (playItemCountOf data) (playlistStartOf data + 10)
  have hp : (ParseMPLSFile.locals host junk mplsPath streamDir).playItems
      = (declaredItems data (playlistStartOf data + 10) (playItemCountOf data)).filter
          (fun it => it.clipName ≠ "") := by
    rw [(locals_of_present_header host junk mplsPath streamDir data hc hm h12 hS).1, hd]
    rfl
  refine ⟨hd, hlen, hp, ?_⟩
  rw [hp]
  have hsplit := List.length_eq_countP_add_countP (fun it : PlayItem => decide (it.clipName ≠ ""))
    (declaredItems data (playlistStartOf data + 10) (playItemCountOf data))
  rw [hlen] at hsplit
  rw [← List.countP_eq_length_filter]
  have e : (declaredItems data (playlistStartOf data + 10) (playItemCountOf data)).countP
      (fun it => decide (it.clipName = ""))
      = (declaredItems data (playlistStartOf data + 10) (playItemCountOf data)).countP
          (fun a => decide ¬ (decide (a.clipName ≠ "") = true)) := by
    congr 1
    funext a
    simp
  rw [e]
  omega

theorem C3_play_item_count_witness :
    (discHost [("00001.mpls", twoItemPlaylist)]).content (discPlaylist "00001.mpls")
        = some twoItemPlaylist
    ∧ decodedItems zeroJunk.item 0 (playItemCountOf twoItemPlaylist)
          (loopStart twoItemPlaylist).file
        = declaredItems twoItemPlaylist (playlistStartOf twoItemPlaylist + 10)
            (playItemCountOf twoItemPlaylist)
    ∧ (declaredItems twoItemPlaylist (playlistStartOf twoItemPlaylist + 10)
          (playItemCountOf twoItemPlaylist)).length = playItemCountOf twoItemPlaylist
    ∧ (ParseMPLSFile.locals (discHost [("00001.mpls", twoItemPlaylist)]) zeroJunk
          (discPlaylist "00001.mpls") discStream).playItems
        = (declaredItems twoItemPlaylist (playlistStartOf twoItemPlaylist + 10)
            (playItemCountOf twoItemPlaylist)).filter (fun it => it.clipName ≠ "")
    ∧ (ParseMPLSFile.locals (discHost [("00001.mpls", twoItemPlaylist)]) zeroJunk
          (discPlaylist "00001.mpls") discStream).playItems.length
        = playItemCountOf twoItemPlaylist
          - (declaredItems twoItemPlaylist (playlistStartOf twoItemPlaylist + 10)
              (playItemCountOf twoItemPlaylist)).countP (fun it => it.clipName = "") :=
  ⟨by decide,
    C3_play_item_count (discHost [("00001.mpls", twoItemPlaylist)]) zeroJunk
      (discPlaylist "00001.mpls") discStream twoItemPlaylist (by decide) (by decide)
      (by decide) (by decide) (by decide)⟩

/-- When the first four bytes of the file are not the magic, the stream the
loop would start from has failed. -/
theorem readHeader_failed_of_bad_magic (junk : MPLSJunk) (data : List Byte)
    (hbad : bytesAt data 0 4 ≠ mplsMagic) (file : IfStream) (n : Nat)
    (hh : readHeader junk data = some (file, n)) : file.failbit = true := by
  unfold readHeader at hh
  simp only [] at hh
  split at hh
  · exact absurd hh (by simp)
  · rename_i hmagic
    have hshort : data.length < 4 := by
      by_contra hlen
      apply hmagic
      rw [IfStream.opened, IfStream.read_mk data 0 4 _ (by omega)]
      exact hbad
    have h0 : ((IfStream.opened data).read 4 (toLE 4 junk.magic)).1.failbit = true :=
      IfStream.read_short _ 4 _ (by omega) (by simp only [IfStream.opened]; omega)
    simp only [Option.some.injEq, Prod.mk.injEq] at hh
    rw [← hh.1]
    apply IfStream.seekgCur_keeps_failbit
    apply IfStream.read_keeps_failbit
    apply IfStream.seekgCur_keeps_failbit
    apply IfStream.read_keeps_failbit
    apply IfStream.seekg_keeps_failbit
    apply IfStream.read_keeps_failbit
    apply IfStream.seekg_keeps_failbit
    exact h0

/-- A file that does not start with the magic gives no play item, duration 0
and size 0. -/
theorem locals_of_not_magic (host : Host) (junk : MPLSJunk) (mplsPath streamDir : Path)
    (data : List Byte) (hc : host.content mplsPath = some data)
    (hbad : bytesAt data 0 4 ≠ mplsMagic) :
    (ParseMPLSFile.locals host junk mplsPath streamDir).playItems = []
    ∧ (ParseMPLSFile host junk mplsPath streamDir).duration = 0
    ∧ (ParseMPLSFile host junk mplsPath streamDir).size = 0 := by
  cases hh : readHeader junk data with
  | none =>
    simp [ParseMPLSFile, locals_of_bad_magic host junk mplsPath streamDir data hc hh,
      emptyLocals]
  | some fn =>
    obtain ⟨file, n⟩ := fn
    have hf := readHeader_failed_of_bad_magic junk data hbad file n hh
    have hl := locals_of_loop host junk mplsPath streamDir data file n hc hh
    obtain ⟨l1, l2, l3, _⟩ := playItemLoop_spec host streamDir junk.item n 0
      { file := file, playItems := [], duration := 0, size := 0 }
    have hnone := decodedItems_of_failed junk.item n 0 file hf
    simp only [hnone] at l1 l2 l3
    rw [hl.1, hl.2.1, hl.2.2, l1, l2, l3]
    simp

theorem ParseMPLSFile_filename (host : Host) (junk : MPLSJunk) (mplsPath streamDir : Path) :
    (ParseMPLSFile host junk mplsPath streamDir).filename = filename mplsPath := by
  unfold ParseMPLSFile ParseMPLSFile.locals
  cases hc : host.content mplsPath with
  | none => rfl
  | some data =>
    cases hh : readHeader junk data with
    | none => simp only [hh]
    | some fn => simp only [hh]

theorem playItemLoop_withoutBadMagic (host : Host) (streamDir : Path)
    (junk : Nat → PlayItemJunk) (n : Nat) : ∀ (i : Nat) (st : LoopState),
    playItemLoop (withoutBadMagic host) streamDir junk i n st
      = playItemLoop host streamDir junk i n st := by
  induction n with
  | zero => intro i st; rfl
  | succ n ih =>
    intro i st
    simp only [playItemLoop]
    rw [ih]
    rfl

theorem ParseMPLSFile_withoutBadMagic (host : Host) (junk : MPLSJunk)
    (mplsPath streamDir : Path) :
    ParseMPLSFile (withoutBadMagic host) junk mplsPath streamDir
      = ParseMPLSFile host junk mplsPath streamDir := by
  unfold ParseMPLSFile ParseMPLSFile.locals
  simp only [playItemLoop_withoutBadMagic]
  rfl

/-- The scan keeps, in the order of the enumeration, the titles of the entries
with extension `.mpls` whose duration exceeds 120. -/
theorem scanPlaylists_eq (host : Host) (junk : Path → MPLSJunk) (playlistDir streamDir : Path) :
    scanPlaylists host junk playlistDir streamDir
      = (((host.entries playlistDir).filter (fun name => extension name = ".mpls")).map
          (fun name => ParseMPLSFile host (junk (playlistDir ++ [name]))
            (playlistDir ++ [name]) streamDir)).filter
          (fun title => title.duration > 120) := by
  unfold scanPlaylists
  have key : ∀ (l : List String) (acc : List BDMVTitle),
      l.foldl (scanEntry host junk playlistDir streamDir) acc
        = acc ++ ((l.filter (fun name => extension name = ".mpls")).map
            (fun name => ParseMPLSFile host (junk (playlistDir ++ [name]))
              (playlistDir ++ [name]) streamDir)).filter
            (fun title => title.duration > 120) := by
    intro l
    induction l with
    | nil => intro acc; simp
    | cons name names ih =>
      intro acc
      rw [List.foldl_cons, ih]
      by_cases he : extension name = ".mpls"
      · by_cases hd : (ParseMPLSFile host (junk (playlistDir ++ [name]))
            (playlistDir ++ [name]) streamDir).duration > 120
        · simp [scanEntry, he, hd, List.filter]
        · simp [scanEntry, he, hd, List.filter]
      · simp [scanEntry, he, List.filter]
  rw [key]
  rfl

theorem filter_dropped_names (g : String → BDMVTitle) (keep ext : String → Bool)
    (h : ∀ name, keep name = false → decide ((g name).duration > 120) = false)
    (l : List String) :
    (((l.filter keep).filter ext).map g).filter (fun title => title.duration > 120)
      = ((l.filter ext).map g).filter (fun title => title.duration > 120) := by
  induction l with
  | nil => rfl
  | cons name names ih =>
    cases hk : keep name <;> cases he : ext name
    · simp only [List.filter, hk, he]
      exact ih
    · have hd := h name hk
      simp only [List.filter, hk, he, List.map_cons, hd]
      exact ih
    · simp only [List.filter, hk, he]
      exact ih
    · simp only [List.filter, hk, he, List.map_cons]
      rw [ih]

theorem scanPlaylists_withoutBadMagic (host : Host) (junk : Path → MPLSJunk)
    (playlistDir streamDir : Path) :
    scanPlaylists (withoutBadMagic host) junk playlistDir streamDir
      = scanPlaylists host junk playlistDir streamDir := by
  rw [scanPlaylists_eq, scanPlaylists_eq]
  simp only [ParseMPLSFile_withoutBadMagic]
  apply filter_dropped_names
  intro name hname
  have hb : badMagic host (playlistDir ++ [name]) = true := by simpa using hname
  unfold badMagic at hb
  cases hc : host.content (playlistDir ++ [name]) with
  | none => simp [hc] at hb
  | some data =>
    simp only [hc, decide_eq_true_eq] at hb
    rw [(locals_of_not_magic host _ _ streamDir data hc hb).2.1]
    simp

/-- C4. For a playlist file that can be opened and whose first four bytes are
not `MPLS`, whatever else it holds and whatever the uninitialised locals held:
`ParseMPLSFile` ends with no play item and returns a title of duration 0 and
size 0 whose filename is the name of the playlist file. Such a title is not
in the result of `ParseBDMVFolder`, and the other files are processed as if
the file were not there: the result is the one of the same folder without its
files of bad magic. -/
theorem C4_bad_magic (host : Host) (junk : MPLSJunk) (mplsPath streamDir : Path)
    (data : List Byte)
    (sort : (BDMVTitle → BDMVTitle → Bool) → List BDMVTitle → List BDMVTitle)
    (junks : Path → MPLSJunk) (path : Path)
    (hc : host.content mplsPath = some data) (hbad : bytesAt data 0 4 ≠ mplsMagic) :
    (ParseMPLSFile.locals host junk mplsPath streamDir).playItems = []
    ∧ (ParseMPLSFile host junk mplsPath streamDir).duration = 0
    ∧ (ParseMPLSFile host junk mplsPath streamDir).size = 0
    ∧ (ParseMPLSFile host junk mplsPath streamDir).filename = filename mplsPath
    ∧ badMagic host mplsPath = true
    ∧ ParseBDMVFolder host sort junks path
        = ParseBDMVFolder (withoutBadMagic host) sort junks path := by
  obtain ⟨h1, h2, h3⟩ := locals_of_not_magic host junk mplsPath streamDir data hc hbad
  refine ⟨h1, h2, h3, ParseMPLSFile_filename host junk mplsPath streamDir, ?_, ?_⟩
  · simp [badMagic, hc, hbad]
  · unfold ParseBDMVFolder
    simp only [scanPlaylists_withoutBadMagic]
    rfl

theorem C4_bad_magic_witness :
    (discHost [("00001.mpls", notAPlaylist), ("00002.mpls", twoItemPlaylist)]).content
        (discPlaylist "00001.mpls") = some notAPlaylist
    ∧ bytesAt notAPlaylist 0 4 ≠ mplsMagic
    ∧ (ParseMPLSFile.locals
          (discHost [("00001.mpls", notAPlaylist), ("00002.mpls", twoItemPlaylist)]) zeroJunk
          (discPlaylist "00001.mpls") discStream).playItems = []
    ∧ (ParseMPLSFile
          (discHost [("00001.mpls", notAPlaylist), ("00002.mpls", twoItemPlaylist)]) zeroJunk
          (discPlaylist "00001.mpls") discStream).duration = 0
    ∧ (ParseMPLSFile
          (discHost [("00001.mpls", notAPlaylist), ("00002.mpls", twoItemPlaylist)]) zeroJunk
          (discPlaylist "00001.mpls") discStream).size = 0
    ∧ (ParseMPLSFile
          (discHost [("00001.mpls", notAPlaylist), ("00002.mpls", twoItemPlaylist)]) zeroJunk
          (discPlaylist "00001.mpls") discStream).filename = filename (discPlaylist "00001.mpls")
    ∧ badMagic (discHost [("00001.mpls", notAPlaylist), ("00002.mpls", twoItemPlaylist)])
        (discPlaylist "00001.mpls") = true
    ∧ ParseBDMVFolder
          (discHost [("00001.mpls", notAPlaylist), ("00002.mpls", twoItemPlaylist)])
          insertionSortTitles (fun _ => zeroJunk) ["disc"]
        = ParseBDMVFolder
            (withoutBadMagic
              (discHost [("00001.mpls", notAPlaylist), ("00002.mpls", twoItemPlaylist)]))
            insertionSortTitles (fun _ => zeroJunk) ["disc"] :=
  ⟨by decide, by decide,
    C4_bad_magic (discHost [("00001.mpls", notAPlaylist), ("00002.mpls", twoItemPlaylist)])
      zeroJunk (discPlaylist "00001.mpls") discStream notAPlaylist insertionSortTitles
      (fun _ => zeroJunk) ["disc"] (by decide) (by decide)⟩

/-! ## Claims on the duration in binary64 -/

/-- The floor of the binary logarithm, as `log2Floor` computes it. -/
theorem log2Floor_spec : ∀ (fuel n : Nat), 0 < n → n ≤ fuel →
    2 ^ log2Floor fuel n ≤ n ∧ n < 2 ^ (log2Floor fuel n + 1) := by
  intro fuel
  induction fuel with
  | zero => intro n h0 h1; omega
  | succ fuel ih =>
    intro n h0 h1
    unfold log2Floor
    by_cases h2 : n < 2
    · rw [if_pos h2]
      have : n = 1 := by omega
      subst this
      simp
    · rw [if_neg h2]
      obtain ⟨a, b⟩ := ih (n / 2) (by omega) (by omega)
      rw [pow_succ] at b ⊢
      rw [pow_succ (2 : Nat) (log2Floor fuel (n / 2) + 1)]
      constructor <;> omega

/-- The exponent of a quotient below `2^53` is at most 52. -/
theorem exponentOf_le (p q : Nat) (hp : 0 < p) (hq : 0 < q) (h : p < q * 2 ^ 53) :
    exponentOf p q ≤ 52 := by
  obtain ⟨p1, p2⟩ := log2Floor_spec p p hp (le_refl p)
  obtain ⟨q1, q2⟩ := log2Floor_spec q q hq (le_refl q)
  have hlt : log2Floor p p < log2Floor q q + 54 := by
    by_contra hc
    have hc2 : log2Floor q q + 54 ≤ log2Floor p p := by omega
    have h1 : 2 ^ (log2Floor q q + 54) ≤ 2 ^ log2Floor p p :=
      Nat.pow_le_pow_right (by norm_num) hc2
    have h2 : 2 ^ (log2Floor q q + 54) = 2 ^ (log2Floor q q + 1) * 2 ^ 53 := by
      rw [← pow_add]
    have h3 : q * 2 ^ 53 < 2 ^ (log2Floor q q + 1) * 2 ^ 53 :=
      Nat.mul_lt_mul_of_pos_right q2 (by norm_num)
    omega
  unfold exponentOf
  simp only []
  by_cases h53 : (log2Floor p p : Int) - (log2Floor q q : Int) = 53
  · rw [h53]
    have hn : ¬ (q * 9007199254740992 ≤ p) := by
      norm_num at h
      omega
    simp [hn]
  · split <;> omega

/-- A quotient that is an integer is not rounded. -/
theorem roundHalfEven_mul (q k : Nat) (hq : 0 < q) : roundHalfEven (q * k) q = k := by
  unfold roundHalfEven
  have h1 : q * k % q = 0 := Nat.mul_mod_right q k
  have h2 : q * k / q = k := Nat.mul_div_cancel_left k hq
  rw [h1, h2]
  simp [hq]

/-- An integer below `2^53` is a binary64 value: the division that gives it
does not round. -/
theorem roundRatio_mul (q k : Nat) (hq : 0 < q) (hk : k < 2 ^ 53) :
    (roundRatio (q * k) q).toRat = k := by
  unfold roundRatio
  by_cases hp : q * k = 0
  · rw [if_pos hp]
    have : k = 0 := by
      rcases Nat.mul_eq_zero.1 hp with h | h
      · omega
      · exact h
    subst this
    simp [Dyadic.toRat]
  · rw [if_neg hp]
    have hpos : 0 < q * k := Nat.pos_of_ne_zero hp
    have hE := exponentOf_le (q * k) q hpos hq (Nat.mul_lt_mul_of_pos_left hk hq)
    simp only []
    by_cases hs : max (exponentOf (q * k) q) (-1022) - 52 < 0
    · rw [if_pos hs]
      have e : q * k * 2 ^ (-(max (exponentOf (q * k) q) (-1022) - 52)).toNat
          = q * (k * 2 ^ (-(max (exponentOf (q * k) q) (-1022) - 52)).toNat) := by ring
      rw [e, roundHalfEven_mul _ _ hq]
      simp only [Dyadic.toRat]
      generalize max (exponentOf (q * k) q) (-1022) - 52 = s at hs
      obtain ⟨t, ht⟩ : ∃ t : Nat, s = -(t : Int) := ⟨(-s).toNat, by omega⟩
      subst ht
      simp only [neg_neg, Int.toNat_ofNat, Nat.cast_mul, Nat.cast_pow, Nat.cast_ofNat,
        zpow_neg, zpow_natCast]
      field_simp
    · rw [if_neg hs]
      have h0 : max (exponentOf (q * k) q) (-1022) - 52 = 0 := by
        have : max (exponentOf (q * k) q) (-1022) ≤ 52 := max_le hE (by norm_num)
        omega
      rw [h0]
      simp only [Int.toNat_zero, pow_zero, mul_one, Dyadic.toRat, zpow_zero]
      rw [roundHalfEven_mul _ _ hq]

/-- The exact sum of two binary64 values, on their common scale. -/
theorem addDouble_toRat (a b : Dyadic) :
    a.toRat + b.toRat
      = ((a.m * 2 ^ (a.e - min a.e b.e).toNat + b.m * 2 ^ (b.e - min a.e b.e).toNat : Nat) : ℚ)
          * (2 : ℚ) ^ (min a.e b.e) := by
  have h2 : (2 : ℚ) ≠ 0 := by norm_num
  have key : ∀ (m : Nat) (e emin : Int), emin ≤ e →
      (m : ℚ) * (2 : ℚ) ^ e = ((m * 2 ^ (e - emin).toNat : Nat) : ℚ) * (2 : ℚ) ^ emin := by
    intro m e emin h
    obtain ⟨t, ht⟩ : ∃ t : Nat, e = emin + (t : Int) := ⟨(e - emin).toNat, by omega⟩
    subst ht
    have : (emin + (t : Int) - emin).toNat = t := by simp
    rw [this, zpow_add₀ h2, zpow_natCast]
    push_cast
    ring
  unfold Dyadic.toRat
  rw [key a.m a.e (min a.e b.e) (min_le_left _ _), key b.m b.e (min a.e b.e) (min_le_right _ _)]
  push_cast
  ring

/-- An addition whose exact result is an integer below `2^53` does not round. -/
theorem addDouble_exact (a b : Dyadic) (x y : Nat) (ha : a.toRat = x) (hb : b.toRat = y)
    (h : x + y < 2 ^ 53) : (addDouble a b).toRat = ((x + y : Nat) : ℚ) := by
  have hsum := addDouble_toRat a b
  rw [ha, hb] at hsum
  unfold addDouble
  simp only []
  generalize a.m * 2 ^ (a.e - min a.e b.e).toNat + b.m * 2 ^ (b.e - min a.e b.e).toNat = sum
    at hsum ⊢
  generalize min a.e b.e = emin at hsum ⊢
  by_cases hneg : emin < 0
  · rw [if_pos hneg]
    obtain ⟨t, ht⟩ : ∃ t : Nat, emin = -(t : Int) := ⟨(-emin).toNat, by omega⟩
    subst ht
    simp only [neg_neg, Int.toNat_ofNat]
    have hs : sum = 2 ^ t * (x + y) := by
      have h2 : (2 : ℚ) ^ t ≠ 0 := pow_ne_zero _ (by norm_num)
      rw [zpow_neg, zpow_natCast] at hsum
      have : ((sum : Nat) : ℚ) = ((2 ^ t * (x + y) : Nat) : ℚ) := by
        push_cast
        field_simp at hsum
        linarith
      exact_mod_cast this
    rw [hs]
    exact roundRatio_mul _ _ (by positivity) h
  · rw [if_neg hneg]
    obtain ⟨t, ht⟩ : ∃ t : Nat, emin = (t : Int) := ⟨emin.toNat, by omega⟩
    subst ht
    simp only [Int.toNat_ofNat]
    have hs : sum * 2 ^ t = 1 * (x + y) := by
      rw [zpow_natCast] at hsum
      have : ((sum * 2 ^ t : Nat) : ℚ) = ((1 * (x + y) : Nat) : ℚ) := by
        push_cast
        linarith
      exact_mod_cast this
    rw [hs]
    exact roundRatio_mul _ _ (by norm_num) h

/-- Values of the rounding at a few points: `1/3`, `1/10`, and the two ties
`2^53 + 1` and `2^53 + 3`, which go to the even neighbour. -/
theorem roundRatio_examples :
    roundRatio 1 3 = { m := 6004799503160661, e := -54 }
    ∧ roundRatio 1 10 = { m := 7205759403792794, e := -56 }
    ∧ roundRatio 9007199254740993 1 = { m := 4503599627370496, e := 1 }
    ∧ roundRatio 9007199254740995 1 = { m := 4503599627370498, e := 1 }
    ∧ addDouble (roundRatio 1 10) (roundRatio 2 10) = { m := 5404319552844596, e := -54 } := by
  decide

theorem loopBodyDouble_file (junk : PlayItemJunk) (st : LoopStateDouble) :
    (loopBodyDouble junk st).file = (ParsePlayItem junk st.file).2 := by
  unfold loopBodyDouble
  simp only []
  split <;> rfl

/-- What the loop computes in binary64: it appends the retained ones among the
decoded items and adds their durations, one after the other, to the running
sum. -/
theorem playItemLoopDouble_spec (junk : Nat → PlayItemJunk) (n : Nat) :
    ∀ (i : Nat) (st : LoopStateDouble),
    (playItemLoopDouble junk i n st).playItems
        = st.playItems ++ (decodedItems junk i n st.file).filter retained
    ∧ (playItemLoopDouble junk i n st).duration
        = ((decodedItems junk i n st.file).filter retained).foldl
            (fun acc it => addDouble acc it.GetDurationSecondsDouble) st.duration := by
  induction n with
  | zero =>
    intro i st
    simp [playItemLoopDouble, decodedItems]
  | succ n ih =>
    intro i st
    have hf := loopBodyDouble_file (junk i) st
    obtain ⟨ih1, ih2⟩ := ih (i + 1) (loopBodyDouble (junk i) st)
    simp only [playItemLoopDouble, decodedItems]
    rw [ih1, ih2, hf]
    cases hr : retained (ParsePlayItem (junk i) st.file).1
    · have h1 : (ParsePlayItem (junk i) st.file).1.clipName = "" := by
        simpa [retained] using hr
      have hb : loopBodyDouble (junk i) st = { st with file := (ParsePlayItem (junk i) st.file).2 } := by
        unfold loopBodyDouble
        simp only [h1, ne_eq, not_true_eq_false, if_false]
      rw [hb]
      simp [List.filter, hr]
    · have h1 : (ParsePlayItem (junk i) st.file).1.clipName ≠ "" := by
        simpa [retained] using hr
      have hb : loopBodyDouble (junk i) st
          = { file := (ParsePlayItem (junk i) st.file).2
              playItems := st.playItems ++ [(ParsePlayItem (junk i) st.file).1]
              duration := addDouble st.duration
                (ParsePlayItem (junk i) st.file).1.GetDurationSecondsDouble } := by
        unfold loopBodyDouble
        simp only [h1, ne_eq, not_false_eq_true, if_true]
      rw [hb]
      simp [List.filter, hr]

/-- The binary64 duration of the title is the running sum, from 0 and in the
order of the file, of the binary64 durations of the retained play items. -/
theorem durationDouble_eq (host : Host) (junk : MPLSJunk) (mplsPath streamDir : Path) :
    ParseMPLSFile.durationDouble host junk mplsPath
      = (ParseMPLSFile.locals host junk mplsPath streamDir).playItems.foldl
          (fun acc it => addDouble acc it.GetDurationSecondsDouble) { m := 0, e := 0 } := by
  cases hc : host.content mplsPath with
  | none =>
    rw [locals_of_unopened host junk mplsPath streamDir hc]
    simp [ParseMPLSFile.durationDouble, hc, emptyLocals]
  | some data =>
    cases hh : readHeader junk data with
    | none =>
      rw [locals_of_bad_magic host junk mplsPath streamDir data hc hh]
      simp [ParseMPLSFile.durationDouble, hc, hh, emptyLocals]
    | some fn =>
      obtain ⟨file, n⟩ := fn
      have hl := locals_of_loop host junk mplsPath streamDir data file n hc hh
      obtain ⟨l1, _⟩ := playItemLoop_spec host streamDir junk.item n 0
        { file := file, playItems := [], duration := 0, size := 0 }
      obtain ⟨_, d2⟩ := playItemLoopDouble_spec junk.item n 0
        { file := file, playItems := [], duration := { m := 0, e := 0 } }
      rw [hl.1, l1]
      simp only [ParseMPLSFile.durationDouble, hc, hh, d2, List.nil_append]

theorem readHeader_count_lt (junk : MPLSJunk) (data : List Byte) (file : IfStream) (n : Nat)
    (hh : readHeader junk data = some (file, n)) : n < 65536 := by
  unfold readHeader at hh
  simp only [] at hh
  split at hh
  · exact absurd hh (by simp)
  · simp only [Option.some.injEq, Prod.mk.injEq] at hh
    rw [← hh.2]
    unfold _byteswap_ushort
    omega

theorem decodedItems_length (junk : Nat → PlayItemJunk) (n : Nat) :
    ∀ (i : Nat) (f : IfStream), (decodedItems junk i n f).length = n := by
  induction n with
  | zero => intro i f; rfl
  | succ n ih => intro i f; simp [decodedItems, ih]

/-- A playlist has fewer than `2^16` retained play items: the count is a
16-bit field. -/
theorem playItems_length_lt (host : Host) (junk : MPLSJunk) (mplsPath streamDir : Path) :
    (ParseMPLSFile.locals host junk mplsPath streamDir).playItems.length < 65536 := by
  cases hc : host.content mplsPath with
  | none =>
    rw [locals_of_unopened host junk mplsPath streamDir hc]
    simp [emptyLocals]
  | some data =>
    cases hh : readHeader junk data with
    | none =>
      rw [locals_of_bad_magic host junk mplsPath streamDir data hc hh]
      simp [emptyLocals]
    | some fn =>
      obtain ⟨file, n⟩ := fn
      have hl := locals_of_loop host junk mplsPath streamDir data file n hc hh
      obtain ⟨l1, _⟩ := playItemLoop_spec host streamDir junk.item n 0
        { file := file, playItems := [], duration := 0, size := 0 }
      rw [hl.1, l1]
      have h1 := List.length_filter_le retained (decodedItems junk.item 0 n file)
      rw [decodedItems_length] at h1
      have h2 := readHeader_count_lt junk data file n hh
      simp only [List.nil_append]
      omega

/-- The running binary64 sum is exact while every interval is a whole number
of seconds: the quotients and the partial sums are integers below `2^53`. -/
theorem foldl_addDouble_exact (l : List PlayItem) :
    ∀ (acc : Dyadic) (A : Nat), acc.toRat = A → A + l.length * 2 ^ 32 < 2 ^ 53 →
    (∀ it ∈ l, it.inTime < 2 ^ 32 ∧ it.outTime < 2 ^ 32 ∧ it.inTime ≤ it.outTime
      ∧ 45000 ∣ it.outTime - it.inTime) →
    (l.foldl (fun acc it => addDouble acc it.GetDurationSecondsDouble) acc).toRat
      = A + (l.map (fun it => ((it.outTime - it.inTime : Nat) : ℚ) / 45000)).sum := by
  induction l with
  | nil =>
    intro acc A h _ _
    simp [h]
  | cons it l ih =>
    intro acc A hacc hlen hall
    obtain ⟨hin, hout, hle, k, hk⟩ := hall it (List.mem_cons_self _ _)
    have hticks : (it.outTime % 2 ^ 32 + 2 ^ 32 - it.inTime % 2 ^ 32) % 2 ^ 32 = 45000 * k := by
      rw [← hk]
      omega
    have hk32 : k < 2 ^ 32 := by omega
    have hd : it.GetDurationSecondsDouble.toRat = k := by
      unfold PlayItem.GetDurationSecondsDouble
      rw [hticks]
      exact roundRatio_mul 45000 k (by norm_num) (by omega)
    simp only [List.length_cons] at hlen
    have hstep := addDouble_exact acc it.GetDurationSecondsDouble A k hacc hd (by omega)
    have hrest := ih (addDouble acc it.GetDurationSecondsDouble) (A + k) hstep (by omega)
      (fun it2 h2 => hall it2 (List.mem_cons_of_mem _ h2))
    simp only [List.foldl_cons, List.map_cons, List.sum_cons]
    rw [hrest, hk]
    push_cast
    field_simp
    ring

/-- Rounding to the nearest integer moves a quotient by at most one half. -/
theorem roundHalfEven_error (num den : Nat) (hden : 0 < den) :
    |((roundHalfEven num den : Nat) : ℚ) - (num : ℚ) / den| ≤ 1 / 2 := by
  have hd : (0 : ℚ) < den := by exact_mod_cast hden
  have hnum : (num : ℚ) = (den : ℚ) * ((num / den : Nat) : ℚ) + ((num % den : Nat) : ℚ) := by
    exact_mod_cast (Nat.div_add_mod num den).symm
  have hr : ((num % den : Nat) : ℚ) < den := by exact_mod_cast Nat.mod_lt num hden
  have hr0 : (0 : ℚ) ≤ ((num % den : Nat) : ℚ) := by positivity
  have hq : (num : ℚ) / den = ((num / den : Nat) : ℚ) + ((num % den : Nat) : ℚ) / den := by
    rw [div_eq_iff (ne_of_gt hd), add_mul, div_mul_cancel₀ _ (ne_of_gt hd)]
    linarith
  rw [hq]
  unfold roundHalfEven
  by_cases h1 : 2 * (num % den) < den
  · rw [if_pos h1]
    have h1q : 2 * ((num % den : Nat) : ℚ) < den := by exact_mod_cast h1
    rw [abs_le]
    constructor
    · have : ((num % den : Nat) : ℚ) / den ≤ 1 / 2 := by
        rw [div_le_iff₀ hd]
        linarith
      linarith
    · have : (0 : ℚ) ≤ ((num % den : Nat) : ℚ) / den := by positivity
      linarith
  · rw [if_neg h1]
    by_cases h2 : den < 2 * (num % den)
    · rw [if_pos h2]
      have h2q : (den : ℚ) < 2 * ((num % den : Nat) : ℚ) := by exact_mod_cast h2
      push_cast
      rw [abs_le]
      constructor
      · have : ((num % den : Nat) : ℚ) / den ≤ 1 := by
          rw [div_le_iff₀ hd]
          linarith
        linarith
      · have : 1 / 2 ≤ ((num % den : Nat) : ℚ) / den := by
          rw [le_div_iff₀ hd]
          linarith
        linarith
    · rw [if_neg h2]
      have h3 : 2 * (num % den) = den := by omega
      have h3q : 2 * ((num % den : Nat) : ℚ) = den := by exact_mod_cast h3
      have hhalf : ((num % den : Nat) : ℚ) / den = 1 / 2 := by
        rw [div_eq_iff (ne_of_gt hd)]
        linarith
      rw [hhalf]
      rcases Nat.mod_two_eq_zero_or_one (num / den) with h | h
      · rw [h]
        push_cast
        rw [abs_le]
        constructor <;> linarith
      · rw [h]
        push_cast
        rw [abs_le]
        constructor <;> linarith

/-- The exponent of a quotient below `2^k` is below `k`. -/
theorem exponentOf_lt (p q k : Nat) (hp : 0 < p) (hq : 0 < q) (h : p < q * 2 ^ k) :
    exponentOf p q ≤ (k : Int) - 1 := by
  obtain ⟨p1, p2⟩ := log2Floor_spec p p hp (le_refl p)
  obtain ⟨q1, q2⟩ := log2Floor_spec q q hq (le_refl q)
  have hlt : log2Floor p p < log2Floor q q + 1 + k := by
    by_contra hc
    have hc2 : log2Floor q q + 1 + k ≤ log2Floor p p := by omega
    have h1 : 2 ^ (log2Floor q q + 1 + k) ≤ 2 ^ log2Floor p p :=
      Nat.pow_le_pow_right (by norm_num) hc2
    have h2 : 2 ^ (log2Floor q q + 1 + k) = 2 ^ (log2Floor q q + 1) * 2 ^ k := by
      rw [← pow_add]
    have h3 : q * 2 ^ k < 2 ^ (log2Floor q q + 1) * 2 ^ k :=
      Nat.mul_lt_mul_of_pos_right q2 (by positivity)
    omega
  unfold exponentOf
  simp only []
  by_cases hk : (log2Floor p p : Int) - (log2Floor q q : Int) = k
  · rw [hk]
    have hn : ¬ (q * 2 ^ k ≤ p) := by omega
    have hk0 : ¬ ((k : Int) < 0) := by omega
    simp only [hk0, if_false, Int.toNat_ofNat, hn]
    simp
  · split <;> omega

/-- The division rounds to nearest: a quotient below `2^k` moves by at most
half a unit in the last of its 53 places, `2^k / 2^54`. -/
theorem roundRatio_error (p q k : Nat) (hq : 0 < q) (h : p < q * 2 ^ k) :
    |(roundRatio p q).toRat - (p : ℚ) / q| ≤ (2 : ℚ) ^ k / 2 ^ 54 := by
  have hqq : (0 : ℚ) < q := by exact_mod_cast hq
  have h2 : (2 : ℚ) ≠ 0 := by norm_num
  unfold roundRatio
  by_cases hp : p = 0
  · rw [if_pos hp]
    subst hp
    simp only [Dyadic.toRat, Nat.cast_zero, zero_mul, zero_div, sub_zero, abs_zero]
    positivity
  · rw [if_neg hp]
    have hE := exponentOf_lt p q k (Nat.pos_of_ne_zero hp) hq h
    simp only []
    have hs : max (exponentOf p q) (-1022) - 52 ≤ (k : Int) - 53 := by
      have : max (exponentOf p q) (-1022) ≤ (k : Int) - 1 := max_le hE (by omega)
      omega
    generalize max (exponentOf p q) (-1022) - 52 = s at hs
    have hpow : (2 : ℚ) ^ s ≤ (2 : ℚ) ^ k / 2 ^ 53 := by
      have h1 : (2 : ℚ) ^ s ≤ (2 : ℚ) ^ ((k : Int) - 53) :=
        zpow_le_zpow_right₀ (by norm_num) hs
      have h3 : (2 : ℚ) ^ ((k : Int) - 53) = (2 : ℚ) ^ k / 2 ^ 53 := by
        rw [zpow_sub₀ h2, zpow_natCast]
        norm_num
      rw [h3] at h1
      exact h1
    have hgoal : ∀ m : Nat, |(m : ℚ) * (2 : ℚ) ^ s - (p : ℚ) / q| ≤ (2 : ℚ) ^ s / 2 →
        |(m : ℚ) * (2 : ℚ) ^ s - (p : ℚ) / q| ≤ (2 : ℚ) ^ k / 2 ^ 54 := by
      intro m hm
      refine le_trans hm ?_
      have e54 : (2 : ℚ) ^ k / 2 ^ 54 = (2 : ℚ) ^ k / 2 ^ 53 / 2 := by
        rw [div_div]
        norm_num
      rw [e54]
      linarith
    by_cases hneg : s < 0
    · rw [if_pos hneg]
      obtain ⟨t, ht⟩ : ∃ t : Nat, s = -(t : Int) := ⟨(-s).toNat, by omega⟩
      subst ht
      simp only [neg_neg, Int.toNat_ofNat, Dyadic.toRat]
      apply hgoal
      have herr := roundHalfEven_error (p * 2 ^ t) q hq
      have hpt : (0 : ℚ) < (2 : ℚ) ^ t := by positivity
      rw [zpow_neg, zpow_natCast]
      have e1 : ((roundHalfEven (p * 2 ^ t) q : Nat) : ℚ) * ((2 : ℚ) ^ t)⁻¹ - (p : ℚ) / q
          = (((roundHalfEven (p * 2 ^ t) q : Nat) : ℚ) - ((p * 2 ^ t : Nat) : ℚ) / q)
              * ((2 : ℚ) ^ t)⁻¹ := by
        push_cast
        field_simp
        ring
      rw [e1, abs_mul, abs_of_pos (inv_pos.2 hpt)]
      have := mul_le_mul_of_nonneg_right herr (le_of_lt (inv_pos.2 hpt))
      calc _ ≤ 1 / 2 * ((2 : ℚ) ^ t)⁻¹ := this
        _ = ((2 : ℚ) ^ t)⁻¹ / 2 := by ring
    · rw [if_neg hneg]
      obtain ⟨t, ht⟩ : ∃ t : Nat, s = (t : Int) := ⟨s.toNat, by omega⟩
      subst ht
      simp only [Int.toNat_ofNat, Dyadic.toRat]
      apply hgoal
      have herr := roundHalfEven_error p (q * 2 ^ t) (by positivity)
      have hpt : (0 : ℚ) < (2 : ℚ) ^ t := by positivity
      rw [zpow_natCast]
      have e1 : ((roundHalfEven p (q * 2 ^ t) : Nat) : ℚ) * (2 : ℚ) ^ t - (p : ℚ) / q
          = (((roundHalfEven p (q * 2 ^ t) : Nat) : ℚ) - (p : ℚ) / ((q * 2 ^ t : Nat) : ℚ))
              * (2 : ℚ) ^ t := by
        push_cast
        field_simp
        ring
      rw [e1, abs_mul, abs_of_pos hpt]
      have := mul_le_mul_of_nonneg_right herr (le_of_lt hpt)
      calc _ ≤ 1 / 2 * (2 : ℚ) ^ t := this
        _ = (2 : ℚ) ^ t / 2 := by ring

/-- The addition rounds to nearest: an exact sum below `2^k` moves by at most
`2^k / 2^54`. -/
theorem addDouble_error (a b : Dyadic) (k : Nat) (h : a.toRat + b.toRat < (2 : ℚ) ^ k) :
    |(addDouble a b).toRat - (a.toRat + b.toRat)| ≤ (2 : ℚ) ^ k / 2 ^ 54 := by
  have hsum := addDouble_toRat a b
  rw [hsum] at h ⊢
  unfold addDouble
  simp only []
  generalize a.m * 2 ^ (a.e - min a.e b.e).toNat + b.m * 2 ^ (b.e - min a.e b.e).toNat = sum
    at h ⊢
  generalize min a.e b.e = emin at h ⊢
  by_cases hneg : emin < 0
  · rw [if_pos hneg]
    obtain ⟨t, ht⟩ : ∃ t : Nat, emin = -(t : Int) := ⟨(-emin).toNat, by omega⟩
    subst ht
    simp only [neg_neg, Int.toNat_ofNat]
    have hpt : (0 : ℚ) < (2 : ℚ) ^ t := by positivity
    rw [zpow_neg, zpow_natCast] at h ⊢
    have hlt : sum < 2 ^ t * 2 ^ k := by
      have : (sum : ℚ) < (2 : ℚ) ^ t * (2 : ℚ) ^ k := by
        have := mul_lt_mul_of_pos_right h hpt
        rw [mul_assoc, inv_mul_cancel₀ (ne_of_gt hpt), mul_one] at this
        linarith
      exact_mod_cast this
    have herr := roundRatio_error sum (2 ^ t) k (by positivity) hlt
    have e : (sum : ℚ) * ((2 : ℚ) ^ t)⁻¹ = (sum : ℚ) / ((2 ^ t : Nat) : ℚ) := by
      push_cast
      rfl
    rw [e]
    exact herr
  · rw [if_neg hneg]
    obtain ⟨t, ht⟩ : ∃ t : Nat, emin = (t : Int) := ⟨emin.toNat, by omega⟩
    subst ht
    simp only [Int.toNat_ofNat]
    rw [zpow_natCast] at h ⊢
    have hlt : sum * 2 ^ t < 1 * 2 ^ k := by
      have : ((sum * 2 ^ t : Nat) : ℚ) < ((1 * 2 ^ k : Nat) : ℚ) := by
        push_cast
        linarith
      exact_mod_cast this
    have herr := roundRatio_error (sum * 2 ^ t) 1 k (by norm_num) hlt
    have e : (sum : ℚ) * (2 : ℚ) ^ t = ((sum * 2 ^ t : Nat) : ℚ) / ((1 : Nat) : ℚ) := by
      push_cast
      simp
    rw [e]
    exact herr

/-- The binary64 duration of a play item is within `2^-37` of the exact
quotient, which lies between 0 and 95444. -/
theorem getDurationSecondsDouble_error (it : PlayItem) :
    |it.GetDurationSecondsDouble.toRat - it.GetDurationSeconds| ≤ 1 / 2 ^ 37
    ∧ 0 ≤ it.GetDurationSeconds ∧ it.GetDurationSeconds ≤ 95444 := by
  have hn : (it.outTime % 2 ^ 32 + 2 ^ 32 - it.inTime % 2 ^ 32) % 2 ^ 32 < 2 ^ 32 :=
    Nat.mod_lt _ (by norm_num)
  unfold PlayItem.GetDurationSecondsDouble PlayItem.GetDurationSeconds
  generalize (it.outTime % 2 ^ 32 + 2 ^ 32 - it.inTime % 2 ^ 32) % 2 ^ 32 = n at hn
  have herr := roundRatio_error n 45000 17 (by norm_num) (by omega)
  have hnq : (n : ℚ) < 2 ^ 32 := by exact_mod_cast hn
  refine ⟨?_, by positivity, ?_⟩
  · have e : (2 : ℚ) ^ 17 / 2 ^ 54 = 1 / 2 ^ 37 := by norm_num
    rw [e] at herr
    exact_mod_cast herr
  · rw [div_le_iff₀ (by norm_num)]
    norm_num at hnq ⊢
    linarith

/-- The running binary64 sum of at most `2^16` durations stays within `2^-20`
per item of the exact sum. -/
theorem foldl_addDouble_error (l : List PlayItem) :
    ∀ (acc : Dyadic) (A : ℚ) (j : Nat), |acc.toRat - A| ≤ (j : ℚ) / 2 ^ 20 → 0 ≤ A →
    A ≤ 95444 * j → j + l.length ≤ 65536 →
    |(l.foldl (fun acc it => addDouble acc it.GetDurationSecondsDouble) acc).toRat
        - (A + (l.map PlayItem.GetDurationSeconds).sum)|
      ≤ ((j + l.length : Nat) : ℚ) / 2 ^ 20 := by
  induction l with
  | nil =>
    intro acc A j h _ _ _
    simpa using h
  | cons it l ih =>
    intro acc A j hacc hA0 hA hlen
    simp only [List.length_cons] at hlen
    obtain ⟨hd, hd0, hd1⟩ := getDurationSecondsDouble_error it
    have hj : (j : ℚ) + 1 ≤ 65536 := by
      have : j + 1 ≤ 65536 := by omega
      exact_mod_cast this
    obtain ⟨a1, a2⟩ := abs_le.1 hacc
    obtain ⟨d1, d2⟩ := abs_le.1 hd
    have hlt : acc.toRat + it.GetDurationSecondsDouble.toRat < (2 : ℚ) ^ 33 := by
      norm_num at a2 d2 ⊢
      linarith
    have hadd := addDouble_error acc it.GetDurationSecondsDouble 33 hlt
    obtain ⟨s1, s2⟩ := abs_le.1 hadd
    have hstep : |(addDouble acc it.GetDurationSecondsDouble).toRat
        - (A + it.GetDurationSeconds)| ≤ ((j + 1 : Nat) : ℚ) / 2 ^ 20 := by
      rw [abs_le]
      push_cast
      norm_num at a1 a2 d1 d2 s1 s2 ⊢
      constructor <;> linarith
    have hrest := ih (addDouble acc it.GetDurationSecondsDouble) (A + it.GetDurationSeconds)
      (j + 1) hstep (by linarith) (by push_cast; linarith) (by omega)
    simp only [List.foldl_cons, List.map_cons, List.sum_cons, List.length_cons]
    have e : j + (l.length + 1) = j + 1 + l.length := by omega
    rw [e, ← add_assoc]
    exact hrest

/-- The binary64 duration of a title is within `n / 2^20` of the duration in
exact arithmetic, `n` being the number of retained play items. -/
theorem durationDouble_error (host : Host) (junk : MPLSJunk) (mplsPath streamDir : Path) :
    |(ParseMPLSFile.durationDouble host junk mplsPath).toRat
        - (ParseMPLSFile host junk mplsPath streamDir).duration|
      ≤ ((ParseMPLSFile.locals host junk mplsPath streamDir).playItems.length : ℚ) / 2 ^ 20 := by
  rw [durationDouble_eq host junk mplsPath streamDir, ParseMPLSFile_duration_eq]
  have hlen := playItems_length_lt host junk mplsPath streamDir
  have h := foldl_addDouble_error
    (ParseMPLSFile.locals host junk mplsPath streamDir).playItems { m := 0, e := 0 } 0 0
    (by simp [Dyadic.toRat]) (le_refl 0) (by simp) (by omega)
  simpa using h

/-- C5, as the code has it. The duration of the title `ParseMPLSFile` returns
is a binary64 value: the running sum, started at 0 and taken in the order of
the file, of the binary64 quotients `(outTime - inTime) / 45000.0` of the
retained play items, the division and every addition being rounded to nearest,
ties to even. Every retained item has a non-empty clip name, so items with an
empty clip name add nothing. The duration is within `n / 2^20` of the exact
sum of the quotients, `n` being the number of retained items. When every
retained item has `outTime ≥ inTime` and an interval that is a whole number of
seconds, no operation rounds and the duration is the exact sum of
`(outTime - inTime) / 45000`. -/
theorem C5_binary64_duration_sum (host : Host) (junk : MPLSJunk) (mplsPath streamDir : Path) :
    ParseMPLSFile.durationDouble host junk mplsPath
        = (ParseMPLSFile.locals host junk mplsPath streamDir).playItems.foldl
            (fun acc it => addDouble acc it.GetDurationSecondsDouble) { m := 0, e := 0 }
    ∧ (∀ it ∈ (ParseMPLSFile.locals host junk mplsPath streamDir).playItems,
        it.clipName ≠ "")
    ∧ |(ParseMPLSFile.durationDouble host junk mplsPath).toRat
          - ((ParseMPLSFile.locals host junk mplsPath streamDir).playItems.map
              PlayItem.GetDurationSeconds).sum|
        ≤ ((ParseMPLSFile.locals host junk mplsPath streamDir).playItems.length : ℚ) / 2 ^ 20
    ∧ ((∀ it ∈ (ParseMPLSFile.locals host junk mplsPath streamDir).playItems,
          it.outTime ≥ it.inTime ∧ 45000 ∣ it.outTime - it.inTime) →
        (ParseMPLSFile.durationDouble host junk mplsPath).toRat
          = ((ParseMPLSFile.locals host junk mplsPath streamDir).playItems.map
              (fun it => ((it.outTime - it.inTime : Nat) : ℚ) / 45000)).sum) := by
  refine ⟨durationDouble_eq host junk mplsPath streamDir, ?_, ?_, ?_⟩
  · obtain ⟨items, _, hp, _, _⟩ := locals_shape host junk mplsPath streamDir
    rw [hp]
    intro it hit
    exact (retained_iff it).1 (List.mem_filter.1 hit).2
  · rw [← ParseMPLSFile_duration_eq]
    exact durationDouble_error host junk mplsPath streamDir
  · intro h
    rw [durationDouble_eq host junk mplsPath streamDir]
    have hlen := playItems_length_lt host junk mplsPath streamDir
    obtain ⟨items, hlt, hp, _, _⟩ := locals_shape host junk mplsPath streamDir
    have hfold := foldl_addDouble_exact
      (ParseMPLSFile.locals host junk mplsPath streamDir).playItems { m := 0, e := 0 } 0
      (by simp [Dyadic.toRat])
      (by
        have : (ParseMPLSFile.locals host junk mplsPath streamDir).playItems.length * 2 ^ 32
            < 65536 * 2 ^ 32 := Nat.mul_lt_mul_of_pos_right hlen (by norm_num)
        omega)
      (by
        intro it hit
        have hmem : it ∈ items := by
          rw [hp] at hit
          exact (List.mem_filter.1 hit).1
        exact ⟨(hlt it hmem).1, (hlt it hmem).2, (h it hit).1, (h it hit).2⟩)
    rw [hfold]
    simp

theorem C5_binary64_duration_sum_witness :
    (∀ it ∈ (ParseMPLSFile.locals disc20 zeroJunk (discPlaylist "00001.mpls")
          discStream).playItems, it.outTime ≥ it.inTime ∧ 45000 ∣ it.outTime - it.inTime)
    ∧ (ParseMPLSFile.durationDouble disc20 zeroJunk (discPlaylist "00001.mpls")).toRat
        = ((ParseMPLSFile.locals disc20 zeroJunk (discPlaylist "00001.mpls")
              discStream).playItems.map
            (fun it => ((it.outTime - it.inTime : Nat) : ℚ) / 45000)).sum :=
  ⟨by decide,
    (C5_binary64_duration_sum disc20 zeroJunk (discPlaylist "00001.mpls") discStream).2.2.2
      (by decide)⟩

/-- C5 as stated fails. The playlist `threeItemPlaylist` has the three items
`(in 0, out 4841091)`, `(in 0, out 415950)` and `(in 0, out 142959)`, all
retained and all with `outTime ≥ inTime`. Their intervals add up to 5 400 000
ticks, so the exact sum of `(outTime - inTime) / 45000` is 120. The duration
`ParseMPLSFile` computes is the binary64 value `8444249301319681 * 2^-46`
(`0x1.e000000000001p+6`), which is `120 + 2^-46` and not 120. -/
theorem C5_counterexample :
    (ParseMPLSFile.locals disc120Rounded zeroJunk (discPlaylist "00001.mpls")
        discStream).playItems
      = [PlayItem.mk "00001" 0 4841091, PlayItem.mk "00002" 0 415950,
          PlayItem.mk "00003" 0 142959]
    ∧ (∀ it ∈ (ParseMPLSFile.locals disc120Rounded zeroJunk (discPlaylist "00001.mpls")
          discStream).playItems, it.outTime ≥ it.inTime)
    ∧ ((ParseMPLSFile.locals disc120Rounded zeroJunk (discPlaylist "00001.mpls")
          discStream).playItems.map
        (fun it => ((it.outTime - it.inTime : Nat) : ℚ) / 45000)).sum = 120
    ∧ ParseMPLSFile.durationDouble disc120Rounded zeroJunk (discPlaylist "00001.mpls")
        = { m := 8444249301319681, e := -46 }
    ∧ (ParseMPLSFile.durationDouble disc120Rounded zeroJunk
          (discPlaylist "00001.mpls")).toRat = 120 + 1 / 2 ^ 46
    ∧ (ParseMPLSFile.durationDouble disc120Rounded zeroJunk
          (discPlaylist "00001.mpls")).toRat
        ≠ ((ParseMPLSFile.locals disc120Rounded zeroJunk (discPlaylist "00001.mpls")
              discStream).playItems.map
            (fun it => ((it.outTime - it.inTime : Nat) : ℚ) / 45000)).sum := by
  have hitems : (ParseMPLSFile.locals disc120Rounded zeroJunk (discPlaylist "00001.mpls")
      discStream).playItems
      = [PlayItem.mk "00001" 0 4841091, PlayItem.mk "00002" 0 415950,
          PlayItem.mk "00003" 0 142959] := by decide
  have hd : ParseMPLSFile.durationDouble disc120Rounded zeroJunk (discPlaylist "00001.mpls")
      = { m := 8444249301319681, e := -46 } := by decide
  have hsum : ((ParseMPLSFile.locals disc120Rounded zeroJunk (discPlaylist "00001.mpls")
      discStream).playItems.map
      (fun it => ((it.outTime - it.inTime : Nat) : ℚ) / 45000)).sum = 120 := by
    rw [hitems]
    norm_num
  have hval : (ParseMPLSFile.durationDouble disc120Rounded zeroJunk
      (discPlaylist "00001.mpls")).toRat = 120 + 1 / 2 ^ 46 := by
    rw [hd]
    norm_num [Dyadic.toRat]
  refine ⟨hitems, by decide, hsum, hd, hval, ?_⟩
  rw [hval, hsum]
  norm_num

/-! ## Claims on durations -/

theorem assignIds_length (l : List BDMVTitle) : ∀ i, (assignIds i l).length = l.length := by
  induction l with
  | nil => intro i; rfl
  | cons t ts ih => intro i; simp [assignIds, ih]

theorem assignIds_duration (l : List BDMVTitle) :
    ∀ i, (assignIds i l).map (fun t => t.duration) = l.map (fun t => t.duration) := by
  induction l with
  | nil => intro i; rfl
  | cons t ts ih => intro i; simp [assignIds, ih]

theorem assignIds_filename (l : List BDMVTitle) :
    ∀ i, (assignIds i l).map (fun t => t.filename) = l.map (fun t => t.filename) := by
  induction l with
  | nil => intro i; rfl
  | cons t ts ih => intro i; simp [assignIds, ih]

theorem assignIds_id (l : List BDMVTitle) :
    ∀ (i k : Nat) (h : k < (assignIds i l).length),
      ((assignIds i l).get ⟨k, h⟩).id = ((i + k : Nat) : Int) := by
  induction l with
  | nil =>
    intro i k h
    simp [assignIds] at h
  | cons t ts ih =>
    intro i k h
    cases k with
    | zero => simp [assignIds]
    | succ k =>
      simp only [assignIds, List.get_cons_succ]
      rw [ih (i + 1) k]
      congr 1
      omega

theorem assignIds_ids (l : List BDMVTitle) :
    ∀ i, (assignIds i l).map (fun t => t.id)
      = (List.range' i l.length).map (fun k => (k : Int)) := by
  induction l with
  | nil => intro i; rfl
  | cons t ts ih => intro i; simp [assignIds, ih, List.range']

/-- The result of `ParseBDMVFolder` is empty or the numbered, sorted scan. -/
theorem ParseBDMVFolder_cases (host : Host)
    (sort : (BDMVTitle → BDMVTitle → Bool) → List BDMVTitle → List BDMVTitle)
    (junk : Path → MPLSJunk) (path : Path) :
    ParseBDMVFolder host sort junk path = []
    ∨ ∃ playlistDir streamDir,
        ParseBDMVFolder host sort junk path
          = assignIds 0 (sort longerFirst (scanPlaylists host junk playlistDir streamDir)) := by
  unfold ParseBDMVFolder
  simp only []
  generalize (if filename path ≠ "BDMV" then path ++ ["BDMV"] else path) = bdmvPath
  cases h1 : host.pathExists bdmvPath
  · exact Or.inl (by simp)
  · cases h2 : host.pathExists (bdmvPath ++ ["PLAYLIST"])
    · exact Or.inl (by simp [h2])
    · cases h3 : host.pathExists (bdmvPath ++ ["STREAM"])
      · exact Or.inl (by simp [h3])
      · exact Or.inr ⟨bdmvPath ++ ["PLAYLIST"], bdmvPath ++ ["STREAM"], by simp [h2, h3]⟩

theorem scanPlaylists_duration (host : Host) (junk : Path → MPLSJunk)
    (playlistDir streamDir : Path) (t : BDMVTitle)
    (h : t ∈ scanPlaylists host junk playlistDir streamDir) : t.duration > 120 := by
  rw [scanPlaylists_eq] at h
  simpa using (List.mem_filter.1 h).2

/-- Every title of the result has the duration of a title of the scan. -/
theorem durations_of_sorted_scan
    (sort : (BDMVTitle → BDMVTitle → Bool) → List BDMVTitle → List BDMVTitle)
    (hsort : StdSortContract sort longerFirst) (l : List BDMVTitle) (t : BDMVTitle)
    (h : t ∈ assignIds 0 (sort longerFirst l)) : ∃ u ∈ l, u.duration = t.duration := by
  have h1 : t.duration ∈ (assignIds 0 (sort longerFirst l)).map (fun t => t.duration) :=
    List.mem_map_of_mem _ h
  rw [assignIds_duration] at h1
  obtain ⟨u, hu, hd⟩ := List.mem_map.1 h1
  exact ⟨u, ((hsort l).1.mem_iff).1 hu, hd⟩

theorem sorted_descending
    (sort : (BDMVTitle → BDMVTitle → Bool) → List BDMVTitle → List BDMVTitle)
    (hsort : StdSortContract sort longerFirst) (l : List BDMVTitle) :
    ((assignIds 0 (sort longerFirst l)).map (fun t => t.duration)).Pairwise (fun a b => a ≥ b) := by
  rw [assignIds_duration, List.pairwise_map]
  apply (hsort l).2.imp
  intro a b hab
  simpa [longerFirst] using hab

/-! ## Insertion sort meets the contract -/

theorem insertByDuration_perm (t : BDMVTitle) (l : List BDMVTitle) :
    (insertByDuration t l).Perm (t :: l) := by
  induction l with
  | nil => exact List.Perm.refl _
  | cons u us ih =>
    unfold insertByDuration
    split
    · exact (List.Perm.cons u ih).trans (List.Perm.swap t u us)
    · exact List.Perm.refl _

theorem insertByDuration_sorted (t : BDMVTitle) (l : List BDMVTitle)
    (h : l.Pairwise (fun a b => a.duration ≥ b.duration)) :
    (insertByDuration t l).Pairwise (fun a b => a.duration ≥ b.duration) := by
  induction l with
  | nil => simp [insertByDuration]
  | cons u us ih =>
    obtain ⟨hu, hus⟩ := List.pairwise_cons.1 h
    unfold insertByDuration
    split
    · rename_i hut
      apply List.pairwise_cons.2
      refine ⟨?_, ih hus⟩
      intro x hx
      rcases List.mem_cons.1 ((insertByDuration_perm t us).mem_iff.1 hx) with hx | hx
      · rw [hx]; exact hut
      · exact hu x hx
    · rename_i hut
      have htu : t.duration ≥ u.duration := le_of_lt (not_le.1 hut)
      apply List.pairwise_cons.2
      refine ⟨?_, h⟩
      intro x hx
      rcases List.mem_cons.1 hx with hx | hx
      · rw [hx]; exact htu
      · exact le_trans (hu x hx) htu

theorem insertionSortTitles_contract : StdSortContract insertionSortTitles longerFirst := by
  intro l
  induction l with
  | nil => exact ⟨List.Perm.refl _, List.Pairwise.nil⟩
  | cons t ts ih =>
    constructor
    · exact (insertByDuration_perm t _).trans (List.Perm.cons t ih.1)
    · have hs : (insertionSortTitles longerFirst ts).Pairwise
          (fun a b => a.duration ≥ b.duration) := by
        apply ih.2.imp
        intro a b hab
        simpa [longerFirst] using hab
      apply (insertByDuration_sorted t _ hs).imp
      intro a b hab
      simpa [longerFirst] using hab

/-! ## Evaluating the parser on a file that is wholly readable -/

theorem ParseMPLSFile_of_items (host : Host) (junk : MPLSJunk) (mplsPath streamDir : Path)
    (data : List Byte) (items : List PlayItem) (hc : host.content mplsPath = some data)
    (hm : bytesAt data 0 4 = mplsMagic) (h12 : 12 ≤ data.length)
    (hS : playlistStartOf data + 8 ≤ data.length)
    (hitems : ∀ i, i < playItemCountOf data →
      itemOffset data (playlistStartOf data + 10) i + 24 ≤ data.length)
    (heq : (declaredItems data (playlistStartOf data + 10) (playItemCountOf data)).filter
      retained = items) :
    (ParseMPLSFile.locals host junk mplsPath streamDir).playItems = items
    ∧ (ParseMPLSFile host junk mplsPath streamDir).duration
        = (items.map PlayItem.GetDurationSeconds).sum := by
  obtain ⟨e1, e2, _⟩ := locals_of_present_header host junk mplsPath streamDir data hc hm h12 hS
  rw [(decodedItems_of_file junk.item data (playItemCountOf data) hitems).1, heq] at e1 e2
  exact ⟨e1, e2⟩

theorem disc20_result (junk : MPLSJunk) :
    (ParseMPLSFile.locals disc20 junk (discPlaylist "00001.mpls") discStream).playItems
        = [PlayItem.mk "00001" 0 450000, PlayItem.mk "00002" 450000 900000]
    ∧ (ParseMPLSFile disc20 junk (discPlaylist "00001.mpls") discStream).duration = 20 := by
  obtain ⟨h1, h2⟩ := ParseMPLSFile_of_items disc20 junk (discPlaylist "00001.mpls") discStream
    twoItemPlaylist [PlayItem.mk "00001" 0 450000, PlayItem.mk "00002" 450000 900000]
    (by decide) (by decide) (by decide) (by decide) (by decide) (by decide)
  refine ⟨h1, ?_⟩
  rw [h2]
  norm_num [PlayItem.GetDurationSeconds]

theorem disc120_result (junk : MPLSJunk) :
    (ParseMPLSFile.locals disc120 junk (discPlaylist "00001.mpls") discStream).playItems
        = [PlayItem.mk "00001" 0 5400000]
    ∧ (ParseMPLSFile disc120 junk (discPlaylist "00001.mpls") discStream).duration = 120 := by
  obtain ⟨h1, h2⟩ := ParseMPLSFile_of_items disc120 junk (discPlaylist "00001.mpls") discStream
    playlist120 [PlayItem.mk "00001" 0 5400000]
    (by decide) (by decide) (by decide) (by decide) (by decide) (by decide)
  refine ⟨h1, ?_⟩
  rw [h2]
  norm_num [PlayItem.GetDurationSeconds]

theorem disc3_durations (junk : Path → MPLSJunk) :
    (ParseMPLSFile disc3 (junk (discPlaylist "00001.mpls")) (discPlaylist "00001.mpls")
        discStream).duration = 5400
    ∧ (ParseMPLSFile disc3 (junk (discPlaylist "00002.mpls")) (discPlaylist "00002.mpls")
        discStream).duration = 90
    ∧ (ParseMPLSFile disc3 (junk (discPlaylist "00003.mpls")) (discPlaylist "00003.mpls")
        discStream).duration = 7200 := by
  obtain ⟨_, h1⟩ := ParseMPLSFile_of_items disc3 (junk (discPlaylist "00001.mpls"))
    (discPlaylist "00001.mpls") discStream playlist5400 [PlayItem.mk "00001" 0 243000000]
    (by decide) (by decide) (by decide) (by decide) (by decide) (by decide)
  obtain ⟨_, h2⟩ := ParseMPLSFile_of_items disc3 (junk (discPlaylist "00002.mpls"))
    (discPlaylist "00002.mpls") discStream playlist90 [PlayItem.mk "00001" 0 4050000]
    (by decide) (by decide) (by decide) (by decide) (by decide) (by decide)
  obtain ⟨_, h3⟩ := ParseMPLSFile_of_items disc3 (junk (discPlaylist "00003.mpls"))
    (discPlaylist "00003.mpls") discStream playlist7200 [PlayItem.mk "00001" 0 324000000]
    (by decide) (by decide) (by decide) (by decide) (by decide) (by decide)
  rw [h1, h2, h3]
  norm_num [PlayItem.GetDurationSeconds]

/-- On the example discs `ParseBDMVFolder` reaches its loop. -/
theorem ParseBDMVFolder_discHost (files : List (String × List Byte))
    (sort : (BDMVTitle → BDMVTitle → Bool) → List BDMVTitle → List BDMVTitle)
    (junk : Path → MPLSJunk) :
    ParseBDMVFolder (discHost files) sort junk ["disc"]
      = assignIds 0 (sort longerFirst
          (scanPlaylists (discHost files) junk ["disc", "BDMV", "PLAYLIST"] discStream)) := by
  rfl

theorem scan_disc20 (junk : Path → MPLSJunk) :
    scanPlaylists disc20 junk ["disc", "BDMV", "PLAYLIST"] discStream = [] := by
  have he : (disc20.entries ["disc", "BDMV", "PLAYLIST"]).filter
      (fun name => extension name = ".mpls") = ["00001.mpls"] := by decide
  have hp : ["disc", "BDMV", "PLAYLIST"] ++ ["00001.mpls"] = discPlaylist "00001.mpls" := rfl
  rw [scanPlaylists_eq, he]
  simp only [List.map, hp]
  rw [List.filter_cons_of_neg]
  · rfl
  · rw [(disc20_result _).2]
    norm_num

theorem scan_disc120 (junk : Path → MPLSJunk) :
    scanPlaylists disc120 junk ["disc", "BDMV", "PLAYLIST"] discStream = [] := by
  have he : (disc120.entries ["disc", "BDMV", "PLAYLIST"]).filter
      (fun name => extension name = ".mpls") = ["00001.mpls"] := by decide
  have hp : ["disc", "BDMV", "PLAYLIST"] ++ ["00001.mpls"] = discPlaylist "00001.mpls" := rfl
  rw [scanPlaylists_eq, he]
  simp only [List.map, hp]
  rw [List.filter_cons_of_neg]
  · rfl
  · rw [(disc120_result _).2]
    norm_num

theorem scan_disc3 (junk : Path → MPLSJunk) :
    (scanPlaylists disc3 junk ["disc", "BDMV", "PLAYLIST"] discStream).map
      (fun t => t.duration) = [5400, 7200] := by
  have he : (disc3.entries ["disc", "BDMV", "PLAYLIST"]).filter
      (fun name => extension name = ".mpls") = ["00001.mpls", "00002.mpls", "00003.mpls"] := by
    decide
  have hp1 : ["disc", "BDMV", "PLAYLIST"] ++ ["00001.mpls"] = discPlaylist "00001.mpls" := rfl
  have hp2 : ["disc", "BDMV", "PLAYLIST"] ++ ["00002.mpls"] = discPlaylist "00002.mpls" := rfl
  have hp3 : ["disc", "BDMV", "PLAYLIST"] ++ ["00003.mpls"] = discPlaylist "00003.mpls" := rfl
  obtain ⟨d1, d2, d3⟩ := disc3_durations junk
  rw [scanPlaylists_eq, he]
  simp only [List.map, hp1, hp2, hp3]
  rw [List.filter_cons_of_pos (by rw [d1]; norm_num),
    List.filter_cons_of_neg (by rw [d2]; norm_num),
    List.filter_cons_of_pos (by rw [d3]; norm_num)]
  simp only [List.filter, List.map, d1, d3]

/-! ## Claims on `ParseBDMVFolder` -/

/-- C7. In every scan, with `std::sort` any function that meets its contract,
no title of the result of `ParseBDMVFolder` has a duration below 120 seconds.
The playlist of scenario 1, with the play items `(in 0, out 450000)` and
`(in 450000, out 900000)`, has duration exactly 20 seconds and the scan of its
disc returns no title. -/
theorem C7_threshold_exclusion (host : Host)
    (sort : (BDMVTitle → BDMVTitle → Bool) → List BDMVTitle → List BDMVTitle)
    (junk : Path → MPLSJunk) (path : Path) (hsort : StdSortContract sort longerFirst) :
    (∀ t ∈ ParseBDMVFolder host sort junk path, ¬ t.duration < 120)
    ∧ (ParseMPLSFile.locals disc20 (junk (discPlaylist "00001.mpls"))
          (discPlaylist "00001.mpls") discStream).playItems
        = [PlayItem.mk "00001" 0 450000, PlayItem.mk "00002" 450000 900000]
    ∧ (ParseMPLSFile disc20 (junk (discPlaylist "00001.mpls"))
          (discPlaylist "00001.mpls") discStream).duration = 20
    ∧ ParseBDMVFolder disc20 sort junk ["disc"] = [] := by
  refine ⟨?_, (disc20_result _).1, (disc20_result _).2, ?_⟩
  · intro t ht
    rcases ParseBDMVFolder_cases host sort junk path with h | ⟨pd, sd, h⟩
    · rw [h] at ht
      simp at ht
    · rw [h] at ht
      obtain ⟨u, hu, hd⟩ := durations_of_sorted_scan sort hsort _ t ht
      have := scanPlaylists_duration host junk pd sd u hu
      rw [← hd]
      exact not_lt.2 (le_of_lt this)
  · unfold disc20
    rw [ParseBDMVFolder_discHost]
    have hs := scan_disc20 junk
    unfold disc20 at hs
    rw [hs, ((hsort []).1).eq_nil]
    rfl

theorem C7_threshold_exclusion_witness :
    StdSortContract insertionSortTitles longerFirst
    ∧ (∀ t ∈ ParseBDMVFolder disc3 insertionSortTitles (fun _ => zeroJunk) ["disc"],
        ¬ t.duration < 120)
    ∧ (ParseMPLSFile.locals disc20 zeroJunk (discPlaylist "00001.mpls") discStream).playItems
        = [PlayItem.mk "00001" 0 450000, PlayItem.mk "00002" 450000 900000]
    ∧ (ParseMPLSFile disc20 zeroJunk (discPlaylist "00001.mpls") discStream).duration = 20
    ∧ ParseBDMVFolder disc20 insertionSortTitles (fun _ => zeroJunk) ["disc"] = [] :=
  ⟨insertionSortTitles_contract,
    C7_threshold_exclusion disc3 insertionSortTitles (fun _ => zeroJunk) ["disc"]
      insertionSortTitles_contract⟩

/-- C8 at the boundary. The playlist of `disc120` has the single play item
`("00001", in 0, out 5400000)`, so its duration is exactly 120 seconds, which
is not below the minimum; the scan of the disc returns no title. -/
theorem C8_exactly_120_seconds_is_excluded :
    (ParseMPLSFile.locals disc120 zeroJunk (discPlaylist "00001.mpls") discStream).playItems
        = [PlayItem.mk "00001" 0 5400000]
    ∧ (ParseMPLSFile disc120 zeroJunk (discPlaylist "00001.mpls") discStream).duration = 120
    ∧ ¬ (ParseMPLSFile disc120 zeroJunk (discPlaylist "00001.mpls") discStream).duration < 120
    ∧ ParseBDMVFolder disc120 insertionSortTitles (fun _ => zeroJunk) ["disc"] = [] := by
  refine ⟨(disc120_result _).1, (disc120_result _).2, ?_, ?_⟩
  · rw [(disc120_result _).2]
    norm_num
  · unfold disc120
    rw [ParseBDMVFolder_discHost]
    have hs := scan_disc120 (fun _ => zeroJunk)
    unfold disc120 at hs
    rw [hs]
    rfl

/-- C9. In every scan, with `std::sort` any function that meets its contract,
the result of `ParseBDMVFolder` is in descending order of duration (each title
is at least as long as every title behind it) and the title at index `i` has
id `i`. On the disc of scenario 2, with playlists of 5400 s, 90 s and 7200 s,
the result is the title of 7200 s with id 0, then the one of 5400 s with
id 1. -/
theorem C9_ordering_and_ids (host : Host)
    (sort : (BDMVTitle → BDMVTitle → Bool) → List BDMVTitle → List BDMVTitle)
    (junk : Path → MPLSJunk) (path : Path) (hsort : StdSortContract sort longerFirst) :
    (ParseBDMVFolder host sort junk path).Pairwise (fun a b => a.duration ≥ b.duration)
    ∧ (∀ (i : Nat) (h : i < (ParseBDMVFolder host sort junk path).length),
        ((ParseBDMVFolder host sort junk path).get ⟨i, h⟩).id = (i : Int))
    ∧ (ParseBDMVFolder disc3 sort junk ["disc"]).map (fun t => (t.duration, t.id))
        = [(7200, 0), (5400, 1)] := by
  refine ⟨?_, ?_, ?_⟩
  · rcases ParseBDMVFolder_cases host sort junk path with h | ⟨pd, sd, h⟩
    · rw [h]
      exact List.Pairwise.nil
    · rw [h]
      exact List.pairwise_map.1 (sorted_descending sort hsort _)
  · intro i hi
    rcases ParseBDMVFolder_cases host sort junk path with h | ⟨pd, sd, h⟩
    · exfalso
      rw [h] at hi
      simp at hi
    · have key : ∀ (l : List BDMVTitle) (hl : ParseBDMVFolder host sort junk path = l)
          (h' : i < l.length), ((ParseBDMVFolder host sort junk path).get ⟨i, hi⟩).id
            = (l.get ⟨i, h'⟩).id := by
        intro l hl h'
        subst hl
        rfl
      rw [key _ h (by rw [← h]; exact hi), assignIds_id]
      simp
  · unfold disc3
    rw [ParseBDMVFolder_discHost]
    have hs := scan_disc3 junk
    unfold disc3 at hs
    have hperm := ((hsort (scanPlaylists
      (discHost [("00001.mpls", playlist5400), ("00002.mpls", playlist90),
        ("00003.mpls", playlist7200)]) junk ["disc", "BDMV", "PLAYLIST"] discStream)).1).map
      (fun t => t.duration)
    rw [hs] at hperm
    have hsorted := sorted_descending sort hsort (scanPlaylists
      (discHost [("00001.mpls", playlist5400), ("00002.mpls", playlist90),
        ("00003.mpls", playlist7200)]) junk ["disc", "BDMV", "PLAYLIST"] discStream)
    rw [assignIds_duration] at hsorted
    have htarget : ([7200, 5400] : List ℚ).Pairwise (fun a b => a ≥ b) := by
      simp only [List.pairwise_cons, List.mem_cons, List.mem_nil_iff, or_false, forall_eq,
        List.not_mem_nil, false_implies, implies_true, List.Pairwise.nil, and_true]
      norm_num
    have hd := List.eq_of_perm_of_sorted
      (hperm.trans (List.Perm.swap (7200 : ℚ) 5400 [])) hsorted htarget
    have hlen := congrArg List.length hd
    simp only [List.length_map, List.length_cons, List.length_nil] at hlen
    have hids := assignIds_ids (sort longerFirst (scanPlaylists
      (discHost [("00001.mpls", playlist5400), ("00002.mpls", playlist90),
        ("00003.mpls", playlist7200)]) junk ["disc", "BDMV", "PLAYLIST"] discStream)) 0
    rw [hlen] at hids
    rw [← List.zip_map', assignIds_duration, hd, hids]
    rfl

theorem C9_ordering_and_ids_witness :
    StdSortContract insertionSortTitles longerFirst
    ∧ (ParseBDMVFolder disc3 insertionSortTitles (fun _ => zeroJunk) ["disc"]).Pairwise
        (fun a b => a.duration ≥ b.duration)
    ∧ (∀ (i : Nat)
        (h : i < (ParseBDMVFolder disc3 insertionSortTitles (fun _ => zeroJunk) ["disc"]).length),
        ((ParseBDMVFolder disc3 insertionSortTitles (fun _ => zeroJunk) ["disc"]).get ⟨i, h⟩).id
          = (i : Int))
    ∧ (ParseBDMVFolder disc3 insertionSortTitles (fun _ => zeroJunk) ["disc"]).map
        (fun t => (t.duration, t.id)) = [(7200, 0), (5400, 1)] :=
  ⟨insertionSortTitles_contract,
    C9_ordering_and_ids disc3 insertionSortTitles (fun _ => zeroJunk) ["disc"]
      insertionSortTitles_contract⟩

/-- C10. For a playlist file with the magic in place and the header in the
file, in which the items `0 .. k` (`k < N`) are wholly readable and the
declared length of item `k` puts `start + L` past the end of the file:
`ParseMPLSFile` returns a title, the retained play items are the ones with a
non-empty clip name among the items `0 .. k`, the duration and the size of the
title are the sums over these items, and the `N - k - 1` remaining declared
items add no play item, duration or size. -/
theorem C10_length_past_end_of_file (host : Host) (junk : MPLSJunk)
    (mplsPath streamDir : Path) (data : List Byte) (k : Nat)
    (hc : host.content mplsPath = some data) (hm : bytesAt data 0 4 = mplsMagic)
    (h12 : 12 ≤ data.length) (hS : playlistStartOf data + 8 ≤ data.length)
    (hk : k < playItemCountOf data)
    (hread : ∀ i, i < k + 1 →
      itemOffset data (playlistStartOf data + 10) i + 24 ≤ data.length)
    (hpast : data.length < itemOffset data (playlistStartOf data + 10) (k + 1)) :
    (ParseMPLSFile.locals host junk mplsPath streamDir).playItems
        = (declaredItems data (playlistStartOf data + 10) (k + 1)).filter
            (fun it => it.clipName ≠ "")
    ∧ (ParseMPLSFile host junk mplsPath streamDir).duration
        = (((declaredItems data (playlistStartOf data + 10) (k + 1)).filter
            (fun it => it.clipName ≠ "")).map PlayItem.GetDurationSeconds).sum
    ∧ (ParseMPLSFile host junk mplsPath streamDir).size
        = ((declaredItems data (playlistStartOf data + 10) (k + 1)).filter
            (fun it => it.clipName ≠ "")).foldl (addClipSize host streamDir) 0 := by
  obtain ⟨e1, e2, e3⟩ := locals_of_present_header host junk mplsPath streamDir data hc hm h12 hS
  obtain ⟨d1, d2⟩ := decodedItems_of_file junk.item data (k + 1) hread
  have hN : playItemCountOf data = (k + 1) + (playItemCountOf data - (k + 1)) := by omega
  have hrest : (decodedItems junk.item (0 + (k + 1)) (playItemCountOf data - (k + 1))
      (streamAfter junk.item 0 (k + 1) (loopStart data).file)).filter retained = [] := by
    apply decodedItems_of_short
    rw [d2]
    simp only
    omega
  have hall : (decodedItems junk.item 0 (playItemCountOf data) (loopStart data).file).filter
      retained = (declaredItems data (playlistStartOf data + 10) (k + 1)).filter
        (fun it => it.clipName ≠ "") := by
    rw [hN, decodedItems_add, List.filter_append, hrest, d1, List.append_nil]
    rfl
  rw [hall] at e1 e2 e3
  exact ⟨e1, e2, e3⟩

theorem C10_length_past_end_of_file_witness :
    (discHost [("00001.mpls", overlongPlaylist)]).content (discPlaylist "00001.mpls")
        = some overlongPlaylist
    ∧ (0 : Nat) < playItemCountOf overlongPlaylist
    ∧ overlongPlaylist.length < itemOffset overlongPlaylist
        (playlistStartOf overlongPlaylist + 10) (0 + 1)
    ∧ (ParseMPLSFile.locals (discHost [("00001.mpls", overlongPlaylist)]) zeroJunk
          (discPlaylist "00001.mpls") discStream).playItems
        = (declaredItems overlongPlaylist (playlistStartOf overlongPlaylist + 10) (0 + 1)).filter
            (fun it => it.clipName ≠ "")
    ∧ (ParseMPLSFile (discHost [("00001.mpls", overlongPlaylist)]) zeroJunk
          (discPlaylist "00001.mpls") discStream).duration
        = (((declaredItems overlongPlaylist (playlistStartOf overlongPlaylist + 10)
              (0 + 1)).filter (fun it => it.clipName ≠ "")).map
            PlayItem.GetDurationSeconds).sum
    ∧ (ParseMPLSFile (discHost [("00001.mpls", overlongPlaylist)]) zeroJunk
          (discPlaylist "00001.mpls") discStream).size
        = ((declaredItems overlongPlaylist (playlistStartOf overlongPlaylist + 10)
              (0 + 1)).filter (fun it => it.clipName ≠ "")).foldl
            (addClipSize (discHost [("00001.mpls", overlongPlaylist)]) discStream) 0 :=
  ⟨by decide, by decide, by decide,
    C10_length_past_end_of_file (discHost [("00001.mpls", overlongPlaylist)]) zeroJunk
      (discPlaylist "00001.mpls") discStream overlongPlaylist 0 (by decide) (by decide)
      (by decide) (by decide) (by decide) (by decide) (by decide)⟩

/-! ## Claims on failed reads -/

theorem cString_append_zeros (l : List Byte) (k : Nat) :
    cString (l ++ List.replicate k 0) = cString l := by
  unfold cString
  congr 2
  induction l with
  | nil =>
    cases k with
    | zero => rfl
    | succ k => simp [List.replicate, List.takeWhile]
  | cons b bs ih =>
    rw [List.cons_append, List.takeWhile_cons, List.takeWhile_cons, ih]

/-- Once the length field has been read from a good stream, the clip name is
the C string of the identifier bytes that are in the file, be they five or
fewer. -/
theorem ParsePlayItem_clipName (junk : PlayItemJunk) (data : List Byte) (p : Nat)
    (h2 : p + 2 ≤ data.length) :
    (ParsePlayItem junk { data := data, pos := p, eofbit := false, failbit := false }).1.clipName
      = cString (bytesAt data (p + 2) 5) := by
  simp only [ParsePlayItem]
  rw [IfStream.read_mk data p 2 _ h2]
  simp only [IfStream.tellg, IfStream.good, Bool.not_false, Bool.and_self, ↓reduceIte]
  by_cases h7 : p + 2 + 5 ≤ data.length
  · rw [IfStream.read_mk data (p + 2) 5 _ h7, cString_append_nul]
  · have hl : ((data.drop (p + 2)).take 5).length ≠ 5 := by
      rw [List.length_take, List.length_drop]
      omega
    simp only [IfStream.read, IfStream.good, Bool.not_false, Bool.and_self, ↓reduceIte, hl,
      List.drop_replicate]
    rw [cString_append_nul, cString_append_zeros]
    rfl

/-- C11, as the code has it. The only test the loop makes on a decoded item
is whether its clip name is empty. When a read fails or is short (the stream
is good on entry and the file ends before `start + 22`, or the stream has
already failed), the stream is left failed; the clip name is the C string of
the identifier bytes that were read, and it is empty when the stream had
already failed or no identifier byte was read. An item with an empty clip
name is discarded: play items, duration and size stay as they were. An item
with a non-empty clip name is retained: it is appended to the play items and
its duration and clip size are added. -/
theorem C11_failed_read_and_clip_name (host : Host) (streamDir : Path) (junk : PlayItemJunk)
    (st : LoopState) (data : List Byte) (p : Nat)
    (hst : st.file = { data := data, pos := p, eofbit := false, failbit := false })
    (hshort : data.length < p + 24) :
    (loopBody host streamDir junk st).file.failbit = true
    ∧ (ParsePlayItem junk st.file).1.clipName
        = (if p + 2 ≤ data.length then cString (bytesAt data (p + 2) 5) else "")
    ∧ ((ParsePlayItem junk st.file).1.clipName = "" →
        (loopBody host streamDir junk st).playItems = st.playItems
        ∧ (loopBody host streamDir junk st).duration = st.duration
        ∧ (loopBody host streamDir junk st).size = st.size)
    ∧ ((ParsePlayItem junk st.file).1.clipName ≠ "" →
        (loopBody host streamDir junk st).playItems
            = st.playItems ++ [(ParsePlayItem junk st.file).1]
        ∧ (loopBody host streamDir junk st).duration
            = st.duration + (ParsePlayItem junk st.file).1.GetDurationSeconds
        ∧ (loopBody host streamDir junk st).size
            = addClipSize host streamDir st.size (ParsePlayItem junk st.file).1)
    ∧ ∀ (st' : LoopState), st'.file.good = false →
        (loopBody host streamDir junk st').file.failbit = true
        ∧ (loopBody host streamDir junk st').playItems = st'.playItems
        ∧ (loopBody host streamDir junk st').duration = st'.duration
        ∧ (loopBody host streamDir junk st').size = st'.size := by
  refine ⟨?_, ?_, ?_, ?_, ?_⟩
  · rw [loopBody_file, hst]
    by_cases h2 : p + 2 ≤ data.length
    · exact ParsePlayItem_of_truncated junk data p h2 hshort
    · exact (ParsePlayItem_of_short_length junk _ (by simp only; omega)).2
  · rw [hst]
    by_cases h2 : p + 2 ≤ data.length
    · rw [if_pos h2]
      exact ParsePlayItem_clipName junk data p h2
    · rw [if_neg h2]
      exact (ParsePlayItem_of_short_length junk _ (by simp only; omega)).1
  · intro hname
    exact loopBody_of_discarded host streamDir junk st (by simp [retained, hname])
  · intro hname
    exact loopBody_of_retained host streamDir junk st (by simp [retained, hname])
  · intro st' hbad
    obtain ⟨h1, h2⟩ := ParsePlayItem_of_not_good junk st'.file hbad
    refine ⟨?_, loopBody_of_discarded host streamDir junk st' (by simp [retained, h1])⟩
    rw [loopBody_file]
    exact h2

theorem C11_failed_read_and_clip_name_witness :
    (LoopState.mk (loopStart truncatedIdPlaylist).file [] 0 0).file
        = { data := truncatedIdPlaylist, pos := 22, eofbit := false, failbit := false }
    ∧ truncatedIdPlaylist.length < 22 + 24
    ∧ (loopBody discTruncatedId discStream zeroItemJunk
          (LoopState.mk (loopStart truncatedIdPlaylist).file [] 0 0)).file.failbit = true
    ∧ (ParsePlayItem zeroItemJunk
          (LoopState.mk (loopStart truncatedIdPlaylist).file [] 0 0).file).1.clipName
        = (if 22 + 2 ≤ truncatedIdPlaylist.length then
            cString (bytesAt truncatedIdPlaylist (22 + 2) 5) else "")
    ∧ (ParsePlayItem zeroItemJunk
          (LoopState.mk (loopStart truncatedIdPlaylist).file [] 0 0).file).1.clipName ≠ ""
    ∧ (loopBody discTruncatedId discStream zeroItemJunk
          (LoopState.mk (loopStart truncatedIdPlaylist).file [] 0 0)).playItems
        = (LoopState.mk (loopStart truncatedIdPlaylist).file [] 0 0).playItems
          ++ [(ParsePlayItem zeroItemJunk
                (LoopState.mk (loopStart truncatedIdPlaylist).file [] 0 0).file).1]
    ∧ (loopBody discTruncatedId discStream zeroItemJunk
          (LoopState.mk (loopStart truncatedIdPlaylist).file [] 0 0)).duration
        = (LoopState.mk (loopStart truncatedIdPlaylist).file [] 0 0).duration
          + (ParsePlayItem zeroItemJunk
              (LoopState.mk (loopStart truncatedIdPlaylist).file [] 0 0).file).1.GetDurationSeconds
    ∧ (loopBody discTruncatedId discStream zeroItemJunk
          (LoopState.mk (loopStart truncatedIdPlaylist).file [] 0 0)).size
        = addClipSize discTruncatedId discStream
            (LoopState.mk (loopStart truncatedIdPlaylist).file [] 0 0).size
            (ParsePlayItem zeroItemJunk
              (LoopState.mk (loopStart truncatedIdPlaylist).file [] 0 0).file).1 :=
  ⟨by decide, by decide,
    (C11_failed_read_and_clip_name discTruncatedId discStream zeroItemJunk
      (LoopState.mk (loopStart truncatedIdPlaylist).file [] 0 0) truncatedIdPlaylist 22
      (by decide) (by decide)).1,
    (C11_failed_read_and_clip_name discTruncatedId discStream zeroItemJunk
      (LoopState.mk (loopStart truncatedIdPlaylist).file [] 0 0) truncatedIdPlaylist 22
      (by decide) (by decide)).2.1,
    by decide,
    (C11_failed_read_and_clip_name discTruncatedId discStream zeroItemJunk
      (LoopState.mk (loopStart truncatedIdPlaylist).file [] 0 0) truncatedIdPlaylist 22
      (by decide) (by decide)).2.2.2.1 (by decide)⟩

/-- C11 as stated fails. In `truncatedTimesPlaylist` the file ends inside the
OUT time of its one item, at `start + 20`; in `truncatedIdPlaylist` it ends
inside the clip identifier, after two bytes. In both the read is short and the
item is not discarded: it is in the play item list (under the name `00001`,
resp. `00`) and the size of its clip file (1000, resp. 7 bytes) is in the
size of the title; in the first the title also gets the duration
`393216 / 45000` that comes of the two bytes of OUT time that were read. -/
theorem C11_counterexample :
    truncatedTimesPlaylist.length = 22 + 2 + 20
    ∧ (ParseMPLSFile.locals discTruncatedTimes zeroJunk (discPlaylist "00001.mpls")
          discStream).playItems = [PlayItem.mk "00001" 0 393216]
    ∧ (ParseMPLSFile discTruncatedTimes zeroJunk (discPlaylist "00001.mpls") discStream).size
        = 1000
    ∧ (ParseMPLSFile discTruncatedTimes zeroJunk (discPlaylist "00001.mpls")
          discStream).duration = 393216 / 45000
    ∧ truncatedIdPlaylist.length = 22 + 2 + 2
    ∧ (ParseMPLSFile.locals discTruncatedId zeroJunk (discPlaylist "00001.mpls")
          discStream).playItems = [PlayItem.mk "00" 0 0]
    ∧ (ParseMPLSFile discTruncatedId zeroJunk (discPlaylist "00001.mpls") discStream).size
        = 7 := by
  have hitems : (ParseMPLSFile.locals discTruncatedTimes zeroJunk (discPlaylist "00001.mpls")
      discStream).playItems = [PlayItem.mk "00001" 0 393216] := by decide
  refine ⟨by decide, hitems, by decide, ?_, by decide, by decide, by decide⟩
  rw [ParseMPLSFile_duration_eq, hitems]
  norm_num [PlayItem.GetDurationSeconds]

/-! ## Claims on sizes -/

theorem addClipSize_eq (host : Host) (streamDir : Path) (size : Nat) (item : PlayItem)
    (h : size < 2 ^ host.sizeBits) :
    addClipSize host streamDir size item
      = (size + clipSize host streamDir item) % 2 ^ host.sizeBits := by
  unfold addClipSize clipSize
  split
  · rfl
  · rw [Nat.add_zero, Nat.mod_eq_of_lt h]

/-- The accumulated size is the sum of the clip sizes, reduced modulo
`2 ^ sizeBits`. -/
theorem foldl_addClipSize (host : Host) (streamDir : Path) (items : List PlayItem) :
    ∀ size, size < 2 ^ host.sizeBits →
      items.foldl (addClipSize host streamDir) size
        = (size + (items.map (clipSize host streamDir)).sum) % 2 ^ host.sizeBits := by
  induction items with
  | nil =>
    intro size h
    simp [Nat.mod_eq_of_lt h]
  | cons it rest ih =>
    intro size h
    have hpos : 0 < 2 ^ host.sizeBits := Nat.pow_pos (by decide)
    rw [List.foldl_cons, addClipSize_eq host streamDir size it h,
      ih _ (Nat.mod_lt _ hpos), List.map_cons, List.sum_cons, Nat.mod_add_mod, Nat.add_assoc]

/-- C12, as the code has it. For every playlist and every stream folder, the
size of the title is the sum, over the retained play items in order and with
repeated clips counted each time, of the size of `<clipName>.m2ts` when that
file exists and 0 when it does not, reduced modulo `2 ^ w`, `w` being the
width of `size_t`; so it is that sum whenever the sum is below `2 ^ w`. The
duration of the title is the sum of the durations of all retained items,
whether their clip file exists or not. -/
theorem C12_size_sum (host : Host) (junk : MPLSJunk) (mplsPath streamDir : Path) :
    (ParseMPLSFile host junk mplsPath streamDir).size
        = ((ParseMPLSFile.locals host junk mplsPath streamDir).playItems.map
            (clipSize host streamDir)).sum % 2 ^ host.sizeBits
    ∧ (((ParseMPLSFile.locals host junk mplsPath streamDir).playItems.map
            (clipSize host streamDir)).sum < 2 ^ host.sizeBits →
        (ParseMPLSFile host junk mplsPath streamDir).size
          = ((ParseMPLSFile.locals host junk mplsPath streamDir).playItems.map
              (clipSize host streamDir)).sum)
    ∧ (ParseMPLSFile host junk mplsPath streamDir).duration
        = ((ParseMPLSFile.locals host junk mplsPath streamDir).playItems.map
            PlayItem.GetDurationSeconds).sum := by
  obtain ⟨items, _, hp, hd, hs⟩ := locals_shape host junk mplsPath streamDir
  have hsize : (ParseMPLSFile host junk mplsPath streamDir).size
      = ((ParseMPLSFile.locals host junk mplsPath streamDir).playItems.map
          (clipSize host streamDir)).sum % 2 ^ host.sizeBits := by
    rw [hs, hp, foldl_addClipSize host streamDir _ 0 (Nat.pow_pos (by decide)), Nat.zero_add]
  refine ⟨hsize, ?_, ?_⟩
  · intro hlt
    rw [hsize, Nat.mod_eq_of_lt hlt]
  · rw [hd, hp]

theorem C12_size_sum_witness :
    ((ParseMPLSFile.locals discOneClip zeroJunk (discPlaylist "00001.mpls")
        discStream).playItems.map (clipSize discOneClip discStream)).sum
      < 2 ^ discOneClip.sizeBits
    ∧ (ParseMPLSFile discOneClip zeroJunk (discPlaylist "00001.mpls") discStream).size
        = ((ParseMPLSFile.locals discOneClip zeroJunk (discPlaylist "00001.mpls")
            discStream).playItems.map (clipSize discOneClip discStream)).sum
    ∧ ((ParseMPLSFile.locals discOneClip zeroJunk (discPlaylist "00001.mpls")
        discStream).playItems.map (clipSize discOneClip discStream)) = [1000, 0] :=
  ⟨by decide,
    (C12_size_sum discOneClip zeroJunk (discPlaylist "00001.mpls") discStream).2.1 (by decide),
    by decide⟩

/-- C12 as stated fails where the sum does not fit `size_t`. With a 32-bit
`size_t`, the title of a playlist whose one clip has 5 000 000 000 bytes gets
the size 705 032 704. With a 64-bit `size_t`, the title of a playlist whose
two clips have `2^63` bytes each gets the size 0. -/
theorem C12_counterexample :
    (ParseMPLSFile.locals discBigClip32 zeroJunk (discPlaylist "00001.mpls")
        discStream).playItems.map (clipSize discBigClip32 discStream) = [5000000000]
    ∧ (ParseMPLSFile discBigClip32 zeroJunk (discPlaylist "00001.mpls") discStream).size
        = 705032704
    ∧ (ParseMPLSFile.locals discHugeClips64 zeroJunk (discPlaylist "00001.mpls")
        discStream).playItems.map (clipSize discHugeClips64 discStream)
        = [9223372036854775808, 9223372036854775808]
    ∧ (ParseMPLSFile discHugeClips64 zeroJunk (discPlaylist "00001.mpls") discStream).size
        = 0 := by
  decide

/-! ## Sets of languages -/

theorem mem_setInsert (x a : String) (l : List String) :
    a ∈ setInsert x l ↔ a = x ∨ a ∈ l := by
  induction l with
  | nil => simp [setInsert]
  | cons y ys ih =>
    unfold setInsert
    split
    · simp
    · split
      · rename_i h
        subst h
        simp
      · simp [ih]
        tauto

theorem setInsert_sorted (x : String) (l : List String)
    (h : l.Pairwise (fun a b => a < b)) : (setInsert x l).Pairwise (fun a b => a < b) := by
  induction l with
  | nil => simp [setInsert]
  | cons y ys ih =>
    obtain ⟨hy, hys⟩ := List.pairwise_cons.1 h
    unfold setInsert
    split
    · rename_i hxy
      apply List.pairwise_cons.2
      refine ⟨?_, h⟩
      intro a ha
      rcases List.mem_cons.1 ha with ha | ha
      · rw [ha]
        exact hxy
      · exact lt_trans hxy (hy a ha)
    · split
      · exact h
      · rename_i h1 h2
        apply List.pairwise_cons.2
        refine ⟨?_, ih hys⟩
        intro a ha
        rcases (mem_setInsert x a ys).1 ha with ha | ha
        · rw [ha]
          exact lt_of_le_of_ne (not_lt.1 h1) (Ne.symm h2)
        · exact hy a ha

theorem nodup_of_sorted (l : List String) (h : l.Pairwise (fun a b => a < b)) : l.Nodup :=
  h.imp (fun hab => ne_of_lt hab)

theorem fallbackAudio_eq :
    setInsert "French" (setInsert "Spanish" (setInsert "English" []))
      = ["English", "French", "Spanish"] := by
  simp [setInsert, String.lt_iff_toList_lt]
  decide

theorem fallbackSubtitle_eq :
    setInsert "Spanish" (setInsert "English" []) = ["English", "Spanish"] := by
  simp [setInsert, String.lt_iff_toList_lt]
  decide

theorem AnalyzeStreamLanguages_of_output (host : Host) (m2tsPath : Path) (streamType : String)
    (result : String) (hp : host.ffprobe m2tsPath = some result) :
    AnalyzeStreamLanguages host m2tsPath streamType
      = (languageCaptures 0 result.data).foldl insertMapped [] := by
  unfold AnalyzeStreamLanguages
  simp only [hp]
  rfl

theorem AnalyzeStreamLanguages_of_no_pipe (host : Host) (m2tsPath : Path)
    (streamType : String) (hp : host.ffprobe m2tsPath = none) :
    AnalyzeStreamLanguages host m2tsPath streamType = [] := by
  unfold AnalyzeStreamLanguages
  simp only [hp]

theorem mem_foldl_insertMapped (caps : List (List Char)) :
    ∀ (acc : List String) (name : String),
      name ∈ caps.foldl insertMapped acc
        ↔ name ∈ acc ∨ ∃ cap ∈ caps, languageMap.lookup (String.mk cap) = some name := by
  induction caps with
  | nil => intro acc name; simp
  | cons cap rest ih =>
    intro acc name
    rw [List.foldl_cons, ih]
    unfold insertMapped
    cases hl : languageMap.lookup (String.mk cap) with
    | none => simp [hl]
    | some found =>
      simp only [mem_setInsert, List.mem_cons, exists_eq_or_imp, hl, Option.some.injEq]
      constructor
      · rintro ((h | h) | h)
        · exact Or.inr (Or.inl h.symm)
        · exact Or.inl h
        · exact Or.inr (Or.inr h)
      · rintro (h | h | h)
        · exact Or.inl (Or.inr h)
        · exact Or.inl (Or.inl h.symm)
        · exact Or.inr h

theorem sorted_foldl_insertMapped (caps : List (List Char)) :
    ∀ (acc : List String), acc.Pairwise (fun a b => a < b) →
      (caps.foldl insertMapped acc).Pairwise (fun a b => a < b) := by
  induction caps with
  | nil => intro acc h; exact h
  | cons cap rest ih =>
    intro acc h
    rw [List.foldl_cons]
    apply ih
    unfold insertMapped
    cases languageMap.lookup (String.mk cap) with
    | none => exact h
    | some found => exact setInsert_sorted found acc h

/-- The result of `AnalyzeStreamLanguages` is a set: in ascending order,
without repetition. -/
theorem AnalyzeStreamLanguages_sorted (host : Host) (m2tsPath : Path) (streamType : String) :
    (AnalyzeStreamLanguages host m2tsPath streamType).Pairwise (fun a b => a < b) := by
  cases hp : host.ffprobe m2tsPath with
  | none =>
    rw [AnalyzeStreamLanguages_of_no_pipe host m2tsPath streamType hp]
    exact List.Pairwise.nil
  | some result =>
    rw [AnalyzeStreamLanguages_of_output host m2tsPath streamType result hp]
    exact sorted_foldl_insertMapped _ [] List.Pairwise.nil

/-- The result is empty exactly when no captured code is a key of the table. -/
theorem AnalyzeStreamLanguages_eq_nil_iff (host : Host) (m2tsPath : Path)
    (streamType : String) (result : String) (hp : host.ffprobe m2tsPath = some result) :
    AnalyzeStreamLanguages host m2tsPath streamType = []
      ↔ ∀ cap ∈ languageCaptures 0 result.data, languageMap.lookup (String.mk cap) = none := by
  rw [AnalyzeStreamLanguages_of_output host m2tsPath streamType result hp]
  constructor
  · intro h cap hcap
    cases hl : languageMap.lookup (String.mk cap) with
    | none => rfl
    | some name =>
      have : name ∈ (languageCaptures 0 result.data).foldl insertMapped [] :=
        (mem_foldl_insertMapped _ [] name).2 (Or.inr ⟨cap, hcap, hl⟩)
      rw [h] at this
      simp at this
  · intro h
    apply List.eq_nil_iff_forall_not_mem.2
    intro name hname
    rcases (mem_foldl_insertMapped _ [] name).1 hname with h1 | ⟨cap, hcap, hl⟩
    · simp at h1
    · rw [h cap hcap] at hl
      simp at hl

/-! ## Claims on languages -/

theorem readHeader_of_magic (junk : MPLSJunk) (data : List Byte)
    (hm : bytesAt data 0 4 = mplsMagic) : ∃ fn, readHeader junk data = some fn := by
  have h4 : 0 + 4 ≤ data.length := by
    have hl : (bytesAt data 0 4).length = 4 := by rw [hm]; rfl
    unfold bytesAt at hl
    rw [List.length_take, List.length_drop] at hl
    omega
  unfold readHeader
  simp only [IfStream.opened]
  rw [IfStream.read_mk data 0 4 _ h4]
  simp only [hm, ne_eq, not_true_eq_false, if_false]
  exact ⟨_, rfl⟩

/-- After the magic check the languages of the title are those of
`GetAudioLanguages` and `GetSubtitleLanguages` on the retained play items. -/
theorem languages_of_magic (host : Host) (junk : MPLSJunk) (mplsPath streamDir : Path)
    (data : List Byte) (hc : host.content mplsPath = some data)
    (hm : bytesAt data 0 4 = mplsMagic) :
    (ParseMPLSFile host junk mplsPath streamDir).audioLanguages
        = GetAudioLanguages host streamDir
            (ParseMPLSFile.locals host junk mplsPath streamDir).playItems
    ∧ (ParseMPLSFile host junk mplsPath streamDir).subtitleLanguages
        = GetSubtitleLanguages host streamDir
            (ParseMPLSFile.locals host junk mplsPath streamDir).playItems := by
  obtain ⟨fn, hh⟩ := readHeader_of_magic junk data hm
  unfold ParseMPLSFile ParseMPLSFile.locals
  simp only [hc, hh, and_self]

theorem GetAudioLanguages_nil (host : Host) (streamDir : Path) :
    GetAudioLanguages host streamDir [] = ["English", "French", "Spanish"] := by
  simp [GetAudioLanguages, firstClipLanguages, fallbackAudio_eq]

theorem GetSubtitleLanguages_nil (host : Host) (streamDir : Path) :
    GetSubtitleLanguages host streamDir [] = ["English", "Spanish"] := by
  simp [GetSubtitleLanguages, firstClipLanguages, fallbackSubtitle_eq]

theorem GetAudioLanguages_cons (host : Host) (streamDir : Path) (first : PlayItem)
    (rest : List PlayItem) :
    GetAudioLanguages host streamDir (first :: rest)
      = if host.pathExists (clipPath streamDir first) = true
          ∧ AnalyzeStreamLanguages host (clipPath streamDir first) "audio" ≠ [] then
          AnalyzeStreamLanguages host (clipPath streamDir first) "audio"
        else ["English", "French", "Spanish"] := by
  unfold GetAudioLanguages firstClipLanguages clipPath
  rw [fallbackAudio_eq]
  by_cases he : host.pathExists (streamDir ++ [first.clipName ++ ".m2ts"]) = true
  · by_cases ha : AnalyzeStreamLanguages host (streamDir ++ [first.clipName ++ ".m2ts"])
        "audio" = []
    · simp [he, ha]
    · simp [he, ha]
  · simp [he]

theorem GetSubtitleLanguages_cons (host : Host) (streamDir : Path) (first : PlayItem)
    (rest : List PlayItem) :
    GetSubtitleLanguages host streamDir (first :: rest)
      = if host.pathExists (clipPath streamDir first) = true
          ∧ AnalyzeStreamLanguages host (clipPath streamDir first) "subtitle" ≠ [] then
          AnalyzeStreamLanguages host (clipPath streamDir first) "subtitle"
        else ["English", "Spanish"] := by
  unfold GetSubtitleLanguages firstClipLanguages clipPath
  rw [fallbackSubtitle_eq]
  by_cases he : host.pathExists (streamDir ++ [first.clipName ++ ".m2ts"]) = true
  · by_cases ha : AnalyzeStreamLanguages host (streamDir ++ [first.clipName ++ ".m2ts"])
        "subtitle" = []
    · simp [he, ha]
    · simp [he, ha]
  · simp [he]

/-- C13. For every title whose playlist passes the magic check: when no play
item is retained, or the clip file of the first retained item does not exist,
or the pipe to `ffprobe` cannot be opened, or no language code of its output
is a key of the table, the audio languages of the title are exactly
`English`, `French`, `Spanish` and its subtitle languages exactly `English`,
`Spanish` (the two sets, in the order of `std::set`). In the remaining case
(the clip file exists and some code of the output is a key of the table) the
languages are the non-empty result of `AnalyzeStreamLanguages`, unchanged. -/
theorem C13_language_fallback (host : Host) (junk : MPLSJunk) (mplsPath streamDir : Path)
    (data : List Byte) (hc : host.content mplsPath = some data)
    (hm : bytesAt data 0 4 = mplsMagic) :
    ((ParseMPLSFile.locals host junk mplsPath streamDir).playItems = [] →
      (ParseMPLSFile host junk mplsPath streamDir).audioLanguages
          = ["English", "French", "Spanish"]
      ∧ (ParseMPLSFile host junk mplsPath streamDir).subtitleLanguages
          = ["English", "Spanish"])
    ∧ ∀ (first : PlayItem) (rest : List PlayItem),
        (ParseMPLSFile.locals host junk mplsPath streamDir).playItems = first :: rest →
        (host.pathExists (clipPath streamDir first) = false →
          (ParseMPLSFile host junk mplsPath streamDir).audioLanguages
              = ["English", "French", "Spanish"]
          ∧ (ParseMPLSFile host junk mplsPath streamDir).subtitleLanguages
              = ["English", "Spanish"])
        ∧ (host.ffprobe (clipPath streamDir first) = none →
          (ParseMPLSFile host junk mplsPath streamDir).audioLanguages
              = ["English", "French", "Spanish"]
          ∧ (ParseMPLSFile host junk mplsPath streamDir).subtitleLanguages
              = ["English", "Spanish"])
        ∧ (∀ result, host.ffprobe (clipPath streamDir first) = some result →
            (∀ cap ∈ languageCaptures 0 result.data,
              languageMap.lookup (String.mk cap) = none) →
          (ParseMPLSFile host junk mplsPath streamDir).audioLanguages
              = ["English", "French", "Spanish"]
          ∧ (ParseMPLSFile host junk mplsPath streamDir).subtitleLanguages
              = ["English", "Spanish"])
        ∧ (∀ result, host.pathExists (clipPath streamDir first) = true →
            host.ffprobe (clipPath streamDir first) = some result →
            (∃ cap ∈ languageCaptures 0 result.data,
              languageMap.lookup (String.mk cap) ≠ none) →
          (ParseMPLSFile host junk mplsPath streamDir).audioLanguages
              = AnalyzeStreamLanguages host (clipPath streamDir first) "audio"
          ∧ (ParseMPLSFile host junk mplsPath streamDir).subtitleLanguages
              = AnalyzeStreamLanguages host (clipPath streamDir first) "subtitle"
          ∧ (ParseMPLSFile host junk mplsPath streamDir).audioLanguages ≠ []
          ∧ (ParseMPLSFile host junk mplsPath streamDir).subtitleLanguages ≠ []) := by
  obtain ⟨ha, hs⟩ := languages_of_magic host junk mplsPath streamDir data hc hm
  rw [ha, hs]
  refine ⟨?_, ?_⟩
  · intro hnil
    rw [hnil]
    exact ⟨GetAudioLanguages_nil host streamDir, GetSubtitleLanguages_nil host streamDir⟩
  · intro first rest hcons
    rw [hcons, GetAudioLanguages_cons, GetSubtitleLanguages_cons]
    refine ⟨?_, ?_, ?_, ?_⟩
    · intro he
      simp [he]
    · intro hp
      simp [AnalyzeStreamLanguages_of_no_pipe host _ _ hp]
    · intro result hp hnone
      have e1 := (AnalyzeStreamLanguages_eq_nil_iff host (clipPath streamDir first) "audio"
        result hp).2 hnone
      have e2 := (AnalyzeStreamLanguages_eq_nil_iff host (clipPath streamDir first) "subtitle"
        result hp).2 hnone
      simp [e1, e2]
    · intro result he hp hsome
      have n1 : AnalyzeStreamLanguages host (clipPath streamDir first) "audio" ≠ [] := by
        intro h
        obtain ⟨cap, hcap, hl⟩ := hsome
        exact hl ((AnalyzeStreamLanguages_eq_nil_iff host _ "audio" result hp).1 h cap hcap)
      have n2 : AnalyzeStreamLanguages host (clipPath streamDir first) "subtitle" ≠ [] := by
        intro h
        obtain ⟨cap, hcap, hl⟩ := hsome
        exact hl ((AnalyzeStreamLanguages_eq_nil_iff host _ "subtitle" result hp).1 h cap hcap)
      simp [he, n1, n2]

theorem C13_language_fallback_witness :
    discOneClip.content (discPlaylist "00001.mpls") = some twoItemPlaylist
    ∧ bytesAt twoItemPlaylist 0 4 = mplsMagic
    ∧ (ParseMPLSFile.locals discOneClip zeroJunk (discPlaylist "00001.mpls")
          discStream).playItems
        = PlayItem.mk "00001" 0 450000 :: [PlayItem.mk "00002" 450000 900000]
    ∧ discOneClip.ffprobe (clipPath discStream (PlayItem.mk "00001" 0 450000)) = none
    ∧ (ParseMPLSFile discOneClip zeroJunk (discPlaylist "00001.mpls")
          discStream).audioLanguages = ["English", "French", "Spanish"]
    ∧ (ParseMPLSFile discOneClip zeroJunk (discPlaylist "00001.mpls")
          discStream).subtitleLanguages = ["English", "Spanish"] :=
  ⟨by decide, by decide, by decide, by decide,
    ((C13_language_fallback discOneClip zeroJunk (discPlaylist "00001.mpls") discStream
      twoItemPlaylist (by decide) (by decide)).2 (PlayItem.mk "00001" 0 450000)
      [PlayItem.mk "00002" 450000 900000] (by decide)).2.1 (by decide)⟩

theorem analyze_discProbed (streamType : String) :
    AnalyzeStreamLanguages discProbed (clipPath discStream (PlayItem.mk "00001" 0 450000))
      streamType = ["English", "French"] := by
  have hcaps : languageCaptures 0 probeAudioEngSubtitleFre.data = ["eng".data, "fre".data] := by
    decide
  have h1 : languageMap.lookup (String.mk "eng".data) = some "English" := by decide
  have h2 : languageMap.lookup (String.mk "fre".data) = some "French" := by decide
  rw [AnalyzeStreamLanguages_of_output discProbed _ streamType probeAudioEngSubtitleFre rfl,
    hcaps]
  simp only [List.foldl, insertMapped, h1, h2]
  simp [setInsert, String.lt_iff_toList_lt]
  decide

/-- C14 on a probe output with an audio stream tagged `eng` and a subtitle
stream tagged `fre`. The result of `AnalyzeStreamLanguages` does not depend on
the requested stream type; asked for `audio`, it holds `French`, which is the
language of the subtitle stream only, and the title gets `French` among its
audio languages. -/
theorem C14_stream_type_is_not_consulted :
    (∀ (host : Host) (m2tsPath : Path) (t1 t2 : String),
        AnalyzeStreamLanguages host m2tsPath t1 = AnalyzeStreamLanguages host m2tsPath t2)
    ∧ (languageCaptures 0 probeAudioEngSubtitleFre.data).map String.mk = ["eng", "fre"]
    ∧ AnalyzeStreamLanguages discProbed (clipPath discStream (PlayItem.mk "00001" 0 450000))
        "audio" = ["English", "French"]
    ∧ AnalyzeStreamLanguages discProbed (clipPath discStream (PlayItem.mk "00001" 0 450000))
        "subtitle" = ["English", "French"]
    ∧ (ParseMPLSFile discProbed zeroJunk (discPlaylist "00001.mpls") discStream).audioLanguages
        = ["English", "French"] := by
  refine ⟨fun _ _ _ _ => rfl, by decide, analyze_discProbed "audio",
    analyze_discProbed "subtitle", ?_⟩
  have hitems : (ParseMPLSFile.locals discProbed zeroJunk (discPlaylist "00001.mpls")
      discStream).playItems
      = PlayItem.mk "00001" 0 450000 :: [PlayItem.mk "00002" 450000 900000] := by decide
  rw [(languages_of_magic discProbed zeroJunk (discPlaylist "00001.mpls") discStream
    twoItemPlaylist (by decide) (by decide)).1, hitems, GetAudioLanguages_cons,
    analyze_discProbed "audio"]
  have he : discProbed.pathExists (clipPath discStream (PlayItem.mk "00001" 0 450000))
      = true := by decide
  simp [he]

theorem mem_of_lookup (l : List (String × String)) (a b : String)
    (h : l.lookup a = some b) : (a, b) ∈ l := by
  induction l with
  | nil => simp [List.lookup] at h
  | cons x xs ih =>
    obtain ⟨k, v⟩ := x
    by_cases hk : a = k
    · subst hk
      simp [List.lookup] at h
      simp [h]
    · have hb : (a == k) = false := by simpa using hk
      simp only [List.lookup, hb] at h
      exact List.mem_cons_of_mem _ (ih h)

/-- C15. For every probe output, the result of `AnalyzeStreamLanguages` holds
a name exactly when some captured language code is a key of the table with
that display name; so a code that is not a key adds nothing, and `Unknown` is
in the result only when the code `und` was captured. The result has no
repetition, and neither has a language list of a title. -/
theorem C15_code_mapping_and_dedup (host : Host) (m2tsPath : Path) (streamType : String)
    (result : String) (hp : host.ffprobe m2tsPath = some result) :
    (∀ name, name ∈ AnalyzeStreamLanguages host m2tsPath streamType
        ↔ ∃ cap ∈ languageCaptures 0 result.data,
            languageMap.lookup (String.mk cap) = some name)
    ∧ ("Unknown" ∈ AnalyzeStreamLanguages host m2tsPath streamType
        → "und".data ∈ languageCaptures 0 result.data)
    ∧ (AnalyzeStreamLanguages host m2tsPath streamType).Nodup
    ∧ (∀ (streamDir : Path) (playItems : List PlayItem),
        (GetAudioLanguages host streamDir playItems).Nodup
        ∧ (GetSubtitleLanguages host streamDir playItems).Nodup) := by
  have hmem : ∀ name, name ∈ AnalyzeStreamLanguages host m2tsPath streamType
      ↔ ∃ cap ∈ languageCaptures 0 result.data,
          languageMap.lookup (String.mk cap) = some name := by
    intro name
    rw [AnalyzeStreamLanguages_of_output host m2tsPath streamType result hp,
      mem_foldl_insertMapped]
    simp
  refine ⟨hmem, ?_, nodup_of_sorted _ (AnalyzeStreamLanguages_sorted host m2tsPath streamType),
    ?_⟩
  · intro hu
    obtain ⟨cap, hcap, hl⟩ := (hmem "Unknown").1 hu
    have hin := mem_of_lookup languageMap _ _ hl
    have hcode : String.mk cap = "und" := by
      simp [languageMap] at hin
      exact hin
    have : cap = "und".data := by
      rw [← hcode]
    rw [← this]
    exact hcap
  · intro streamDir playItems
    cases playItems with
    | nil =>
      rw [GetAudioLanguages_nil, GetSubtitleLanguages_nil]
      exact ⟨by decide, by decide⟩
    | cons first rest =>
      rw [GetAudioLanguages_cons, GetSubtitleLanguages_cons]
      constructor
      · split
        · exact nodup_of_sorted _ (AnalyzeStreamLanguages_sorted host _ _)
        · decide
      · split
        · exact nodup_of_sorted _ (AnalyzeStreamLanguages_sorted host _ _)
        · decide

set_option maxRecDepth 8000 in
theorem C15_code_mapping_and_dedup_witness :
    discRepeatedCodes.ffprobe (clipPath discStream (PlayItem.mk "00001" 0 450000))
        = some probeRepeatedCodes
    ∧ (languageCaptures 0 probeRepeatedCodes.data).map String.mk
        = ["eng", "xyz", "eng", "und"]
    ∧ (∀ name, name ∈ AnalyzeStreamLanguages discRepeatedCodes
          (clipPath discStream (PlayItem.mk "00001" 0 450000)) "audio"
        ↔ ∃ cap ∈ languageCaptures 0 probeRepeatedCodes.data,
            languageMap.lookup (String.mk cap) = some name)
    ∧ ("Unknown" ∈ AnalyzeStreamLanguages discRepeatedCodes
          (clipPath discStream (PlayItem.mk "00001" 0 450000)) "audio"
        → "und".data ∈ languageCaptures 0 probeRepeatedCodes.data)
    ∧ (AnalyzeStreamLanguages discRepeatedCodes
          (clipPath discStream (PlayItem.mk "00001" 0 450000)) "audio").Nodup
    ∧ (∀ (streamDir : Path) (playItems : List PlayItem),
        (GetAudioLanguages discRepeatedCodes streamDir playItems).Nodup
        ∧ (GetSubtitleLanguages discRepeatedCodes streamDir playItems).Nodup) :=
  ⟨rfl, by decide,
    C15_code_mapping_and_dedup discRepeatedCodes
      (clipPath discStream (PlayItem.mk "00001" 0 450000)) "audio" probeRepeatedCodes rfl⟩

/-- C16. The table of `bdmv_parser.cpp` (code to name) and the table of
`ffmpeg_wrapper.cpp` (name to code) have 23 entries each and are inverse to
each other: the second is the first with every pair reversed; for every code
`c` of the first table `LanguageNameToCode (GetLanguageName c) = c`; for every
name `n` of the second `GetLanguageName (LanguageNameToCode n) = n`; and no
two codes share a display name. -/
theorem C16_language_tables_are_inverse :
    languageMap.length = 23
    ∧ languageNameToCode.length = 23
    ∧ languageNameToCode = languageMap.map (fun cn => (cn.2, cn.1))
    ∧ (∀ c ∈ languageMap.map Prod.fst, LanguageNameToCode (GetLanguageName c) = c)
    ∧ (∀ n ∈ languageNameToCode.map Prod.fst, GetLanguageName (LanguageNameToCode n) = n)
    ∧ (languageMap.map Prod.fst).Nodup
    ∧ (languageMap.map Prod.snd).Nodup := by
  decide

theorem C16_language_tables_are_inverse_witness :
    "fre" ∈ languageMap.map Prod.fst
    ∧ LanguageNameToCode (GetLanguageName "fre") = "fre"
    ∧ "French" ∈ languageNameToCode.map Prod.fst
    ∧ GetLanguageName (LanguageNameToCode "French") = "French" :=
  ⟨by decide, C16_language_tables_are_inverse.2.2.2.1 "fre" (by decide), by decide,
    C16_language_tables_are_inverse.2.2.2.2.1 "French" (by decide)⟩

/-! ## Claims on the enumeration of the folder -/

theorem playItemLoop_entries (host : Host) (entries : Path → List String) (streamDir : Path)
    (junk : Nat → PlayItemJunk) (n : Nat) : ∀ (i : Nat) (st : LoopState),
    playItemLoop { host with entries := entries } streamDir junk i n st
      = playItemLoop host streamDir junk i n st := by
  induction n with
  | zero => intro i st; rfl
  | succ n ih =>
    intro i st
    simp only [playItemLoop]
    rw [ih]
    rfl

/-- `ParseMPLSFile` does not look at directory listings. -/
theorem ParseMPLSFile_entries (host : Host) (entries : Path → List String) (junk : MPLSJunk)
    (mplsPath streamDir : Path) :
    ParseMPLSFile { host with entries := entries } junk mplsPath streamDir
      = ParseMPLSFile host junk mplsPath streamDir := by
  unfold ParseMPLSFile ParseMPLSFile.locals
  simp only [playItemLoop_entries]
  rfl

/-- `ParseBDMVFolder` in one formula. -/
theorem ParseBDMVFolder_eq (host : Host)
    (sort : (BDMVTitle → BDMVTitle → Bool) → List BDMVTitle → List BDMVTitle)
    (junk : Path → MPLSJunk) (path : Path) :
    ParseBDMVFolder host sort junk path
      = if host.pathExists (bdmvDir path) = true
          ∧ host.pathExists (bdmvDir path ++ ["PLAYLIST"]) = true
          ∧ host.pathExists (bdmvDir path ++ ["STREAM"]) = true then
          assignIds 0 (sort longerFirst
            (scanPlaylists host junk (bdmvDir path ++ ["PLAYLIST"])
              (bdmvDir path ++ ["STREAM"])))
        else [] := by
  have hb : (if filename path ≠ "BDMV" then path ++ ["BDMV"] else path) = bdmvDir path := by
    unfold bdmvDir
    by_cases h : filename path = "BDMV"
    · simp [h]
    · simp [h]
  unfold ParseBDMVFolder
  simp only [hb]
  cases h1 : host.pathExists (bdmvDir path)
  · simp
  · cases h2 : host.pathExists (bdmvDir path ++ ["PLAYLIST"])
    · simp
    · cases h3 : host.pathExists (bdmvDir path ++ ["STREAM"])
      · simp
      · simp

theorem scanPlaylists_perm (host : Host) (entries : Path → List String)
    (junk : Path → MPLSJunk) (playlistDir streamDir : Path)
    (hperm : (entries playlistDir).Perm (host.entries playlistDir)) :
    (scanPlaylists { host with entries := entries } junk playlistDir streamDir).Perm
      (scanPlaylists host junk playlistDir streamDir) := by
  rw [scanPlaylists_eq, scanPlaylists_eq]
  simp only [ParseMPLSFile_entries]
  exact ((hperm.filter _).map _).filter _

theorem assignIds_eraseId (l : List BDMVTitle) :
    ∀ i, (assignIds i l).map eraseId = l.map eraseId := by
  induction l with
  | nil => intro i; rfl
  | cons t ts ih => intro i; simp [assignIds, ih, eraseId]

/-- Two lists of titles in descending order of duration that are rearrangements
of each other have the same durations in the same order, and are equal when
no two durations are equal. -/
theorem sorted_perm_titles (l1 l2 : List BDMVTitle) (hp : l1.Perm l2)
    (h1 : l1.Pairwise (fun a b => a.duration ≥ b.duration))
    (h2 : l2.Pairwise (fun a b => a.duration ≥ b.duration)) :
    l1.map (fun t => t.duration) = l2.map (fun t => t.duration)
    ∧ ((l1.map (fun t => t.duration)).Nodup → l1 = l2) := by
  have hd : l1.map (fun t => t.duration) = l2.map (fun t => t.duration) :=
    List.eq_of_perm_of_sorted (r := fun a b : ℚ => a ≥ b) (hp.map _)
      (List.pairwise_map.2 h1) (List.pairwise_map.2 h2)
  refine ⟨hd, ?_⟩
  intro hn
  have hn2 : (l2.map (fun t => t.duration)).Nodup := by rw [← hd]; exact hn
  have strict : ∀ l : List BDMVTitle, l.Pairwise (fun a b => a.duration ≥ b.duration) →
      (l.map (fun t => t.duration)).Nodup →
      l.Pairwise (fun a b => a.duration > b.duration) := by
    intro l hs hnd
    have hne : l.Pairwise (fun a b => a.duration ≠ b.duration) := List.pairwise_map.1 hnd
    exact (hs.and hne).imp (fun h => lt_of_le_of_ne h.1 (Ne.symm h.2))
  haveI : IsAntisymm BDMVTitle (fun a b => a.duration > b.duration) :=
    ⟨fun a b hab hba => absurd hab (not_lt.2 (le_of_lt hba))⟩
  exact List.eq_of_perm_of_sorted hp (strict l1 h1 hn) (strict l2 h2 hn2)

theorem tie_title (names : List String) (name : String)
    (hname : name = "a.mpls" ∨ name = "b.mpls") :
    (ParseMPLSFile (discTie names) zeroJunk (discPlaylist name) discStream).duration = 7200
    ∧ (ParseMPLSFile (discTie names) zeroJunk (discPlaylist name) discStream).filename = name := by
  refine ⟨?_, ?_⟩
  · have hc : (discTie names).content (discPlaylist name) = some playlist7200 := by
      rcases hname with h | h <;> subst h <;> rfl
    obtain ⟨_, h⟩ := ParseMPLSFile_of_items (discTie names) zeroJunk (discPlaylist name)
      discStream playlist7200 [PlayItem.mk "00001" 0 324000000] hc
      (by decide) (by decide) (by decide) (by decide) (by decide)
    rw [h]
    norm_num [PlayItem.GetDurationSeconds]
  · rw [ParseMPLSFile_filename]
    rfl

theorem tie_folder (n1 n2 : String) (h1 : n1 = "a.mpls" ∨ n1 = "b.mpls")
    (h2 : n2 = "a.mpls" ∨ n2 = "b.mpls") :
    (ParseBDMVFolder (discTie [n1, n2]) insertionSortTitles (fun _ => zeroJunk) ["disc"]).map
      (fun t => (t.filename, t.duration, t.id)) = [(n2, 7200, 0), (n1, 7200, 1)] := by
  have e1 : extension n1 = ".mpls" := by rcases h1 with h | h <;> subst h <;> decide
  have e2 : extension n2 = ".mpls" := by rcases h2 with h | h <;> subst h <;> decide
  obtain ⟨d1, f1⟩ := tie_title [n1, n2] n1 h1
  obtain ⟨d2, f2⟩ := tie_title [n1, n2] n2 h2
  have hp1 : ["disc", "BDMV", "PLAYLIST"] ++ [n1] = discPlaylist n1 := rfl
  have hp2 : ["disc", "BDMV", "PLAYLIST"] ++ [n2] = discPlaylist n2 := rfl
  have hfold : ParseBDMVFolder (discTie [n1, n2]) insertionSortTitles (fun _ => zeroJunk) ["disc"]
      = assignIds 0 (insertionSortTitles longerFirst
          (scanPlaylists (discTie [n1, n2]) (fun _ => zeroJunk) ["disc", "BDMV", "PLAYLIST"]
            discStream)) := rfl
  have hent : (discTie [n1, n2]).entries ["disc", "BDMV", "PLAYLIST"] = [n1, n2] := rfl
  rw [hfold, scanPlaylists_eq, hent]
  simp only [List.filter, e1, e2, decide_True, List.map, hp1, hp2, d1, d2]
  norm_num [insertionSortTitles, insertByDuration, assignIds, d1, d2, f1, f2]

theorem sorted_scan (sort : (BDMVTitle → BDMVTitle → Bool) → List BDMVTitle → List BDMVTitle)
    (hsort : StdSortContract sort longerFirst) (l : List BDMVTitle) :
    (sort longerFirst l).Pairwise (fun a b => a.duration ≥ b.duration) := by
  apply (hsort l).2.imp
  intro a b hab
  simpa [longerFirst] using hab

/-- An item that the end of the file cuts and whose clip identifier reads
empty is discarded, and so is every item after it, whatever the uninitialised
locals hold. -/
theorem decodedItems_of_cut (junk : Nat → PlayItemJunk) (data : List Byte) (n i q : Nat)
    (h24 : data.length < q + 24) (hname : (itemAt data q).clipName = "") :
    (decodedItems junk i n { data := data, pos := q, eofbit := false, failbit := false }).filter
      retained = [] := by
  by_cases h2 : q + 2 ≤ data.length
  · cases n with
    | zero => simp [decodedItems]
    | succ n =>
      have h1 := ParsePlayItem_clipName (junk i) data q h2
      have hf := ParsePlayItem_of_truncated (junk i) data q h2 h24
      have he : (ParsePlayItem (junk i)
          { data := data, pos := q, eofbit := false, failbit := false }).1.clipName = "" := by
        rw [h1]
        exact hname
      simp only [decodedItems]
      rw [List.filter_cons_of_neg (by simp [retained, he])]
      exact decodedItems_of_failed junk n (i + 1) _ hf
  · exact decodedItems_of_short junk n i _ (by simp only; omega)

/-- When no retained item is cut by the end of the file, the retained items do
not depend on the uninitialised locals. -/
theorem decodedItems_of_uncut (j1 j2 : Nat → PlayItemJunk) (data : List Byte) (n : Nat) :
    ∀ (i1 i2 q : Nat), uncutItems data q n = true →
    (decodedItems j1 i1 n { data := data, pos := q, eofbit := false, failbit := false }).filter
        retained
      = (decodedItems j2 i2 n
          { data := data, pos := q, eofbit := false, failbit := false }).filter retained := by
  induction n with
  | zero =>
    intro i1 i2 q _
    simp [decodedItems]
  | succ n ih =>
    intro i1 i2 q h
    unfold uncutItems at h
    by_cases h24 : q + 24 ≤ data.length
    · rw [if_pos h24] at h
      have s1 := ParsePlayItem_of_good (j1 i1)
        { data := data, pos := q, eofbit := false, failbit := false } (by rfl) h24
      have s2 := ParsePlayItem_of_good (j2 i2)
        { data := data, pos := q, eofbit := false, failbit := false } (by rfl) h24
      have hrest := ih (i1 + 1) (i2 + 1) (nextItem data q) h
      simp only [decodedItems]
      rw [s1, s2]
      simp only [nextItem] at hrest
      simp only [List.filter_cons]
      rw [hrest]
    · rw [if_neg h24] at h
      have hname : (itemAt data q).clipName = "" := by simpa using h
      rw [decodedItems_of_cut j1 data (n + 1) i1 q (by omega) hname,
        decodedItems_of_cut j2 data (n + 1) i2 q (by omega) hname]

/-- With the magic in place and a header field that is not wholly in the file,
the stream the loop starts from has failed. -/
theorem readHeader_failed_of_short_header (junk : MPLSJunk) (data : List Byte)
    (hm : bytesAt data 0 4 = mplsMagic)
    (hshort : ¬ (12 ≤ data.length ∧ playlistStartOf data + 8 ≤ data.length))
    (file : IfStream) (n : Nat) (hh : readHeader junk data = some (file, n)) :
    file.failbit = true := by
  have h4 : 0 + 4 ≤ data.length := by
    have hl : (bytesAt data 0 4).length = 4 := by rw [hm]; rfl
    unfold bytesAt at hl
    rw [List.length_take, List.length_drop] at hl
    omega
  unfold readHeader at hh
  simp only [IfStream.opened] at hh
  rw [IfStream.read_mk data 0 4 _ h4] at hh
  simp only [hm, ne_eq, not_true_eq_false, if_false, Option.some.injEq, Prod.mk.injEq] at hh
  have s8 : IfStream.seekg { data := data, pos := 0 + 4, eofbit := false, failbit := false }
      (8 : Int) = { data := data, pos := 8, eofbit := false, failbit := false } :=
    IfStream.seekg_mk data (0 + 4) 8
  rw [s8] at hh
  rw [← hh.1]
  apply IfStream.seekgCur_keeps_failbit
  by_cases h12 : 12 ≤ data.length
  · have hS : data.length < fromBE (bytesAt data 8 4) + 8 := by
      have : ¬ (playlistStartOf data + 8 ≤ data.length) := fun h => hshort ⟨h12, h⟩
      unfold playlistStartOf at this
      omega
    rw [IfStream.read_mk data 8 4 _ (by omega)]
    simp only []
    rw [byteswap_ulong_fromLE _ (bytesAt_length data 8 4 (by omega))]
    rw [IfStream.seekg_mk data (8 + 4) (fromBE (bytesAt data 8 4))]
    by_cases hS4 : fromBE (bytesAt data 8 4) + 4 ≤ data.length
    · rw [IfStream.read_mk data (fromBE (bytesAt data 8 4)) 4 _ hS4]
      simp only []
      rw [IfStream.seekgCur_mk data (fromBE (bytesAt data 8 4) + 4) 2]
      exact IfStream.read_short _ 2 _ (by omega) (by simp only; omega)
    · apply IfStream.read_keeps_failbit
      apply IfStream.seekgCur_keeps_failbit
      exact IfStream.read_short _ 4 _ (by omega) (by simp only; omega)
  · apply IfStream.read_keeps_failbit
    apply IfStream.seekgCur_keeps_failbit
    apply IfStream.read_keeps_failbit
    apply IfStream.seekg_keeps_failbit
    exact IfStream.read_short _ 4 _ (by omega) (by simp only; omega)

/-- When the loop starts from a failed stream, the title has no play item,
duration 0 and size 0. -/
theorem locals_of_failed_header (host : Host) (junk : MPLSJunk) (mplsPath streamDir : Path)
    (data : List Byte) (file : IfStream) (n : Nat) (hc : host.content mplsPath = some data)
    (hh : readHeader junk data = some (file, n)) (hf : file.failbit = true) :
    (ParseMPLSFile.locals host junk mplsPath streamDir).playItems = []
    ∧ (ParseMPLSFile host junk mplsPath streamDir).duration = 0
    ∧ (ParseMPLSFile host junk mplsPath streamDir).size = 0 := by
  have hl := locals_of_loop host junk mplsPath streamDir data file n hc hh
  obtain ⟨l1, l2, l3, _⟩ := playItemLoop_spec host streamDir junk.item n 0
    { file := file, playItems := [], duration := 0, size := 0 }
  have hnone := decodedItems_of_failed junk.item n 0 file hf
  simp only [hnone] at l1 l2 l3
  rw [hl.1, hl.2.1, hl.2.2, l1, l2, l3]
  simp

/-- Two titles that agree in every field but the id. -/
theorem eraseId_eq (a b : BDMVTitle) (h1 : a.filename = b.filename)
    (h2 : a.duration = b.duration) (h3 : a.size = b.size)
    (h4 : a.audioLanguages = b.audioLanguages)
    (h5 : a.subtitleLanguages = b.subtitleLanguages) : eraseId a = eraseId b := by
  cases a
  cases b
  simp only at h1 h2 h3 h4 h5
  simp [eraseId, h1, h2, h3, h4, h5]

/-- For a playlist file in which no retained item is cut by the end of the
file, the duration of the title does not depend on the uninitialised locals,
and a title longer than 120 s depends on them in its id only. -/
theorem ParseMPLSFile_of_uncut (host : Host) (j1 j2 : MPLSJunk) (mplsPath streamDir : Path)
    (h : uncutFile host mplsPath = true) :
    (ParseMPLSFile host j1 mplsPath streamDir).duration
        = (ParseMPLSFile host j2 mplsPath streamDir).duration
    ∧ ((ParseMPLSFile host j1 mplsPath streamDir).duration > 120 →
        eraseId (ParseMPLSFile host j1 mplsPath streamDir)
          = eraseId (ParseMPLSFile host j2 mplsPath streamDir)) := by
  cases hc : host.content mplsPath with
  | none =>
    have e1 := locals_of_unopened host j1 mplsPath streamDir hc
    have e2 := locals_of_unopened host j2 mplsPath streamDir hc
    unfold ParseMPLSFile
    rw [e1, e2]
    exact ⟨rfl, fun _ => rfl⟩
  | some data =>
    by_cases hm : bytesAt data 0 4 = mplsMagic
    · by_cases hhead : 12 ≤ data.length ∧ playlistStartOf data + 8 ≤ data.length
      · have hu : uncutItems data (playlistStartOf data + 10) (playItemCountOf data) = true := by
          unfold uncutFile at h
          simp only [hc] at h
          unfold uncutPlaylist at h
          rw [if_pos ⟨hm, hhead.1, hhead.2⟩] at h
          exact h
        obtain ⟨p1, d1, s1⟩ := locals_of_present_header host j1 mplsPath streamDir data hc hm
          hhead.1 hhead.2
        obtain ⟨p2, d2, s2⟩ := locals_of_present_header host j2 mplsPath streamDir data hc hm
          hhead.1 hhead.2
        obtain ⟨a1, b1⟩ := languages_of_magic host j1 mplsPath streamDir data hc hm
        obtain ⟨a2, b2⟩ := languages_of_magic host j2 mplsPath streamDir data hc hm
        have hitems := decodedItems_of_uncut j1.item j2.item data (playItemCountOf data) 0 0
          (playlistStartOf data + 10) hu
        have hfile : (loopStart data).file
            = { data := data, pos := playlistStartOf data + 10, eofbit := false,
                failbit := false } := rfl
        rw [hfile] at p1 d1 s1 p2 d2 s2
        rw [hitems] at p1 d1 s1
        have hp : (ParseMPLSFile.locals host j1 mplsPath streamDir).playItems
            = (ParseMPLSFile.locals host j2 mplsPath streamDir).playItems := by rw [p1, p2]
        have hd : (ParseMPLSFile host j1 mplsPath streamDir).duration
            = (ParseMPLSFile host j2 mplsPath streamDir).duration := by rw [d1, d2]
        refine ⟨hd, fun _ => ?_⟩
        apply eraseId_eq
        · rw [ParseMPLSFile_filename, ParseMPLSFile_filename]
        · exact hd
        · rw [s1, s2]
        · rw [a1, a2, hp]
        · rw [b1, b2, hp]
      · obtain ⟨fn1, hh1⟩ := readHeader_of_magic j1 data hm
        obtain ⟨fn2, hh2⟩ := readHeader_of_magic j2 data hm
        obtain ⟨f1, n1⟩ := fn1
        obtain ⟨f2, n2⟩ := fn2
        have z1 := (locals_of_failed_header host j1 mplsPath streamDir data f1 n1 hc hh1
          (readHeader_failed_of_short_header j1 data hm hhead f1 n1 hh1)).2.1
        have z2 := (locals_of_failed_header host j2 mplsPath streamDir data f2 n2 hc hh2
          (readHeader_failed_of_short_header j2 data hm hhead f2 n2 hh2)).2.1
        rw [z1, z2]
        exact ⟨rfl, fun hgt => absurd hgt (by norm_num)⟩
    · have z1 := (locals_of_not_magic host j1 mplsPath streamDir data hc hm).2.1
      have z2 := (locals_of_not_magic host j2 mplsPath streamDir data hc hm).2.1
      rw [z1, z2]
      exact ⟨rfl, fun hgt => absurd hgt (by norm_num)⟩

/-- The titles kept by the test `duration > 120` agree up to their ids when
the parsed titles do. -/
theorem kept_eraseId_congr (g1 g2 : String → BDMVTitle) (l : List String)
    (h : ∀ name ∈ l, (g1 name).duration = (g2 name).duration
      ∧ ((g1 name).duration > 120 → eraseId (g1 name) = eraseId (g2 name))) :
    ((l.map g1).filter (fun title => title.duration > 120)).map eraseId
      = ((l.map g2).filter (fun title => title.duration > 120)).map eraseId := by
  induction l with
  | nil => rfl
  | cons name names ih =>
    obtain ⟨hd, he⟩ := h name (List.mem_cons_self _ _)
    have ih2 := ih (fun n hn => h n (List.mem_cons_of_mem _ hn))
    simp only [List.map_cons, List.filter_cons]
    by_cases hgt : (g1 name).duration > 120
    · have hgt2 : (g2 name).duration > 120 := by rw [← hd]; exact hgt
      simp only [hgt, hgt2, decide_True, if_true, List.map_cons]
      rw [he hgt, ih2]
    · have hgt2 : ¬ (g2 name).duration > 120 := by rw [← hd]; exact hgt
      simp only [hgt, hgt2, decide_False]
      exact ih2

/-- The scan of a folder in which no retained item of a playlist is cut by the
end of its file depends on the uninitialised locals in the ids only. -/
theorem scanPlaylists_of_uncut (host : Host) (j1 j2 : Path → MPLSJunk)
    (playlistDir streamDir : Path)
    (h : ∀ name ∈ host.entries playlistDir, extension name = ".mpls" →
      uncutFile host (playlistDir ++ [name]) = true) :
    (scanPlaylists host j1 playlistDir streamDir).map eraseId
      = (scanPlaylists host j2 playlistDir streamDir).map eraseId := by
  rw [scanPlaylists_eq, scanPlaylists_eq]
  apply kept_eraseId_congr
  intro name hname
  obtain ⟨hmem, hext⟩ := List.mem_filter.1 hname
  exact ParseMPLSFile_of_uncut host _ _ _ streamDir (h name hmem (by simpa using hext))

/-- The numbering overwrites the ids. -/
theorem assignIds_congr (l1 : List BDMVTitle) :
    ∀ (l2 : List BDMVTitle) (i : Nat), l1.map eraseId = l2.map eraseId →
      assignIds i l1 = assignIds i l2 := by
  induction l1 with
  | nil =>
    intro l2 i h
    cases l2 with
    | nil => rfl
    | cons u us => simp at h
  | cons t ts ih =>
    intro l2 i h
    cases l2 with
    | nil => simp at h
    | cons u us =>
      simp only [List.map_cons, List.cons.injEq] at h
      simp only [assignIds]
      rw [ih us (i + 1) h.2]
      have ht : ({ t with id := (i : Int) } : BDMVTitle) = { u with id := (i : Int) } := by
        have h1 := h.1
        cases t
        cases u
        simp only [eraseId, BDMVTitle.mk.injEq, true_and] at h1
        simp only [BDMVTitle.mk.injEq, true_and]
        exact h1
      rw [ht]

/-- C17, as the code has it. Take two enumeration orders of the same playlist
folder (same files, same stream folder, same probe results), any contents of
the uninitialised locals in either run, and for `std::sort` any function that
meets its contract. When no retained play item of a playlist of the folder is
cut by the end of its file, the two results of `ParseBDMVFolder` have the same
durations in the same order and the same ids, and hold the same titles up to
their ids; when no two titles of the result have the same duration, the two
results are the same list. -/
theorem C17_enumeration_order (host : Host) (entries : Path → List String)
    (sort : (BDMVTitle → BDMVTitle → Bool) → List BDMVTitle → List BDMVTitle)
    (junk1 junk2 : Path → MPLSJunk) (path : Path) (hsort : StdSortContract sort longerFirst)
    (hperm : ∀ p, (entries p).Perm (host.entries p))
    (huncut : ∀ name ∈ host.entries (bdmvDir path ++ ["PLAYLIST"]), extension name = ".mpls" →
      uncutFile host (bdmvDir path ++ ["PLAYLIST"] ++ [name]) = true) :
    (ParseBDMVFolder { host with entries := entries } sort junk1 path).map (fun t => t.duration)
        = (ParseBDMVFolder host sort junk2 path).map (fun t => t.duration)
    ∧ (ParseBDMVFolder { host with entries := entries } sort junk1 path).map (fun t => t.id)
        = (ParseBDMVFolder host sort junk2 path).map (fun t => t.id)
    ∧ ((ParseBDMVFolder { host with entries := entries } sort junk1 path).map eraseId).Perm
        ((ParseBDMVFolder host sort junk2 path).map eraseId)
    ∧ (((ParseBDMVFolder host sort junk2 path).map (fun t => t.duration)).Nodup →
        ParseBDMVFolder { host with entries := entries } sort junk1 path
          = ParseBDMVFolder host sort junk2 path) := by
  rw [ParseBDMVFolder_eq, ParseBDMVFolder_eq host]
  have hscan : ((scanPlaylists { host with entries := entries } junk1
      (bdmvDir path ++ ["PLAYLIST"]) (bdmvDir path ++ ["STREAM"])).map eraseId).Perm
      ((scanPlaylists host junk2 (bdmvDir path ++ ["PLAYLIST"])
        (bdmvDir path ++ ["STREAM"])).map eraseId) := by
    rw [← scanPlaylists_of_uncut host junk1 junk2 _ _ huncut]
    exact (scanPlaylists_perm host entries junk1 (bdmvDir path ++ ["PLAYLIST"])
      (bdmvDir path ++ ["STREAM"]) (hperm _)).map _
  have hp : ((sort longerFirst (scanPlaylists { host with entries := entries } junk1
      (bdmvDir path ++ ["PLAYLIST"]) (bdmvDir path ++ ["STREAM"]))).map eraseId).Perm
      ((sort longerFirst (scanPlaylists host junk2 (bdmvDir path ++ ["PLAYLIST"])
        (bdmvDir path ++ ["STREAM"]))).map eraseId) :=
    (((hsort _).1.map _).trans hscan).trans ((hsort _).1.map _).symm
  have hsorted : ∀ l : List BDMVTitle,
      ((sort longerFirst l).map eraseId).Pairwise (fun a b => a.duration ≥ b.duration) := by
    intro l
    exact List.pairwise_map.2 (sorted_scan sort hsort l)
  have hdur : ∀ l : List BDMVTitle,
      (l.map eraseId).map (fun t => t.duration) = l.map (fun t => t.duration) := by
    intro l
    rw [List.map_map]
    rfl
  obtain ⟨hd, heq⟩ := sorted_perm_titles _ _ hp (hsorted _) (hsorted _)
  rw [hdur, hdur] at hd
  rw [hdur] at heq
  by_cases hex : host.pathExists (bdmvDir path) = true
      ∧ host.pathExists (bdmvDir path ++ ["PLAYLIST"]) = true
      ∧ host.pathExists (bdmvDir path ++ ["STREAM"]) = true
  · rw [if_pos hex, if_pos hex]
    refine ⟨?_, ?_, ?_, ?_⟩
    · rw [assignIds_duration, assignIds_duration, hd]
    · rw [assignIds_ids, assignIds_ids]
      have := hp.length_eq
      simp only [List.length_map] at this
      rw [this]
    · rw [assignIds_eraseId, assignIds_eraseId]
      exact hp
    · intro hn
      rw [assignIds_duration, ← hd] at hn
      exact assignIds_congr _ _ 0 (heq hn)
  · rw [if_neg hex, if_neg hex]
    exact ⟨rfl, rfl, List.Perm.refl _, fun _ => rfl⟩

theorem C17_enumeration_order_witness :
    StdSortContract insertionSortTitles longerFirst
    ∧ (∀ p, ((fun q => (disc3.entries q).reverse) p).Perm (disc3.entries p))
    ∧ (∀ name ∈ disc3.entries (bdmvDir ["disc"] ++ ["PLAYLIST"]), extension name = ".mpls" →
        uncutFile disc3 (bdmvDir ["disc"] ++ ["PLAYLIST"] ++ [name]) = true)
    ∧ (ParseBDMVFolder { disc3 with entries := fun q => (disc3.entries q).reverse }
          insertionSortTitles (fun _ => zeroJunk) ["disc"]).map (fun t => t.duration)
        = (ParseBDMVFolder disc3 insertionSortTitles (fun _ => staleJunk) ["disc"]).map
            (fun t => t.duration)
    ∧ (ParseBDMVFolder { disc3 with entries := fun q => (disc3.entries q).reverse }
          insertionSortTitles (fun _ => zeroJunk) ["disc"]).map (fun t => t.id)
        = (ParseBDMVFolder disc3 insertionSortTitles (fun _ => staleJunk) ["disc"]).map
            (fun t => t.id)
    ∧ ((ParseBDMVFolder { disc3 with entries := fun q => (disc3.entries q).reverse }
          insertionSortTitles (fun _ => zeroJunk) ["disc"]).map eraseId).Perm
        ((ParseBDMVFolder disc3 insertionSortTitles (fun _ => staleJunk) ["disc"]).map eraseId)
    ∧ (((ParseBDMVFolder disc3 insertionSortTitles (fun _ => staleJunk) ["disc"]).map
          (fun t => t.duration)).Nodup →
        ParseBDMVFolder { disc3 with entries := fun q => (disc3.entries q).reverse }
            insertionSortTitles (fun _ => zeroJunk) ["disc"]
          = ParseBDMVFolder disc3 insertionSortTitles (fun _ => staleJunk) ["disc"]) :=
  ⟨insertionSortTitles_contract, fun _ => List.reverse_perm _, by decide,
    C17_enumeration_order disc3 (fun q => (disc3.entries q).reverse) insertionSortTitles
      (fun _ => zeroJunk) (fun _ => staleJunk) ["disc"] insertionSortTitles_contract
      (fun _ => List.reverse_perm _) (by decide)⟩

/-- The titles of `discCut`: the cut playlist `b.mpls` gets its duration from
the uninitialised `outTime`. -/
theorem cut_titles :
    (ParseMPLSFile (discCut ["a.mpls", "b.mpls"]) staleJunk (discPlaylist "a.mpls")
        discStream).duration = 7200
    ∧ (ParseMPLSFile (discCut ["a.mpls", "b.mpls"]) staleJunk (discPlaylist "b.mpls")
        discStream).duration = 7200
    ∧ (ParseMPLSFile (discCut ["b.mpls", "a.mpls"]) zeroJunk (discPlaylist "a.mpls")
        discStream).duration = 7200
    ∧ (ParseMPLSFile (discCut ["b.mpls", "a.mpls"]) zeroJunk (discPlaylist "b.mpls")
        discStream).duration = 0 := by
  have i1 : (ParseMPLSFile.locals (discCut ["a.mpls", "b.mpls"]) staleJunk
      (discPlaylist "a.mpls") discStream).playItems = [PlayItem.mk "00001" 0 324000000] := by
    decide
  have i2 : (ParseMPLSFile.locals (discCut ["a.mpls", "b.mpls"]) staleJunk
      (discPlaylist "b.mpls") discStream).playItems = [PlayItem.mk "00" 0 324000000] := by
    decide
  have i3 : (ParseMPLSFile.locals (discCut ["b.mpls", "a.mpls"]) zeroJunk
      (discPlaylist "a.mpls") discStream).playItems = [PlayItem.mk "00001" 0 324000000] := by
    decide
  have i4 : (ParseMPLSFile.locals (discCut ["b.mpls", "a.mpls"]) zeroJunk
      (discPlaylist "b.mpls") discStream).playItems = [PlayItem.mk "00" 0 0] := by
    decide
  refine ⟨?_, ?_, ?_, ?_⟩
  · rw [ParseMPLSFile_duration_eq, i1]
    norm_num [PlayItem.GetDurationSeconds]
  · rw [ParseMPLSFile_duration_eq, i2]
    norm_num [PlayItem.GetDurationSeconds]
  · rw [ParseMPLSFile_duration_eq, i3]
    norm_num [PlayItem.GetDurationSeconds]
  · rw [ParseMPLSFile_duration_eq, i4]
    norm_num [PlayItem.GetDurationSeconds]

/-- The results of `ParseBDMVFolder` on `discCut`, in the order `a, b` with
`staleJunk` and in the order `b, a` with `zeroJunk`. -/
theorem cut_folder :
    (ParseBDMVFolder (discCut ["a.mpls", "b.mpls"]) insertionSortTitles (fun _ => staleJunk)
        ["disc"]).map (fun t => (t.filename, t.duration, t.id))
      = [("b.mpls", 7200, 0), ("a.mpls", 7200, 1)]
    ∧ (ParseBDMVFolder (discCut ["b.mpls", "a.mpls"]) insertionSortTitles (fun _ => zeroJunk)
        ["disc"]).map (fun t => (t.filename, t.duration, t.id))
      = [("a.mpls", 7200, 0)] := by
  obtain ⟨d1, d2, d3, d4⟩ := cut_titles
  have ea : extension "a.mpls" = ".mpls" := by decide
  have eb : extension "b.mpls" = ".mpls" := by decide
  have pa : ["disc", "BDMV", "PLAYLIST"] ++ ["a.mpls"] = discPlaylist "a.mpls" := rfl
  have pb : ["disc", "BDMV", "PLAYLIST"] ++ ["b.mpls"] = discPlaylist "b.mpls" := rfl
  have f1 := ParseMPLSFile_filename (discCut ["a.mpls", "b.mpls"]) staleJunk
    (discPlaylist "a.mpls") discStream
  have f2 := ParseMPLSFile_filename (discCut ["a.mpls", "b.mpls"]) staleJunk
    (discPlaylist "b.mpls") discStream
  have f3 := ParseMPLSFile_filename (discCut ["b.mpls", "a.mpls"]) zeroJunk
    (discPlaylist "a.mpls") discStream
  have na : filename (discPlaylist "a.mpls") = "a.mpls" := by decide
  have nb : filename (discPlaylist "b.mpls") = "b.mpls" := by decide
  rw [na] at f1 f3
  rw [nb] at f2
  constructor
  · have hfold : ParseBDMVFolder (discCut ["a.mpls", "b.mpls"]) insertionSortTitles
        (fun _ => staleJunk) ["disc"]
        = assignIds 0 (insertionSortTitles longerFirst
            (scanPlaylists (discCut ["a.mpls", "b.mpls"]) (fun _ => staleJunk)
              ["disc", "BDMV", "PLAYLIST"] discStream)) := rfl
    have hent : (discCut ["a.mpls", "b.mpls"]).entries ["disc", "BDMV", "PLAYLIST"]
        = ["a.mpls", "b.mpls"] := rfl
    rw [hfold, scanPlaylists_eq, hent]
    simp only [List.filter, ea, eb, decide_True, List.map, pa, pb, d1, d2]
    norm_num [insertionSortTitles, insertByDuration, assignIds, d1, d2, f1, f2]
  · have hfold : ParseBDMVFolder (discCut ["b.mpls", "a.mpls"]) insertionSortTitles
        (fun _ => zeroJunk) ["disc"]
        = assignIds 0 (insertionSortTitles longerFirst
            (scanPlaylists (discCut ["b.mpls", "a.mpls"]) (fun _ => zeroJunk)
              ["disc", "BDMV", "PLAYLIST"] discStream)) := rfl
    have hent : (discCut ["b.mpls", "a.mpls"]).entries ["disc", "BDMV", "PLAYLIST"]
        = ["b.mpls", "a.mpls"] := rfl
    rw [hfold, scanPlaylists_eq, hent]
    simp only [List.filter, ea, eb, decide_True, List.map, pa, pb, d3, d4]
    norm_num [insertionSortTitles, insertByDuration, assignIds, d3, d4, f3]

/-- C17 as stated fails, in two ways. First, the folder `discTie` holds the
playlists `a.mpls` and `b.mpls`, both of 7200 s. With insertion sort for
`std::sort`, which meets its contract, the enumeration order `a.mpls, b.mpls`
gives `b.mpls` the id 0 and `a.mpls` the id 1, and the order `b.mpls, a.mpls`
gives `a.mpls` the id 0 and `b.mpls` the id 1. Second, in the folder `discCut`
the playlist `b.mpls` is cut inside the clip identifier of its one item, so
the item is retained with the uninitialised `inTime` and `outTime`. In the
order `a.mpls, b.mpls`, with `outTime` holding the bytes that the call for
`a.mpls` left, `b.mpls` is a second title of 7200 s; in the order
`b.mpls, a.mpls`, with zeros there, it has duration 0 and the result has one
title. -/
theorem C17_counterexample :
    StdSortContract insertionSortTitles longerFirst
    ∧ ((discTie ["b.mpls", "a.mpls"]).entries ["disc", "BDMV", "PLAYLIST"]).Perm
        ((discTie ["a.mpls", "b.mpls"]).entries ["disc", "BDMV", "PLAYLIST"])
    ∧ (ParseBDMVFolder (discTie ["a.mpls", "b.mpls"]) insertionSortTitles
          (fun _ => zeroJunk) ["disc"]).map (fun t => (t.filename, t.duration, t.id))
        = [("b.mpls", 7200, 0), ("a.mpls", 7200, 1)]
    ∧ (ParseBDMVFolder (discTie ["b.mpls", "a.mpls"]) insertionSortTitles
          (fun _ => zeroJunk) ["disc"]).map (fun t => (t.filename, t.duration, t.id))
        = [("a.mpls", 7200, 0), ("b.mpls", 7200, 1)]
    ∧ ParseBDMVFolder (discTie ["a.mpls", "b.mpls"]) insertionSortTitles
          (fun _ => zeroJunk) ["disc"]
        ≠ ParseBDMVFolder (discTie ["b.mpls", "a.mpls"]) insertionSortTitles
            (fun _ => zeroJunk) ["disc"]
    ∧ ((discCut ["b.mpls", "a.mpls"]).entries ["disc", "BDMV", "PLAYLIST"]).Perm
        ((discCut ["a.mpls", "b.mpls"]).entries ["disc", "BDMV", "PLAYLIST"])
    ∧ uncutFile (discCut ["a.mpls", "b.mpls"]) (discPlaylist "b.mpls") = false
    ∧ (ParseBDMVFolder (discCut ["a.mpls", "b.mpls"]) insertionSortTitles
          (fun _ => staleJunk) ["disc"]).map (fun t => (t.filename, t.duration, t.id))
        = [("b.mpls", 7200, 0), ("a.mpls", 7200, 1)]
    ∧ (ParseBDMVFolder (discCut ["b.mpls", "a.mpls"]) insertionSortTitles
          (fun _ => zeroJunk) ["disc"]).map (fun t => (t.filename, t.duration, t.id))
        = [("a.mpls", 7200, 0)] := by
  have hab := tie_folder "a.mpls" "b.mpls" (Or.inl rfl) (Or.inr rfl)
  have hba := tie_folder "b.mpls" "a.mpls" (Or.inr rfl) (Or.inl rfl)
  refine ⟨insertionSortTitles_contract, List.Perm.swap _ _ _, hab, hba, ?_,
    List.Perm.swap _ _ _, by decide, cut_folder.1, cut_folder.2⟩
  intro h
  rw [h, hba] at hab
  simp at hab

theorem filename_append (dir : Path) (name : String) : filename (dir ++ [name]) = name := by
  simp [filename]

/-- Every title of the scan carries the name of an entry of the playlist
folder whose extension is `.mpls`. -/
theorem scanPlaylists_filename (host : Host) (junk : Path → MPLSJunk)
    (playlistDir streamDir : Path) (t : BDMVTitle)
    (h : t ∈ scanPlaylists host junk playlistDir streamDir) :
    t.filename ∈ host.entries playlistDir ∧ extension t.filename = ".mpls" := by
  rw [scanPlaylists_eq] at h
  obtain ⟨name, hname, ht⟩ := List.mem_map.1 (List.mem_filter.1 h).1
  have hf : t.filename = name := by
    rw [← ht, ParseMPLSFile_filename, filename_append]
  rw [hf]
  have := List.mem_filter.1 hname
  exact ⟨this.1, by simpa using this.2⟩

/-- C18. For every root path and file-system state, `ParseBDMVFolder` looks
into the root itself when its last component is `BDMV` and into `<root>/BDMV`
otherwise. It returns the empty list whenever that folder, its subfolder
`PLAYLIST` or its subfolder `STREAM` does not exist. When all three exist, the
result is the numbered, sorted list of the titles longer than 120 s parsed
from the entries of `PLAYLIST` whose extension is `.mpls`, and from no other
entry: every title of the result carries the name of such an entry. -/
theorem C18_missing_structure (host : Host)
    (sort : (BDMVTitle → BDMVTitle → Bool) → List BDMVTitle → List BDMVTitle)
    (junk : Path → MPLSJunk) (path bdmv : Path) (hsort : StdSortContract sort longerFirst)
    (hbdmv : bdmv = if filename path = "BDMV" then path else path ++ ["BDMV"]) :
    ((host.pathExists bdmv = false ∨ host.pathExists (bdmv ++ ["PLAYLIST"]) = false
        ∨ host.pathExists (bdmv ++ ["STREAM"]) = false) →
      ParseBDMVFolder host sort junk path = [])
    ∧ ((host.pathExists bdmv = true ∧ host.pathExists (bdmv ++ ["PLAYLIST"]) = true
        ∧ host.pathExists (bdmv ++ ["STREAM"]) = true) →
      ParseBDMVFolder host sort junk path
        = assignIds 0 (sort longerFirst
            ((((host.entries (bdmv ++ ["PLAYLIST"])).filter
                (fun name => extension name = ".mpls")).map
              (fun name => ParseMPLSFile host (junk (bdmv ++ ["PLAYLIST"] ++ [name]))
                (bdmv ++ ["PLAYLIST"] ++ [name]) (bdmv ++ ["STREAM"]))).filter
              (fun title => title.duration > 120))))
    ∧ (∀ t ∈ ParseBDMVFolder host sort junk path,
        t.filename ∈ host.entries (bdmv ++ ["PLAYLIST"]) ∧ extension t.filename = ".mpls") := by
  have hb : bdmv = bdmvDir path := hbdmv
  subst hb
  refine ⟨?_, ?_, ?_⟩
  · intro h
    rw [ParseBDMVFolder_eq, if_neg]
    rintro ⟨h1, h2, h3⟩
    rcases h with h | h | h
    · rw [h1] at h; exact absurd h (by decide)
    · rw [h2] at h; exact absurd h (by decide)
    · rw [h3] at h; exact absurd h (by decide)
  · intro h
    rw [ParseBDMVFolder_eq, if_pos h, scanPlaylists_eq]
  · intro t ht
    rw [ParseBDMVFolder_eq] at ht
    by_cases hex : host.pathExists (bdmvDir path) = true
        ∧ host.pathExists (bdmvDir path ++ ["PLAYLIST"]) = true
        ∧ host.pathExists (bdmvDir path ++ ["STREAM"]) = true
    · rw [if_pos hex] at ht
      have hf : t.filename ∈ (assignIds 0 (sort longerFirst (scanPlaylists host junk
          (bdmvDir path ++ ["PLAYLIST"]) (bdmvDir path ++ ["STREAM"])))).map
          (fun t => t.filename) := List.mem_map_of_mem _ ht
      rw [assignIds_filename] at hf
      obtain ⟨u, hu, hfu⟩ := List.mem_map.1 hf
      have hu' := ((hsort _).1.mem_iff).1 hu
      have := scanPlaylists_filename host junk _ _ u hu'
      rw [← hfu]
      exact this
    · rw [if_neg hex] at ht
      simp at ht

theorem C18_missing_structure_witness :
    StdSortContract insertionSortTitles longerFirst
    ∧ (["disc", "BDMV"] : Path) = (if filename ["disc"] = "BDMV" then ["disc"]
        else ["disc"] ++ ["BDMV"])
    ∧ discNoStream.pathExists (["disc", "BDMV"] ++ ["STREAM"]) = false
    ∧ ParseBDMVFolder discNoStream insertionSortTitles (fun _ => zeroJunk) ["disc"] = [] :=
  ⟨insertionSortTitles_contract, by decide, by decide,
    (C18_missing_structure discNoStream insertionSortTitles (fun _ => zeroJunk) ["disc"]
      ["disc", "BDMV"] insertionSortTitles_contract (by decide)).1
      (Or.inr (Or.inr (by decide)))⟩

/-! ## Claims on wrap-around and on the clip name -/

theorem nulPrefix_longest (buf : List Byte) :
    ∀ l : List Byte, l <+: buf → (∀ b ∈ l, b ≠ 0) → l.length ≤ (nulPrefix buf).length := by
  induction buf with
  | nil =>
    intro l hl _
    rw [List.prefix_nil.1 hl]
    exact Nat.zero_le _
  | cons x xs ih =>
    intro l hl hnz
    cases l with
    | nil => exact Nat.zero_le _
    | cons y ys =>
      obtain ⟨hxy, hys⟩ := List.cons_prefix_cons.1 hl
      have hy : y ≠ 0 := hnz y (List.mem_cons_self _ _)
      have hx : x ≠ 0 := by rw [← hxy]; exact hy
      have hrest := ih ys hys (fun b hb => hnz b (List.mem_cons_of_mem _ hb))
      have hcons : nulPrefix (x :: xs) = x :: nulPrefix xs := by
        unfold nulPrefix
        rw [List.takeWhile_cons]
        simp [hx]
      rw [hcons, List.length_cons, List.length_cons]
      omega

theorem cString_eq_empty_iff (x : Byte) (xs : List Byte) :
    cString (x :: xs) = "" ↔ x = 0 := by
  unfold cString
  rw [List.takeWhile_cons]
  by_cases hx : x = 0
  · simp [hx]
  · simp only [hx, ne_eq, not_false_eq_true, decide_True, if_true, List.map_cons, iff_false]
    intro h
    have := congrArg String.data h
    simp at this

theorem cString_length (buf : List Byte) : (cString buf).length = (nulPrefix buf).length := by
  unfold cString nulPrefix
  simp [String.length]

theorem bytesAt_cons (data : List Byte) (q : Nat) (h : q < data.length) :
    ∃ x xs, bytesAt data q 1 = [x] ∧ bytesAt data q 5 = x :: xs := by
  unfold bytesAt
  cases hd : data.drop q with
  | nil =>
    have := congrArg List.length hd
    rw [List.length_drop] at this
    simp at this
    omega
  | cons x xs => exact ⟨x, xs.take 4, rfl, rfl⟩

/-- C20. For every play item whose reads succeed, the clip name is made of
the longest prefix of the five identifier bytes that holds no zero byte, so it
has at most five characters; it is empty, and the item is discarded, exactly
when the first identifier byte is zero; otherwise the item is retained under
this name, which is the one used in `<clipName>.m2ts` for the size of the
title and for the languages. -/
theorem C20_nul_truncation (junk : PlayItemJunk) (file : IfStream)
    (hgood : file.good = true) (hpresent : file.pos + 2 + 22 ≤ file.data.length) :
    (ParsePlayItem junk file).1.clipName
        = String.mk ((nulPrefix (bytesAt file.data (file.pos + 2) 5)).map
            (fun b => Char.ofNat b.val))
    ∧ nulPrefix (bytesAt file.data (file.pos + 2) 5) <+: bytesAt file.data (file.pos + 2) 5
    ∧ (∀ b ∈ nulPrefix (bytesAt file.data (file.pos + 2) 5), b ≠ 0)
    ∧ (∀ l : List Byte, l <+: bytesAt file.data (file.pos + 2) 5 → (∀ b ∈ l, b ≠ 0) →
        l.length ≤ (nulPrefix (bytesAt file.data (file.pos + 2) 5)).length)
    ∧ (ParsePlayItem junk file).1.clipName.length
        = (nulPrefix (bytesAt file.data (file.pos + 2) 5)).length
    ∧ (ParsePlayItem junk file).1.clipName.length ≤ 5
    ∧ ((ParsePlayItem junk file).1.clipName = ""
        ↔ bytesAt file.data (file.pos + 2) 1 = [0])
    ∧ (∀ (host : Host) (streamDir : Path) (st : LoopState), st.file = file →
        (bytesAt file.data (file.pos + 2) 1 = [0] →
          (loopBody host streamDir junk st).playItems = st.playItems
          ∧ (loopBody host streamDir junk st).duration = st.duration
          ∧ (loopBody host streamDir junk st).size = st.size)
        ∧ (bytesAt file.data (file.pos + 2) 1 ≠ [0] →
          (loopBody host streamDir junk st).playItems
              = st.playItems ++ [(ParsePlayItem junk file).1]
          ∧ (loopBody host streamDir junk st).size
              = if host.pathExists
                    (streamDir ++ [(ParsePlayItem junk file).1.clipName ++ ".m2ts"]) then
                  (st.size + host.fileSize
                    (streamDir ++ [(ParsePlayItem junk file).1.clipName ++ ".m2ts"]))
                    % 2 ^ host.sizeBits
                else st.size))
    ∧ (∀ (host : Host) (streamDir : Path) (rest : List PlayItem),
        GetAudioLanguages host streamDir ((ParsePlayItem junk file).1 :: rest)
          = if host.pathExists
                (streamDir ++ [(ParsePlayItem junk file).1.clipName ++ ".m2ts"]) = true
              ∧ AnalyzeStreamLanguages host
                  (streamDir ++ [(ParsePlayItem junk file).1.clipName ++ ".m2ts"]) "audio"
                ≠ [] then
              AnalyzeStreamLanguages host
                (streamDir ++ [(ParsePlayItem junk file).1.clipName ++ ".m2ts"]) "audio"
            else ["English", "French", "Spanish"]) := by
  have hname : (ParsePlayItem junk file).1.clipName
      = cString (bytesAt file.data (file.pos + 2) 5) := by
    rw [ParsePlayItem_of_good junk file hgood (by omega)]
  obtain ⟨x, xs, hx1, hx5⟩ := bytesAt_cons file.data (file.pos + 2) (by omega)
  have hlen5 : (bytesAt file.data (file.pos + 2) 5).length = 5 :=
    bytesAt_length _ _ _ (by omega)
  have hempty : (ParsePlayItem junk file).1.clipName = ""
      ↔ bytesAt file.data (file.pos + 2) 1 = [0] := by
    rw [hname, hx5, hx1, cString_eq_empty_iff]
    simp
  have hlen : (ParsePlayItem junk file).1.clipName.length
      = (nulPrefix (bytesAt file.data (file.pos + 2) 5)).length := by
    rw [hname, cString_length]
  refine ⟨hname, List.takeWhile_prefix _, ?_, nulPrefix_longest _, hlen, ?_, hempty, ?_, ?_⟩
  · intro b hb
    have := List.mem_takeWhile_imp hb
    simpa using this
  · rw [hlen]
    have hle : (nulPrefix (bytesAt file.data (file.pos + 2) 5)).length
        ≤ (bytesAt file.data (file.pos + 2) 5).length :=
      (List.takeWhile_prefix _).length_le
    omega
  · intro host streamDir st hst
    subst hst
    constructor
    · intro hz
      exact loopBody_of_discarded host streamDir junk st
        (by simp [retained, hempty.2 hz])
    · intro hnz
      have hr : retained (ParsePlayItem junk st.file).1 = true := by
        simp only [retained, decide_eq_true_eq]
        exact fun h => hnz (hempty.1 h)
      obtain ⟨b1, _, b3⟩ := loopBody_of_retained host streamDir junk st hr
      exact ⟨b1, b3⟩
  · intro host streamDir rest
    exact GetAudioLanguages_cons host streamDir _ rest

theorem C20_nul_truncation_witness :
    nulIdStream.good = true
    ∧ nulIdStream.pos + 2 + 22 ≤ nulIdStream.data.length
    ∧ bytesAt nulIdStream.data (nulIdStream.pos + 2) 5 = [48, 48, 0, 48, 49]
    ∧ nulPrefix (bytesAt nulIdStream.data (nulIdStream.pos + 2) 5) = [48, 48]
    ∧ (ParsePlayItem zeroItemJunk nulIdStream).1.clipName = "00"
    ∧ (ParsePlayItem zeroItemJunk nulIdStream).1.clipName
        = String.mk ((nulPrefix (bytesAt nulIdStream.data (nulIdStream.pos + 2) 5)).map
            (fun b => Char.ofNat b.val))
    ∧ ((ParsePlayItem zeroItemJunk nulIdStream).1.clipName = ""
        ↔ bytesAt nulIdStream.data (nulIdStream.pos + 2) 1 = [0]) :=
  ⟨by decide, by decide, by decide, by decide, by decide,
    (C20_nul_truncation zeroItemJunk nulIdStream (by decide) (by decide)).1,
    (C20_nul_truncation zeroItemJunk nulIdStream (by decide) (by decide)).2.2.2.2.2.2.1⟩

/-! ## Claims on the main title -/

/-- What the loop of `std::max_element` returns, `pre` being the elements
already visited: an element of maximal duration, with only shorter ones in
front of it. -/
theorem maxElementFrom_spec (ts : List BDMVTitle) :
    ∀ (pre : List BDMVTitle) (k : Nat) (largest : BDMVTitle),
      pre.get? k = some largest →
      (∀ u ∈ pre, u.duration ≤ largest.duration) →
      (∀ u ∈ pre.take k, u.duration < largest.duration) →
      (pre ++ ts).get? (maxElementFrom shorterThan k largest pre.length ts).1
          = some (maxElementFrom shorterThan k largest pre.length ts).2
      ∧ (∀ u ∈ pre ++ ts,
          u.duration ≤ (maxElementFrom shorterThan k largest pre.length ts).2.duration)
      ∧ (∀ u ∈ (pre ++ ts).take (maxElementFrom shorterThan k largest pre.length ts).1,
          u.duration < (maxElementFrom shorterThan k largest pre.length ts).2.duration) := by
  induction ts with
  | nil =>
    intro pre k largest hget hmax hfirst
    simp only [maxElementFrom, List.append_nil]
    exact ⟨hget, hmax, hfirst⟩
  | cons t ts ih =>
    intro pre k largest hget hmax hfirst
    have hk : k < pre.length := by
      rcases Nat.lt_or_ge k pre.length with h | h
      · exact h
      · rw [List.get?_eq_none.2 h] at hget
        exact absurd hget (by simp)
    have happ : pre ++ t :: ts = (pre ++ [t]) ++ ts := by simp
    have hlen : (pre ++ [t]).length = pre.length + 1 := by simp
    simp only [maxElementFrom]
    by_cases hc : shorterThan largest t = true
    · have hlt : largest.duration < t.duration := by simpa [shorterThan] using hc
      rw [if_pos hc, happ, ← hlen]
      apply ih (pre ++ [t]) pre.length t
      · rw [List.get?_eq_getElem?, List.getElem?_append_right (le_refl _)]
        simp
      · intro u hu
        rcases List.mem_append.1 hu with h | h
        · exact le_of_lt (lt_of_le_of_lt (hmax u h) hlt)
        · rw [List.mem_singleton.1 h]
      · intro u hu
        rw [List.take_left' rfl] at hu
        exact lt_of_le_of_lt (hmax u hu) hlt
    · have hle : t.duration ≤ largest.duration := by
        have : ¬ largest.duration < t.duration := by simpa [shorterThan] using hc
        exact not_lt.1 this
      rw [if_neg hc, happ, ← hlen]
      apply ih (pre ++ [t]) k largest
      · rw [List.get?_eq_getElem?, List.getElem?_append_left hk, ← List.get?_eq_getElem?]
        exact hget
      · intro u hu
        rcases List.mem_append.1 hu with h | h
        · exact hmax u h
        · rw [List.mem_singleton.1 h]
          exact hle
      · intro u hu
        rw [List.take_append_of_le_length (le_of_lt hk)] at hu
        exact hfirst u hu

/-- While no later element is longer than the one kept, the loop of
`std::max_element` keeps it. -/
theorem maxElementFrom_of_no_longer (ts : List BDMVTitle) :
    ∀ (k : Nat) (largest : BDMVTitle) (i : Nat),
      (∀ t ∈ ts, largest.duration ≥ t.duration) →
      maxElementFrom shorterThan k largest i ts = (k, largest) := by
  induction ts with
  | nil => intro k largest i _; rfl
  | cons t ts ih =>
    intro k largest i h
    have hc : shorterThan largest t = false := by
      have := h t (List.mem_cons_self _ _)
      simpa [shorterThan] using this
    simp only [maxElementFrom, hc, Bool.false_eq_true, if_false]
    exact ih k largest (i + 1) (fun u hu => h u (List.mem_cons_of_mem _ hu))

/-- The result of `ParseBDMVFolder` is in descending order of duration. -/
theorem ParseBDMVFolder_descending (host : Host)
    (sort : (BDMVTitle → BDMVTitle → Bool) → List BDMVTitle → List BDMVTitle)
    (junk : Path → MPLSJunk) (path : Path) (hsort : StdSortContract sort longerFirst) :
    (ParseBDMVFolder host sort junk path).Pairwise (fun a b => a.duration ≥ b.duration) := by
  rcases ParseBDMVFolder_cases host sort junk path with h | ⟨pd, sd, h⟩
  · rw [h]
    exact List.Pairwise.nil
  · rw [h]
    exact List.pairwise_map.1 (sorted_descending sort hsort _)

/-- The first title of a non-empty result of `ParseBDMVFolder` has id 0. -/
theorem ParseBDMVFolder_head_id (host : Host)
    (sort : (BDMVTitle → BDMVTitle → Bool) → List BDMVTitle → List BDMVTitle)
    (junk : Path → MPLSJunk) (path : Path) (first : BDMVTitle) (rest : List BDMVTitle)
    (h : ParseBDMVFolder host sort junk path = first :: rest) : first.id = 0 := by
  rcases ParseBDMVFolder_cases host sort junk path with h0 | ⟨pd, sd, h1⟩
  · rw [h0] at h
    exact absurd h (by simp)
  · rw [h1] at h
    cases hl : sort longerFirst (scanPlaylists host junk pd sd) with
    | nil =>
      rw [hl] at h
      simp [assignIds] at h
    | cons u us =>
      rw [hl] at h
      simp only [assignIds, List.cons.injEq] at h
      rw [← h.1]
      rfl

/-- C21. For every non-empty list of titles returned by `ParseBDMVFolder`
(`std::sort` being any function that meets its contract), the title that
`ProcessFiles` selects with `std::max_element` under the comparator
`a.duration < b.duration` is the element at index 0 of the list, and its id
is 0; this holds whether or not several titles tie for the longest duration.
On any list, `std::max_element` returns the first element of maximal
duration: no title is longer and every title in front of it is shorter. -/
theorem C21_main_title_is_first (host : Host)
    (sort : (BDMVTitle → BDMVTitle → Bool) → List BDMVTitle → List BDMVTitle)
    (junk : Path → MPLSJunk) (path : Path) (hsort : StdSortContract sort longerFirst)
    (hne : ParseBDMVFolder host sort junk path ≠ []) :
    (max_element shorterThan (ParseBDMVFolder host sort junk path)).map Prod.fst = some 0
    ∧ mainTitle (ParseBDMVFolder host sort junk path)
        = (ParseBDMVFolder host sort junk path).head?
    ∧ (∀ t, mainTitle (ParseBDMVFolder host sort junk path) = some t → t.id = 0)
    ∧ (∀ (titles : List BDMVTitle) (i : Nat) (t : BDMVTitle),
        max_element shorterThan titles = some (i, t) →
        titles.get? i = some t
        ∧ (∀ u ∈ titles, u.duration ≤ t.duration)
        ∧ (∀ u ∈ titles.take i, u.duration < t.duration)) := by
  have hdesc := ParseBDMVFolder_descending host sort junk path hsort
  cases hR : ParseBDMVFolder host sort junk path with
  | nil => exact absurd hR hne
  | cons first rest =>
    rw [hR] at hdesc
    have hid := ParseBDMVFolder_head_id host sort junk path first rest hR
    have hmax : max_element shorterThan (first :: rest) = some (0, first) := by
      simp only [max_element]
      rw [maxElementFrom_of_no_longer rest 0 first 1 (List.pairwise_cons.1 hdesc).1]
    have hmain : mainTitle (first :: rest) = some first := by
      simp [mainTitle, hmax]
    refine ⟨by rw [hmax]; rfl, by rw [hmain]; rfl, ?_, ?_⟩
    · intro t ht
      rw [hmain] at ht
      rw [← Option.some.inj ht]
      exact hid
    · intro titles i t ht
      cases titles with
      | nil => simp [max_element] at ht
      | cons x xs =>
        simp only [max_element, Option.some.injEq] at ht
        have hspec := maxElementFrom_spec xs [x] 0 x rfl
          (fun u hu => by rw [List.mem_singleton.1 hu])
          (fun u hu => by simp at hu)
        have hlen : ([x] : List BDMVTitle).length = 1 := rfl
        rw [hlen, ht] at hspec
        exact hspec

theorem C21_main_title_is_first_witness :
    StdSortContract insertionSortTitles longerFirst
    ∧ ParseBDMVFolder (discTie ["a.mpls", "b.mpls"]) insertionSortTitles
        (fun _ => zeroJunk) ["disc"] ≠ []
    ∧ (ParseBDMVFolder (discTie ["a.mpls", "b.mpls"]) insertionSortTitles
          (fun _ => zeroJunk) ["disc"]).map (fun t => (t.filename, t.duration, t.id))
        = [("b.mpls", 7200, 0), ("a.mpls", 7200, 1)]
    ∧ (max_element shorterThan (ParseBDMVFolder (discTie ["a.mpls", "b.mpls"])
          insertionSortTitles (fun _ => zeroJunk) ["disc"])).map Prod.fst = some 0
    ∧ mainTitle (ParseBDMVFolder (discTie ["a.mpls", "b.mpls"]) insertionSortTitles
          (fun _ => zeroJunk) ["disc"])
        = (ParseBDMVFolder (discTie ["a.mpls", "b.mpls"]) insertionSortTitles
            (fun _ => zeroJunk) ["disc"]).head? :=
  have hne : ParseBDMVFolder (discTie ["a.mpls", "b.mpls"]) insertionSortTitles
      (fun _ => zeroJunk) ["disc"] ≠ [] := by
    intro h
    have := tie_folder "a.mpls" "b.mpls" (Or.inl rfl) (Or.inr rfl)
    rw [h] at this
    simp at this
  ⟨insertionSortTitles_contract, hne, tie_folder "a.mpls" "b.mpls" (Or.inl rfl) (Or.inr rfl),
    (C21_main_title_is_first (discTie ["a.mpls", "b.mpls"]) insertionSortTitles
      (fun _ => zeroJunk) ["disc"] insertionSortTitles_contract hne).1,
    (C21_main_title_is_first (discTie ["a.mpls", "b.mpls"]) insertionSortTitles
      (fun _ => zeroJunk) ["disc"] insertionSortTitles_contract hne).2.1⟩

end MultiREMUXer
